import Mathlib

/-!
# Grid search and multilinear interpolation (`ponzi4_fns.cpp`)

A shallow embedding of the numerical core of `src/ponzi4_fns.cpp`: the linear
index codec, the grid cell locator, the 1-D/2-D/3-D interpolation routines and
the serial and parallel exhaustive grid searches, followed by theorems about
them.

Conventions of the embedding.

* `unsigned int` is a `Nat` kept below `2^32`; every operation that can wrap
  is followed by `% 4294967296`.
* `int` is an `Int`; conversions between `int` and `unsigned int` are the
  explicit functions `toUInt` and `toInt`.
* A NumPy 1-D grid is a `List` of its samples; its `dimensions[0]` is the
  length of the list, taken to fit `int`. Strides are not modelled.
* A failed `assert`, undefined behaviour (division by zero, a read outside an
  array, a read of an uninitialised local) and fuel exhaustion of a modelled
  `while` loop are the three constructors of `Fault`; fallible code returns
  `Except Fault`.
-/

namespace Ponzi

/-! ## Faults and machine integers -/

/-- Ways in which a modelled run can fail to produce a value. -/
inductive Fault where
  /-- An `assert(...)` of the source evaluated to false. -/
  | assertion
  /-- Undefined behaviour: division by zero, out-of-range or uninitialised read. -/
  | undefinedBehaviour
  /-- The fuel given to a modelled `while` loop ran out. -/
  | outOfFuel
  deriving DecidableEq, Repr

/-- Number of values of a 32-bit `unsigned int`. -/
def UINT_RANGE : Nat := 4294967296

/-- Largest `unsigned int`, `UINT_MAX`. -/
def UINT_MAX : Nat := 4294967295

/-- Conversion `int → unsigned int`: reduction modulo `2^32`. -/
def toUInt (z : Int) : Nat := (z % 4294967296).toNat

/-- Conversion `unsigned int → int` (two's complement reinterpretation). -/
def toInt (n : Nat) : Int :=
  if n % 4294967296 < 2147483648 then ((n % 4294967296 : Nat) : Int)
  else ((n % 4294967296 : Nat) : Int) - 4294967296

/-! ## Linear index codec (`IndexListTo1D`, `Index1DToArray`) -/

/-- Body of the `for (i=1; i<lenArray.size(); i++)` loop of `IndexListTo1D`,
run over the remaining extents and indices:
`result *= lenArray[i]; result += indexArray[i];` in `unsigned int`. -/
def IndexListTo1D.loop : Nat → List Int → List Int → Nat
  | result, l :: ls, d :: ds =>
      IndexListTo1D.loop ((result * toUInt l % 4294967296 + toUInt d) % 4294967296) ls ds
  | result, _, _ => result

/-- Encoder `IndexListTo1D(lenArray, indexArray)`. The size assertion comes
first; an empty extent list gives `0`; otherwise `result` starts at
`indexArray[0]` and the loop runs from `i = 1`. -/
def IndexListTo1D (lenArray indexArray : List Int) : Except Fault Nat :=
  if lenArray.length ≠ indexArray.length then .error .assertion
  else
    match lenArray, indexArray with
    | _ :: ls, d :: ds => .ok (IndexListTo1D.loop (toUInt d) ls ds)
    | _, _ => .ok 0

/-- Loop of `Index1DToArray`, `for (i=lenArray.size()-1; i>=0; i--)`:
`dest[i] = index % lenArray[i]; index /= lenArray[i];`. The recursion handles
the tail of the extent list (the later dimensions) before its head, as the
loop does; the result is the filled `dest` and the remaining `index`.
A zero divisor is undefined behaviour. -/
def Index1DToArray.loop : List Int → Nat → Except Fault (List Int × Nat)
  | [], index => .ok ([], index)
  | l :: ls, index =>
      match Index1DToArray.loop ls index with
      | .error e => .error e
      | .ok (dest, index1) =>
          if toUInt l = 0 then .error .undefinedBehaviour
          else .ok (toInt (index1 % toUInt l) :: dest, index1 / toUInt l)

/-- Decoder `Index1DToArray(index, lenArray, dest)`: the loop, then
`assert(index == 0)`; returns `dest`. -/
def Index1DToArray (index : Nat) (lenArray : List Int) : Except Fault (List Int) :=
  match Index1DToArray.loop lenArray index with
  | .error e => .error e
  | .ok (dest, index1) => if index1 = 0 then .ok dest else .error .assertion

/-! ## Arrays

The interpolation routines are modelled over exact arithmetic: `double` is an
arbitrary linearly ordered field `α` with a floor function (for instance `ℚ`
or `ℝ`). A 1-D NumPy array is a `List α`, a 2-D array a list of rows, a 3-D
array a list of 2-D arrays. -/

section Interpolation

variable {α : Type} [LinearOrderedField α] [FloorRing α]

/-- Element `i` of an array addressed with an `int`; a read outside the array
is undefined behaviour. -/
def readAt {β : Type} (pA : List β) (i : Int) : Except Fault β :=
  if i < 0 then .error .undefinedBehaviour
  else
    match pA[i.toNat]? with
    | some v => .ok v
    | none => .error .undefinedBehaviour

/-- Modelled from the spec: the macro `ARRAYLEN1D` is defined in a header that
is not among the sources; it is the length of a 1-D grid (`dimensions[0]`). -/
def ARRAYLEN1D {β : Type} (pA : List β) : Int := (pA.length : Int)

/-- Modelled from the spec: the macro `ARRAYPTR1D` is defined in a header that
is not among the sources; `*ARRAYPTR1D(pA, i)` reads sample `i` of a 1-D grid
(`(pA)->data + (i)*(pA)->strides[0]` in the source's comment). -/
def ARRAYPTR1D {β : Type} (pA : List β) (i : Int) : Except Fault β := readAt pA i

/-- Modelled from the spec: the macro `ARRAYPTR2D` is defined in a header that
is not among the sources; `*ARRAYPTR2D(pA, i, j)` reads the sample of a 2-D
table at first index `i` and second index `j`. -/
def ARRAYPTR2D {β : Type} (pA : List (List β)) (i j : Int) : Except Fault β := do
  let row ← readAt pA i
  readAt row j

/-- Modelled from the spec: the macro `ARRAYPTR3D` is defined in a header that
is not among the sources; `*ARRAYPTR3D(pA, i, j, k)` reads the sample of a 3-D
table at indices `i`, `j`, `k`. -/
def ARRAYPTR3D {β : Type} (pA : List (List (List β))) (i j k : Int) : Except Fault β := do
  let plane ← readAt pA i
  let row ← readAt plane j
  readAt row k

/-! ## Grid cell locator (`getCellIndex`, `forceToGrid`) -/

/-- The function `getCellIndex(value, pGrid)`: `-1` below the grid, `len-2` at
or above the last sample, otherwise `floor((value - grid[0]) / dx)`, lowered by
one when it equals `len-1`. -/
def getCellIndex (value : α) (pGrid : List α) : Except Fault Int := do
  let g1 ← ARRAYPTR1D pGrid 1
  let g0 ← ARRAYPTR1D pGrid 0
  let dx := g1 - g0
  let first ← ARRAYPTR1D pGrid 0
  if value < first then
    pure (-1)
  else
    let last ← ARRAYPTR1D pGrid (ARRAYLEN1D pGrid - 1)
    if value ≥ last then
      pure (ARRAYLEN1D pGrid - 2)
    else
      let base ← ARRAYPTR1D pGrid 0
      let result : Int := ⌊(value - base) / dx⌋
      if result = ARRAYLEN1D pGrid - 1 then pure (result - 1) else pure result

/-- The function `forceToGrid(x, pGrid)`: `x` forced into `[grid[0], grid[len-1]]`. -/
def forceToGrid (x : α) (pGrid : List α) : Except Fault α := do
  let first ← ARRAYPTR1D pGrid 0
  if x < first then
    pure first
  else
    let last ← ARRAYPTR1D pGrid (ARRAYLEN1D pGrid - 1)
    if x > last then pure last else pure x

/-! ## Interpolation (`interp1d`, `interp2d`, `interp2d_grid`, `interpTrilinear`) -/

/-- The function `interp1d(z, x1, f1, x2, f2)`. -/
def interp1d (z x1 f1 x2 f2 : α) : α :=
  if z ≤ x1 then f1
  else if z ≥ x2 then f2
  else f1 + (f2 - f1) * (z - x1) / (x2 - x1)

/-- The function `interp2d(z1, z2, x1, y1, x2, y2, f_1_1, f_1_2, f_2_1, f_2_2)`. -/
def interp2d (z1 z2 x1 y1 x2 y2 f_1_1 f_1_2 f_2_1 f_2_2 : α) : α :=
  let f_y1 := interp1d z1 x1 f_1_1 x2 f_2_1
  let f_y2 := interp1d z1 x1 f_1_2 x2 f_2_2
  interp1d z2 y1 f_y1 y2 f_y2

/-- The function `interp2d_grid(pGrid1, pGrid2, pF, xi, yi)`. The cell is
located from the forced coordinates `a`, `b`; `interp2d` receives `xi`, `yi`. -/
def interp2d_grid (pGrid1 pGrid2 : List α) (pF : List (List α)) (xi yi : α) :
    Except Fault α := do
  let a ← forceToGrid xi pGrid1
  let b ← forceToGrid yi pGrid2
  let i ← getCellIndex a pGrid1
  let j ← getCellIndex b pGrid2
  let x1 ← ARRAYPTR1D pGrid1 i
  let x2 ← ARRAYPTR1D pGrid1 (i + 1)
  let y1 ← ARRAYPTR1D pGrid2 j
  let y2 ← ARRAYPTR1D pGrid2 (j + 1)
  let u1 ← ARRAYPTR2D pF i j
  let u2 ← ARRAYPTR2D pF (i + 1) j
  let u3 ← ARRAYPTR2D pF i (j + 1)
  let u4 ← ARRAYPTR2D pF (i + 1) (j + 1)
  pure (interp2d xi yi x1 y1 x2 y2 u1 u3 u2 u4)

/-- The function `interpTrilinear(pGrid1, pGrid2, pGrid3, pF, xi, yi, zi)`
with its weight-propagation sequence `w1 .. w7`. -/
def interpTrilinear (pGrid1 pGrid2 pGrid3 : List α) (pF : List (List (List α)))
    (xi yi zi : α) : Except Fault α := do
  let a ← forceToGrid xi pGrid1
  let b ← forceToGrid yi pGrid2
  let c ← forceToGrid zi pGrid3
  let i ← getCellIndex a pGrid1
  let j ← getCellIndex b pGrid2
  let k ← getCellIndex c pGrid3
  let x1 ← ARRAYPTR1D pGrid1 i
  let x2 ← ARRAYPTR1D pGrid1 (i + 1)
  let y1 ← ARRAYPTR1D pGrid2 j
  let y2 ← ARRAYPTR1D pGrid2 (j + 1)
  let z1 ← ARRAYPTR1D pGrid3 k
  let z2 ← ARRAYPTR1D pGrid3 (k + 1)
  let u1 ← ARRAYPTR3D pF i j k
  let u2 ← ARRAYPTR3D pF (i + 1) j k
  let u3 ← ARRAYPTR3D pF i (j + 1) k
  let u4 ← ARRAYPTR3D pF (i + 1) (j + 1) k
  let u5 ← ARRAYPTR3D pF i j (k + 1)
  let u6 ← ARRAYPTR3D pF (i + 1) j (k + 1)
  let u7 ← ARRAYPTR3D pF i (j + 1) (k + 1)
  let u8 ← ARRAYPTR3D pF (i + 1) (j + 1) (k + 1)
  let w1 := u2 + (u2 - u1) / (x2 - x1) * (a - x2)
  let w2 := u4 + (u4 - u3) / (x2 - x1) * (a - x2)
  let w3 := w2 + (w2 - w1) / (y2 - y1) * (b - y2)
  let w4 := u5 + (u6 - u5) / (x2 - x1) * (a - x1)
  let w5 := u7 + (u8 - u7) / (x2 - x1) * (a - x1)
  let w6 := w4 + (w5 - w4) / (y2 - y1) * (b - y1)
  let w7 := w3 + (w6 - w3) / (z2 - z1) * (c - z1)
  pure w7

/-- The trilinear value in the nested 1-D formulation: the cell and its eight
corners are located and read as in `interpTrilinear`; the value is `interp1d`
along `z` between `interp2d` on the corners at `z1` and `interp2d` on the
corners at `z2` (interpolate along x, then along y, then along z). -/
def trilinearNested (pGrid1 pGrid2 pGrid3 : List α) (pF : List (List (List α)))
    (xi yi zi : α) : Except Fault α := do
  let a ← forceToGrid xi pGrid1
  let b ← forceToGrid yi pGrid2
  let c ← forceToGrid zi pGrid3
  let i ← getCellIndex a pGrid1
  let j ← getCellIndex b pGrid2
  let k ← getCellIndex c pGrid3
  let x1 ← ARRAYPTR1D pGrid1 i
  let x2 ← ARRAYPTR1D pGrid1 (i + 1)
  let y1 ← ARRAYPTR1D pGrid2 j
  let y2 ← ARRAYPTR1D pGrid2 (j + 1)
  let z1 ← ARRAYPTR1D pGrid3 k
  let z2 ← ARRAYPTR1D pGrid3 (k + 1)
  let u1 ← ARRAYPTR3D pF i j k
  let u2 ← ARRAYPTR3D pF (i + 1) j k
  let u3 ← ARRAYPTR3D pF i (j + 1) k
  let u4 ← ARRAYPTR3D pF (i + 1) (j + 1) k
  let u5 ← ARRAYPTR3D pF i j (k + 1)
  let u6 ← ARRAYPTR3D pF (i + 1) j (k + 1)
  let u7 ← ARRAYPTR3D pF i (j + 1) (k + 1)
  let u8 ← ARRAYPTR3D pF (i + 1) (j + 1) (k + 1)
  pure (interp1d zi z1 (interp2d xi yi x1 y1 x2 y2 u1 u3 u2 u4) z2
    (interp2d xi yi x1 y1 x2 y2 u5 u7 u6 u8))

/-! ## Grids and tables: well-formedness -/

/-- An evenly spaced, strictly increasing grid with at least two samples:
`grid[k] = grid[0] + k * (grid[1] - grid[0])` and `grid[0] < grid[1]`. -/
structure EvenlySpaced (g : List α) : Prop where
  two_le : 2 ≤ g.length
  step_pos : g.getD 0 0 < g.getD 1 0
  spaced : ∀ k, k < g.length → g.getD k 0 = g.getD 0 0 + (k : α) * (g.getD 1 0 - g.getD 0 0)

/-- A 2-D table whose shape is `n1 × n2`. -/
def Shape2 (F : List (List α)) (n1 n2 : Nat) : Prop :=
  F.length = n1 ∧ ∀ row ∈ F, row.length = n2

/-- A 3-D table whose shape is `n1 × n2 × n3`. -/
def Shape3 (F : List (List (List α))) (n1 n2 n3 : Nat) : Prop :=
  F.length = n1 ∧ ∀ plane ∈ F, Shape2 plane n2 n3

/-- The 2-D slice `F[., ., r]` of a 3-D table at third index `r`. -/
def slice3 (F : List (List (List α))) (r : Nat) : List (List α) :=
  F.map fun plane => plane.map fun row => row.getD r 0

end Interpolation

/-! ## Doubles as ordered values

The grid searches only compare objective values (`>` and `==`) and copy
coordinates, so for them a `double` is modelled by its position in the order
of the non-NaN doubles: `⊥` is `-∞`, `Dbl.fin q` a finite value and `⊤` (inside
`WithTop`) is `+∞`. NaN is not a value of `Dbl`: in the searches of this and
the following sections the objective does not return NaN. The serial N-D search
is modelled once more with NaN (and with `int` counters) in the section on
machine values below. -/

/-- Non-NaN `double` values with the order of `<`. -/
abbrev Dbl : Type := WithBot (WithTop ℚ)

/-- A finite `double`. -/
def Dbl.fin (q : ℚ) : Dbl := ((q : WithTop ℚ) : WithBot (WithTop ℚ))

/-- The `double` value `-∞`. -/
def Dbl.negInf : Dbl := ⊥

/-- The constant `DBL_MAX` of `<float.h>`, `(2 - 2^-52) * 2^1023`. -/
def DBL_MAX : ℚ := 2 ^ 1024 - 2 ^ 971

/-- The sentinel `-DBL_MAX` used for "no maximum yet". -/
def negDblMax : Dbl := Dbl.fin (-DBL_MAX)

/-! ## Serial grid search, 2-D (`gridSearch2D`) -/

/-- Locals of `gridSearch2D` that survive an iteration, together with the
caller's out-parameters `*pArgmax1`, `*pArgmax2`. The local `max` has no
initialiser: `none` is its uninitialised state. -/
structure Search2DState where
  i : Nat
  count : Nat
  max : Option Dbl
  argmax1 : Dbl
  argmax2 : Dbl

/-- Body of the inner loop of `gridSearch2D` at the pair `(arg1, arg2)`. When
`i ≠ 0` the local `max` has been assigned (the branch `none` is not reached). -/
def gridSearch2D.step (pFn : Dbl → Dbl → Dbl) (arg1 arg2 : Dbl) (st : Search2DState) :
    Search2DState :=
  let result := pFn arg1 arg2
  let st1 : Search2DState :=
    if st.i = 0 then
      { st with max := some result, argmax1 := arg1, argmax2 := arg2, count := 1 }
    else
      match st.max with
      | some max =>
          if result > max then
            { st with max := some result, argmax1 := arg1, argmax2 := arg2, count := 1 }
          else if result = max then { st with count := st.count + 1 }
          else st
      | none => st
  { st1 with i := st1.i + 1 }

/-- The function `gridSearch2D`: the two nested pointer loops run over the
samples of `pGrid1` and `pGrid2`; the result is `(count, *pMaxVal, *pArgmax1,
*pArgmax2)`. `pArgmax1`, `pArgmax2` are the caller's values on entry. Copying an
uninitialised `max` to `*pMaxVal` is undefined behaviour. -/
def gridSearch2D (pGrid1 pGrid2 : List Dbl) (pFn : Dbl → Dbl → Dbl)
    (pArgmax1 pArgmax2 : Dbl) : Except Fault (Nat × Dbl × Dbl × Dbl) :=
  let st0 : Search2DState :=
    { i := 0, count := 0, max := none, argmax1 := pArgmax1, argmax2 := pArgmax2 }
  let st := pGrid1.foldl
    (fun st arg1 => pGrid2.foldl (fun st arg2 => gridSearch2D.step pFn arg1 arg2 st) st) st0
  match st.max with
  | some max => .ok (st.count, max, st.argmax1, st.argmax2)
  | none => .error .undefinedBehaviour

/-! ## Serial grid search, N-D (`gridSearch`) -/

/-- Locals of `gridSearch` that survive an iteration of the `while` loop,
together with the caller's `argMaxArray`. The counters are natural numbers
here: this search abstracts from the width of `int` (see `Machine.SearchState`
for the counters as `int`s). -/
structure SearchState where
  dataIndexArray : List Nat
  nIter : Nat
  nMaxMultiplicity : Nat
  max : Dbl
  argMaxArray : List Dbl

/-- First `for` loop of the `while` body: `argArray[i]` is sample
`dataIndexArray[i]` of grid `i`. -/
def gridSearch.readArgs : List (List Dbl) → List Nat → Except Fault (List Dbl)
  | [], _ => .ok []
  | _ :: _, [] => .error .undefinedBehaviour
  | g :: gs, d :: ds =>
      match g[d]? with
      | none => .error .undefinedBehaviour
      | some v =>
          match gridSearch.readArgs gs ds with
          | .error e => .error e
          | .ok vs => .ok (v :: vs)

/-- The comparison of `result` with the running maximum in the `while` body,
followed by `nIter++`. -/
def gridSearch.update (result : Dbl) (argArray : List Dbl) (st : SearchState) : SearchState :=
  let st1 : SearchState :=
    if st.nIter = 0 then
      { st with max := result, argMaxArray := argArray, nMaxMultiplicity := 1 }
    else if result > st.max then
      { st with max := result, argMaxArray := argArray, nMaxMultiplicity := 1 }
    else if result = st.max then
      { st with nMaxMultiplicity := st.nMaxMultiplicity + 1 }
    else st
  { st1 with nIter := st1.nIter + 1 }

/-- The odometer `for (i=nGrids-1; i>=0; i--)` at the end of the `while` body,
over the extents and the indices; returns the new indices and `bDone`. The
recursion handles the tail (the later dimensions) first, as the loop does: a
tail that reports `true` has cycled completely and carries into the head. -/
def gridSearch.increment : List Nat → List Nat → List Nat × Bool
  | l :: ls, d :: ds =>
      match gridSearch.increment ls ds with
      | (ds1, true) => if d + 1 = l then (0 :: ds1, true) else ((d + 1) :: ds1, false)
      | (ds1, false) => (d :: ds1, false)
  | _, _ => ([], true)

/-- One pass through the body of `while (!bDone)`: the new state and `bDone`. -/
def gridSearch.body (gridArray : List (List Dbl)) (pFn : List Dbl → Dbl)
    (st : SearchState) : Except Fault (SearchState × Bool) :=
  match gridSearch.readArgs gridArray st.dataIndexArray with
  | .error e => .error e
  | .ok argArray =>
      let st1 := gridSearch.update (pFn argArray) argArray st
      let next := gridSearch.increment (gridArray.map List.length) st1.dataIndexArray
      .ok ({ st1 with dataIndexArray := next.1 }, next.2)

/-- The loop `while (!bDone)` entered with `bDone = false`, with fuel. -/
def gridSearch.loop (gridArray : List (List Dbl)) (pFn : List Dbl → Dbl) :
    Nat → SearchState → Except Fault SearchState
  | 0, _ => .error .outOfFuel
  | fuel + 1, st =>
      match gridSearch.body gridArray pFn st with
      | .error e => .error e
      | .ok (st1, true) => .ok st1
      | .ok (st1, false) => gridSearch.loop gridArray pFn fuel st1

/-- The run of `gridSearch` up to the end of the `while` loop: initialisation,
the zero-size check, the loop. -/
def gridSearch.run (gridArray : List (List Dbl)) (pFn : List Dbl → Dbl)
    (argMaxArray : List Dbl) (fuel : Nat) : Except Fault SearchState :=
  let lenArray := gridArray.map List.length
  let st0 : SearchState :=
    { dataIndexArray := lenArray.map fun _ => 0, nIter := 0, nMaxMultiplicity := 0,
      max := negDblMax, argMaxArray := argMaxArray }
  let bDone := lenArray.any fun len => len == 0
  if bDone then .ok st0 else gridSearch.loop gridArray pFn fuel st0

/-- The function `gridSearch`: result `(return value, *pMaxVal, argMaxArray)`.
`argMaxArray` is the caller's vector on entry. -/
def gridSearch (gridArray : List (List Dbl)) (pFn : List Dbl → Dbl)
    (argMaxArray : List Dbl) (fuel : Nat) : Except Fault (Nat × Dbl × List Dbl) :=
  match gridSearch.run gridArray pFn argMaxArray fuel with
  | .error e => .error e
  | .ok st => .ok (st.nMaxMultiplicity, st.max, st.argMaxArray)

/-! ## `tbb::parallel_reduce` -/

/-- Modelled from the spec: the schedule of one `tbb::parallel_reduce` call (the
library is not among the sources). A leaf is a chunk of the iteration space
handed to `operator()`; `reuse` lets one body scan two parts in turn; `fork`
runs the right part on a body made by the splitting constructor and merges it
with `join`. -/
inductive Reduction (ρ : Type) where
  | chunk (r : ρ)
  | reuse (first second : Reduction ρ)
  | fork (left right : Reduction ρ)

/-- The chunks of a schedule, left to right. -/
def Reduction.chunks {ρ : Type} : Reduction ρ → List ρ
  | .chunk r => [r]
  | .reuse a b => a.chunks ++ b.chunks
  | .fork a b => a.chunks ++ b.chunks

/-- The three operations `parallel_reduce` requires of a body: `operator()`,
the splitting constructor and `join`. -/
structure Body (ρ σ : Type) where
  call : σ → ρ → Except Fault σ
  split : σ → σ
  join : σ → σ → σ

/-- Modelled from the spec: `tbb::parallel_reduce(range, body)` following a
schedule; the library is not among the sources. The final state of `body` is
returned. -/
def parallel_reduce {ρ σ : Type} (B : Body ρ σ) : Reduction ρ → σ → Except Fault σ
  | .chunk r, body => B.call body r
  | .reuse a b, body =>
      match parallel_reduce B a body with
      | .error e => .error e
      | .ok body1 => parallel_reduce B b body1
  | .fork a b, body =>
      let rhs := B.split body
      match parallel_reduce B a body with
      | .error e => .error e
      | .ok lhs =>
          match parallel_reduce B b rhs with
          | .error e => .error e
          | .ok rhs1 => .ok (B.join lhs rhs1)

/-- The loop `for (i = begin; i != end; ++i)` over a `blocked_range`, threading
a state through a fallible body. -/
def forRange {σ : Type} (lo hi : Nat) (f : σ → Nat → Except Fault σ) (s : σ) :
    Except Fault σ :=
  (List.range' lo (hi - lo)).foldlM f s

/-! ## Parallel grid search, 2-D (`MaxIndexFnObj`, `gridSearch2DParallel`) -/

/-- The mutable members of `MaxIndexFnObj`. -/
structure MaxIndexFnObj where
  m_value_of_max : Dbl
  m_argmax1 : Dbl
  m_argmax2 : Dbl

/-- A `blocked_range2d`: rows `[rowBegin, rowEnd)`, columns `[colBegin, colEnd)`. -/
structure Range2d where
  rowBegin : Nat
  rowEnd : Nat
  colBegin : Nat
  colEnd : Nat

/-- Innermost statements of `MaxIndexFnObj::operator()` at `(i, j)`. -/
def MaxIndexFnObj.visit (pGrid1 pGrid2 : List Dbl) (pFn : Dbl → Dbl → Dbl)
    (self : MaxIndexFnObj) (i j : Nat) : Except Fault MaxIndexFnObj :=
  match pGrid1[i]?, pGrid2[j]? with
  | some arg1, some arg2 =>
      let value := pFn arg1 arg2
      if self.m_value_of_max = negDblMax ∨ value > self.m_value_of_max then
        .ok { m_value_of_max := value, m_argmax1 := arg1, m_argmax2 := arg2 }
      else .ok self
  | _, _ => .error .undefinedBehaviour

/-- The member `MaxIndexFnObj::operator()(r)`. -/
def MaxIndexFnObj.call (pGrid1 pGrid2 : List Dbl) (pFn : Dbl → Dbl → Dbl)
    (self : MaxIndexFnObj) (r : Range2d) : Except Fault MaxIndexFnObj :=
  forRange r.rowBegin r.rowEnd
    (fun self i => forRange r.colBegin r.colEnd
      (fun self j => MaxIndexFnObj.visit pGrid1 pGrid2 pFn self i j) self) self

/-- The splitting constructor of `MaxIndexFnObj`. -/
def MaxIndexFnObj.split (_x : MaxIndexFnObj) : MaxIndexFnObj :=
  { m_value_of_max := negDblMax, m_argmax1 := negDblMax, m_argmax2 := negDblMax }

/-- The member `MaxIndexFnObj::join(y)`. -/
def MaxIndexFnObj.join (self y : MaxIndexFnObj) : MaxIndexFnObj :=
  if self.m_value_of_max = negDblMax ∨ y.m_value_of_max > self.m_value_of_max then
    { m_value_of_max := y.m_value_of_max, m_argmax1 := y.m_argmax1, m_argmax2 := y.m_argmax2 }
  else self

/-- The class `MaxIndexFnObj` as a `parallel_reduce` body. -/
def MaxIndexFnObj.body (pGrid1 pGrid2 : List Dbl) (pFn : Dbl → Dbl → Dbl) :
    Body Range2d MaxIndexFnObj where
  call := MaxIndexFnObj.call pGrid1 pGrid2 pFn
  split := MaxIndexFnObj.split
  join := MaxIndexFnObj.join

/-- The function `gridSearch2DParallel`; `plan` is the schedule TBB follows on
the range `[0, len1) × [0, len2)` (no `operator()` call when the range is
empty). Result `(return value, *pMaxVal, *pArgmax1, *pArgmax2)`. -/
def gridSearch2DParallel (pGrid1 pGrid2 : List Dbl) (pFn : Dbl → Dbl → Dbl)
    (plan : Reduction Range2d) : Except Fault (Nat × Dbl × Dbl × Dbl) :=
  let fnObj : MaxIndexFnObj :=
    { m_value_of_max := negDblMax, m_argmax1 := negDblMax, m_argmax2 := negDblMax }
  let len1 := pGrid1.length
  let len2 := pGrid2.length
  let run :=
    if len1 = 0 ∨ len2 = 0 then .ok fnObj
    else parallel_reduce (MaxIndexFnObj.body pGrid1 pGrid2 pFn) plan fnObj
  match run with
  | .error e => .error e
  | .ok fnObj1 => .ok (1, fnObj1.m_value_of_max, fnObj1.m_argmax1, fnObj1.m_argmax2)

/-! ## Parallel grid search, N-D (`MaxIndexFnObj2`, `gridSearchParallel`) -/

/-- The mutable members of `MaxIndexFnObj2`. -/
structure MaxIndexFnObj2 where
  m_value_of_max : Dbl
  m_argmax : List Dbl

/-- The loop `for (j=0; j<indexArray.size(); j++)` of
`MaxIndexFnObj2::operator()`: `argArray[j]` is sample `indexArray[j]` of grid `j`. -/
def MaxIndexFnObj2.readArgs : List (List Dbl) → List Int → Except Fault (List Dbl)
  | _, [] => .ok []
  | [], _ :: _ => .error .undefinedBehaviour
  | g :: gs, d :: ds =>
      match readAt g d with
      | .error e => .error e
      | .ok v =>
          match MaxIndexFnObj2.readArgs gs ds with
          | .error e => .error e
          | .ok vs => .ok (v :: vs)

/-- Body of the `for` loop of `MaxIndexFnObj2::operator()` at flat index
`index` (a `size_t` converted to `unsigned int` at the call of `Index1DToArray`). -/
def MaxIndexFnObj2.visit (gridPtrArray : List (List Dbl)) (pFn : List Dbl → Dbl)
    (lenArray : List Int) (self : MaxIndexFnObj2) (index : Nat) :
    Except Fault MaxIndexFnObj2 :=
  match Index1DToArray (index % 4294967296) lenArray with
  | .error e => .error e
  | .ok indexArray =>
      match MaxIndexFnObj2.readArgs gridPtrArray indexArray with
      | .error e => .error e
      | .ok argArray =>
          let value := pFn argArray
          if value > self.m_value_of_max then
            .ok { m_value_of_max := value, m_argmax := argArray }
          else .ok self

/-- The member `MaxIndexFnObj2::operator()(r)` on the range `[r.1, r.2)`. -/
def MaxIndexFnObj2.call (gridPtrArray : List (List Dbl)) (pFn : List Dbl → Dbl)
    (lenArray : List Int) (self : MaxIndexFnObj2) (r : Nat × Nat) :
    Except Fault MaxIndexFnObj2 :=
  forRange r.1 r.2 (MaxIndexFnObj2.visit gridPtrArray pFn lenArray) self

/-- The splitting constructor of `MaxIndexFnObj2`: the value is reset to the
sentinel, `m_argmax` is copied from `x`. -/
def MaxIndexFnObj2.split (x : MaxIndexFnObj2) : MaxIndexFnObj2 :=
  { m_value_of_max := negDblMax, m_argmax := x.m_argmax }

/-- The member `MaxIndexFnObj2::join(y)`. -/
def MaxIndexFnObj2.join (self y : MaxIndexFnObj2) : MaxIndexFnObj2 :=
  if y.m_value_of_max > self.m_value_of_max then
    { m_value_of_max := y.m_value_of_max, m_argmax := y.m_argmax }
  else self

/-- The class `MaxIndexFnObj2` as a `parallel_reduce` body. -/
def MaxIndexFnObj2.body (gridPtrArray : List (List Dbl)) (pFn : List Dbl → Dbl)
    (lenArray : List Int) : Body (Nat × Nat) MaxIndexFnObj2 where
  call := MaxIndexFnObj2.call gridPtrArray pFn lenArray
  split := MaxIndexFnObj2.split
  join := MaxIndexFnObj2.join

/-- The `unsigned int` product `totalGridSize` of `gridSearchParallel`. -/
def totalGridSize (lenArray : List Int) : Nat :=
  lenArray.foldl (fun total len => total * toUInt len % 4294967296) 1

/-- The `double` product `totalGridSize2` of `gridSearchParallel`, as an exact
product (products below `2^53` are exact in `double`). -/
def totalGridSize2 (lenArray : List Int) : Int :=
  lenArray.foldl (fun total len => total * len) 1

/-- The function `gridSearchParallel`; `plan` is the schedule TBB follows on
the range `[0, totalGridSize)` (no `operator()` call when the range is empty).
Result `(return value, *pMaxVal, argMaxArray)`. -/
def gridSearchParallel (gridArray : List (List Dbl)) (pFn : List Dbl → Dbl)
    (plan : Reduction (Nat × Nat)) : Except Fault (Nat × Dbl × List Dbl) :=
  let lenArray : List Int := gridArray.map fun g => (g.length : Int)
  if ¬ (totalGridSize2 lenArray < (UINT_MAX : Int)) then .error .assertion
  else
    let fnObj : MaxIndexFnObj2 :=
      { m_value_of_max := negDblMax, m_argmax := gridArray.map fun _ => negDblMax }
    let run :=
      if totalGridSize lenArray = 0 then .ok fnObj
      else parallel_reduce (MaxIndexFnObj2.body gridArray pFn lenArray) plan fnObj
    match run with
    | .error e => .error e
    | .ok fnObj1 => .ok (1, fnObj1.m_value_of_max, fnObj1.m_argmax)

/-! ## Lattices and schedules: specification-level notions -/

/-- The lattice points of a grid set in lexicographic order (last dimension
fastest), one entry per index tuple. -/
def lattice : List (List Dbl) → List (List Dbl)
  | [] => [[]]
  | g :: gs => g.flatMap fun x => (lattice gs).map fun p => x :: p

/-- The lattice points of a pair of grids in lexicographic order. -/
def lattice2 (g1 g2 : List Dbl) : List (Dbl × Dbl) :=
  g1.flatMap fun x => g2.map fun y => (x, y)

/-- A schedule over flat indices covers `[0, n)`: every chunk lies inside the
range and every index of the range is in some chunk. -/
def Covers (plan : Reduction (Nat × Nat)) (n : Nat) : Prop :=
  (∀ c ∈ plan.chunks, c.1 < c.2 ∧ c.2 ≤ n) ∧
  ∀ k, k < n → ∃ c ∈ plan.chunks, c.1 ≤ k ∧ k < c.2

/-- A schedule over index rectangles covers `[0, n1) × [0, n2)`: every chunk is
a non-empty rectangle inside it and every index pair is in some chunk. -/
def Covers2 (plan : Reduction Range2d) (n1 n2 : Nat) : Prop :=
  (∀ c ∈ plan.chunks, c.rowBegin < c.rowEnd ∧ c.rowEnd ≤ n1 ∧
    c.colBegin < c.colEnd ∧ c.colEnd ≤ n2) ∧
  ∀ i j, i < n1 → j < n2 → ∃ c ∈ plan.chunks,
    c.rowBegin ≤ i ∧ i < c.rowEnd ∧ c.colBegin ≤ j ∧ j < c.colEnd

/-- The lattice points from the index tuple `idx` on, in lexicographic order:
the points the odometer of `gridSearch` has yet to visit when its indices are
`idx`. -/
def latticeFrom : List (List Dbl) → List Nat → List (List Dbl)
  | [], _ => [[]]
  | _ :: _, [] => []
  | g :: gs, d :: ds =>
      match g.drop d with
      | [] => []
      | x :: xs =>
          (latticeFrom gs ds).map (fun p => x :: p)
            ++ xs.flatMap fun y => (lattice gs).map fun p => y :: p

/-- The comparisons of `gridSearch` applied to a list of points in turn. -/
def gridSearch.scan (pFn : List Dbl → Dbl) (pts : List (List Dbl)) (st : SearchState) :
    SearchState :=
  pts.foldl (fun st p => gridSearch.update (pFn p) p st) st

/-- An index tuple that addresses a sample in every grid. -/
def ValidIndex (idx : List Nat) (grids : List (List Dbl)) : Prop :=
  List.Forall₂ (fun d g => d < List.length g) idx grids

/-! ## Auxiliary notions used in the statements and proofs -/

/-- Two states that agree except possibly on the odometer indices. -/
def SameResult (a b : SearchState) : Prop :=
  a.nIter = b.nIter ∧ a.nMaxMultiplicity = b.nMaxMultiplicity ∧ a.max = b.max ∧
    a.argMaxArray = b.argMaxArray

/-- The initial state of `gridSearch`. -/
def gridSearch.init (grids : List (List Dbl)) (argMax0 : List Dbl) : SearchState :=
  { dataIndexArray := (grids.map List.length).map fun _ => 0, nIter := 0,
    nMaxMultiplicity := 0, max := negDblMax, argMaxArray := argMax0 }

/-- What the comparisons of `gridSearch` have established after the points
`pts` (in this order): the iteration count, and for a non-empty `pts` the
maximum, its first maximiser and the number of points attaining it. -/
def SerialInv (pFn : List Dbl → Dbl) (pts : List (List Dbl)) (st : SearchState) : Prop :=
  st.nIter = pts.length ∧
  (pts ≠ [] →
    (∀ p ∈ pts, pFn p ≤ st.max) ∧ pFn st.argMaxArray = st.max ∧
    (∃ pre post, pts = pre ++ st.argMaxArray :: post ∧ ∀ q ∈ pre, pFn q < st.max) ∧
    st.nMaxMultiplicity = pts.countP fun p => decide (pFn p = st.max))

/-- The comparison of `MaxIndexFnObj2::operator()` at a point `p`. -/
def MaxIndexFnObj2.step (pFn : List Dbl → Dbl) (self : MaxIndexFnObj2) (p : List Dbl) :
    MaxIndexFnObj2 :=
  if pFn p > self.m_value_of_max then { m_value_of_max := pFn p, m_argmax := p } else self

/-- The lattice points at the flat indices `lo ≤ n < hi`. -/
def ptsOf (L : List (List Dbl)) (lo hi : Nat) : Set (List Dbl) :=
  {p | ∃ n, lo ≤ n ∧ n < hi ∧ L[n]? = some p}

/-- The lattice points at the flat indices of the chunks of a schedule. -/
def planPts (L : List (List Dbl)) (plan : Reduction (Nat × Nat)) : Set (List Dbl) :=
  {p | ∃ c ∈ plan.chunks, p ∈ ptsOf L c.1 c.2}

/-- A body state `s` reached from `s0` after the points `P`: its value bounds
`s0`'s value and the objective on `P`, and it is either `s0`'s value and argmax
or the value and coordinates of a point of `P`. -/
def Track (pFn : List Dbl → Dbl) (s0 : MaxIndexFnObj2) (P : Set (List Dbl))
    (s : MaxIndexFnObj2) : Prop :=
  s0.m_value_of_max ≤ s.m_value_of_max ∧ (∀ p ∈ P, pFn p ≤ s.m_value_of_max) ∧
    ((s.m_value_of_max = s0.m_value_of_max ∧ s.m_argmax = s0.m_argmax) ∨
      ∃ p ∈ P, pFn p = s.m_value_of_max ∧ s.m_argmax = p)

/-- The well-formedness of a grid set used by the flattened search: no empty
grid, every length fits `int`, the lattice size fits `unsigned int`. -/
structure FlatOK (grids : List (List Dbl)) : Prop where
  nonempty : ∀ g ∈ grids, g ≠ []
  fitsInt : ∀ g ∈ grids, g.length < 2147483648
  fitsUInt : (lattice grids).length < 4294967295

/-- The comparisons of `gridSearch2D` applied to a list of pairs in turn. -/
def gridSearch2D.scan (pFn : Dbl → Dbl → Dbl) (pts : List (Dbl × Dbl))
    (st : Search2DState) : Search2DState :=
  pts.foldl (fun st q => gridSearch2D.step pFn q.1 q.2 st) st

/-- What the comparisons of `gridSearch2D` have established after the pairs
`pts`: the iteration count, and for a non-empty `pts` the maximum, its first
maximiser and the number of pairs attaining it. -/
def SerialInv2 (pFn : Dbl → Dbl → Dbl) (pts : List (Dbl × Dbl)) (st : Search2DState) : Prop :=
  st.i = pts.length ∧
  (pts ≠ [] → ∃ M, st.max = some M ∧
    (∀ q ∈ pts, pFn q.1 q.2 ≤ M) ∧ pFn st.argmax1 st.argmax2 = M ∧
    (∃ pre post, pts = pre ++ (st.argmax1, st.argmax2) :: post ∧
      ∀ q ∈ pre, pFn q.1 q.2 < M) ∧
    st.count = pts.countP fun q => decide (pFn q.1 q.2 = M))

/-- The objective at the lattice point of an index pair. -/
def valAt (g1 g2 : List Dbl) (pFn : Dbl → Dbl → Dbl) (q : Nat × Nat) : Dbl :=
  pFn (g1.getD q.1 ⊥) (g2.getD q.2 ⊥)

/-- The comparison of `MaxIndexFnObj::operator()` at the index pair `(i, j)`. -/
def MaxIndexFnObj.step (g1 g2 : List Dbl) (pFn : Dbl → Dbl → Dbl) (self : MaxIndexFnObj)
    (i j : Nat) : MaxIndexFnObj :=
  if self.m_value_of_max = negDblMax ∨ valAt g1 g2 pFn (i, j) > self.m_value_of_max then
    { m_value_of_max := valAt g1 g2 pFn (i, j), m_argmax1 := g1.getD i ⊥,
      m_argmax2 := g2.getD j ⊥ }
  else self

/-- The index pairs of the rectangle `[rb, re) × [cb, ce)`. -/
def rect (rb re cb ce : Nat) : Set (Nat × Nat) :=
  {q | rb ≤ q.1 ∧ q.1 < re ∧ cb ≤ q.2 ∧ q.2 < ce}

/-- The index pairs of the chunks of a 2-D schedule. -/
def plan2Pts (plan : Reduction Range2d) : Set (Nat × Nat) :=
  {q | ∃ c ∈ plan.chunks, q ∈ rect c.rowBegin c.rowEnd c.colBegin c.colEnd}

/-- A `MaxIndexFnObj` state after the index pairs `P`: unset when `P` is empty,
otherwise the value and coordinates of a pair of `P` whose value bounds the
objective on `P`. -/
def Track2 (g1 g2 : List Dbl) (pFn : Dbl → Dbl → Dbl) (P : Set (Nat × Nat))
    (s : MaxIndexFnObj) : Prop :=
  (P = ∅ ∧ s.m_value_of_max = negDblMax) ∨
  ∃ q ∈ P, valAt g1 g2 pFn q = s.m_value_of_max ∧ s.m_argmax1 = g1.getD q.1 ⊥ ∧
    s.m_argmax2 = g2.getD q.2 ⊥ ∧ ∀ r ∈ P, valAt g1 g2 pFn r ≤ s.m_value_of_max

/-- The objective avoids the sentinel on the lattice, or never goes below it. -/
def SentinelSafe (g1 g2 : List Dbl) (pFn : Dbl → Dbl → Dbl) : Prop :=
  (∀ q : Nat × Nat, q.1 < g1.length → q.2 < g2.length → valAt g1 g2 pFn q ≠ negDblMax) ∨
  (∀ q : Nat × Nat, q.1 < g1.length → q.2 < g2.length → negDblMax ≤ valAt g1 g2 pFn q)

/-- Every index pair of `P` addresses a lattice point. -/
def InBox (g1 g2 : List Dbl) (P : Set (Nat × Nat)) : Prop :=
  ∀ q ∈ P, q.1 < g1.length ∧ q.2 < g2.length

/-- A chunk list all of whose rectangles are non-empty and inside the grid box. -/
def ChunksOK (g1 g2 : List Dbl) (plan : Reduction Range2d) : Prop :=
  ∀ c ∈ plan.chunks, c.rowBegin < c.rowEnd ∧ c.rowEnd ≤ g1.length ∧
    c.colBegin < c.colEnd ∧ c.colEnd ≤ g2.length

/-- The grid `{0, 1, 2}` as doubles. -/
def grid012 : List Dbl := [Dbl.fin 0, Dbl.fin 1, Dbl.fin 2]

/-- The objective `f(x, y) = -(x-1)^2 - (y-1)^2` on finite arguments. -/
def paraboloid : List Dbl → Dbl
  | [some (some x), some (some y)] => Dbl.fin (-(x - 1) ^ 2 - (y - 1) ^ 2)
  | _ => Dbl.negInf

/-- The constant objective `-∞` on index lists. -/
def constNegInf : List Dbl → Dbl := fun _ => Dbl.negInf

/-- An objective on pairs that returns the sentinel value `-DBL_MAX` at
`y = 0` and `-∞` elsewhere. -/
def sentinelThenNegInf : Dbl → Dbl → Dbl :=
  fun _ y => if y = Dbl.fin 0 then negDblMax else Dbl.negInf

/-- A schedule on the 3×3 index rectangle: rows `[0,2)` on the first body, row
`2` on a split body, merged by `join`. -/
def plan33 : Reduction Range2d :=
  .fork (.chunk { rowBegin := 0, rowEnd := 2, colBegin := 0, colEnd := 3 })
    (.chunk { rowBegin := 2, rowEnd := 3, colBegin := 0, colEnd := 3 })

/-- The mixed-radix digits of `x` for the extents `lens`, first dimension
first: digit `i` is `x / (lens[i+1] * ... * lens[k-1]) % lens[i]`. -/
def digitsOf : List Nat → Nat → List Nat
  | [], _ => []
  | l :: ls, x => (x / ls.prod % l) :: digitsOf ls x

/-- The `double` product `totalGridSize2` with rounding made explicit: `rnd` is
the rounding of a real product to a `double`. -/
def totalGridSize2Fl (rnd : ℚ → ℚ) (lenArray : List Int) : ℚ :=
  lenArray.foldl (fun total len => rnd (total * (len : ℚ))) 1

/-- A `double`: NaN, or a value of the order `Dbl`. -/
inductive Double where
  /-- Not a number. -/
  | nan : Double
  /-- A finite or infinite value. -/
  | num (d : Dbl) : Double

/-- The comparison `a > b` of two `double`s; false when an operand is NaN. -/
def Double.gt : Double → Double → Bool
  | .num a, .num b => decide (b < a)
  | _, _ => false

/-- The comparison `a == b` of two `double`s; false when an operand is NaN. -/
def Double.eq : Double → Double → Bool
  | .num a, .num b => decide (a = b)
  | _, _ => false

/-- The constant `INT_MAX` of a 32-bit `int`. -/
def INT_MAX : Int := 2147483647

/-- The statement `n++` on an `int`: signed overflow is undefined behaviour. -/
def intIncrement (n : Int) : Except Fault Int :=
  if n = INT_MAX then .error .undefinedBehaviour else .ok (n + 1)

/-- Locals of `gridSearch` that survive an iteration of the `while` loop,
together with the caller's `argMaxArray`; `nIter` and `nMaxMultiplicity` are
`int`s, `max` is a `double`. -/
structure Machine.SearchState where
  dataIndexArray : List Nat
  nIter : Int
  nMaxMultiplicity : Int
  max : Double
  argMaxArray : List Dbl

/-- The comparison of `result` with the running maximum in the `while` body,
followed by `nIter++`. -/
def Machine.gridSearch.update (result : Double) (argArray : List Dbl)
    (st : Machine.SearchState) : Except Fault Machine.SearchState :=
  let compared : Except Fault Machine.SearchState :=
    if st.nIter = 0 then
      .ok { st with max := result, argMaxArray := argArray, nMaxMultiplicity := 1 }
    else if result.gt st.max then
      .ok { st with max := result, argMaxArray := argArray, nMaxMultiplicity := 1 }
    else if result.eq st.max then
      match intIncrement st.nMaxMultiplicity with
      | .error e => .error e
      | .ok n => .ok { st with nMaxMultiplicity := n }
    else .ok st
  match compared with
  | .error e => .error e
  | .ok st1 =>
      match intIncrement st1.nIter with
      | .error e => .error e
      | .ok n => .ok { st1 with nIter := n }

/-- One pass through the body of `while (!bDone)`: the new state and `bDone`. -/
def Machine.gridSearch.body (gridArray : List (List Dbl)) (pFn : List Dbl → Double)
    (st : Machine.SearchState) : Except Fault (Machine.SearchState × Bool) :=
  match Ponzi.gridSearch.readArgs gridArray st.dataIndexArray with
  | .error e => .error e
  | .ok argArray =>
      match Machine.gridSearch.update (pFn argArray) argArray st with
      | .error e => .error e
      | .ok st1 =>
          let next := Ponzi.gridSearch.increment (gridArray.map List.length) st1.dataIndexArray
          .ok ({ st1 with dataIndexArray := next.1 }, next.2)

/-- The loop `while (!bDone)` entered with `bDone = false`, with fuel. -/
def Machine.gridSearch.loop (gridArray : List (List Dbl)) (pFn : List Dbl → Double) :
    Nat → Machine.SearchState → Except Fault Machine.SearchState
  | 0, _ => .error .outOfFuel
  | fuel + 1, st =>
      match Machine.gridSearch.body gridArray pFn st with
      | .error e => .error e
      | .ok (st1, true) => .ok st1
      | .ok (st1, false) => Machine.gridSearch.loop gridArray pFn fuel st1

/-- The initial values of the locals of `gridSearch`: indices, counters and
`max = -DBL_MAX`; `argMaxArray` is the caller's vector. -/
def Machine.gridSearch.init (gridArray : List (List Dbl)) (argMaxArray : List Dbl) :
    Machine.SearchState :=
  { dataIndexArray := (gridArray.map List.length).map fun _ => 0, nIter := 0,
    nMaxMultiplicity := 0, max := .num negDblMax, argMaxArray := argMaxArray }

/-- The run of `gridSearch` up to the end of the `while` loop: initialisation,
the zero-size check, the loop. -/
def Machine.gridSearch.run (gridArray : List (List Dbl)) (pFn : List Dbl → Double)
    (argMaxArray : List Dbl) (fuel : Nat) : Except Fault Machine.SearchState :=
  let lenArray := gridArray.map List.length
  let st0 := Machine.gridSearch.init gridArray argMaxArray
  let bDone := lenArray.any fun len => len == 0
  if bDone then .ok st0 else Machine.gridSearch.loop gridArray pFn fuel st0

/-- The function `gridSearch` on machine values: result `(return value,
*pMaxVal, argMaxArray)`. `argMaxArray` is the caller's vector on entry. -/
def Machine.gridSearch (gridArray : List (List Dbl)) (pFn : List Dbl → Double)
    (argMaxArray : List Dbl) (fuel : Nat) : Except Fault (Int × Double × List Dbl) :=
  match Machine.gridSearch.run gridArray pFn argMaxArray fuel with
  | .error e => .error e
  | .ok st => .ok (st.nMaxMultiplicity, st.max, st.argMaxArray)

/-- What the comparisons of `gridSearch` have established after the points
`pts` (in this order) when the first of them has a non-NaN value: the iteration
count, and for a non-empty `pts` a non-NaN maximum `m` that bounds every
non-NaN value, its first maximiser (every earlier point is NaN or strictly
smaller) and the number of points whose value `== m`. -/
def Machine.SerialInv (pFn : List Dbl → Double) (pts : List (List Dbl))
    (st : Machine.SearchState) : Prop :=
  st.nIter = (pts.length : Int) ∧
  (pts ≠ [] → ∃ m, st.max = .num m ∧
    (∀ p ∈ pts, ∀ v, pFn p = .num v → v ≤ m) ∧ pFn st.argMaxArray = .num m ∧
    (∃ pre post, pts = pre ++ st.argMaxArray :: post ∧
      ∀ q ∈ pre, pFn q = .nan ∨ ∃ v, pFn q = .num v ∧ v < m) ∧
    st.nMaxMultiplicity = ((pts.countP fun p => (pFn p).eq (.num m) : Nat) : Int))

/-- The paraboloid objective as a `double`-valued function. -/
def Machine.paraboloid : List Dbl → Double := fun p => .num (Ponzi.paraboloid p)

/-- An objective that is NaN at the point `(0)` and `1` elsewhere. -/
def nanThenOne : List Dbl → Double :=
  fun p => if p = [Dbl.fin 0] then .nan else .num (Dbl.fin 1)

/-- An objective that is NaN at the point `(0)` and `5` elsewhere. -/
def nanThenFive : List Dbl → Double :=
  fun p => if p = [Dbl.fin 0] then .nan else .num (Dbl.fin 5)

/-- A machine state and a state of the search on ordered values that agree:
same indices, counters and argmax, and the machine maximum is the (non-NaN)
maximum of the other. -/
def Machine.Abstracts (stM : Machine.SearchState) (st : Ponzi.SearchState) : Prop :=
  stM.dataIndexArray = st.dataIndexArray ∧ stM.nIter = (st.nIter : Int) ∧
    stM.nMaxMultiplicity = (st.nMaxMultiplicity : Int) ∧ stM.max = .num st.max ∧
    stM.argMaxArray = st.argMaxArray

/-! ## Codec: supporting lemmas -/

theorem toUInt_natCast (n : Nat) : toUInt (n : Int) = n % 4294967296 := by
  unfold toUInt
  omega

theorem toUInt_toInt (n : Nat) : toUInt (toInt n) = n % 4294967296 := by
  unfold toUInt toInt
  split <;> omega

theorem IndexListTo1D.loop_lt (ls ds : List Int) :
    ∀ r : Nat, r < 4294967296 → IndexListTo1D.loop r ls ds < 4294967296 := by
  induction ls generalizing ds with
  | nil => intro r hr; cases ds <;> simpa [IndexListTo1D.loop] using hr
  | cons l ls ih =>
    intro r hr
    cases ds with
    | nil => simpa [IndexListTo1D.loop] using hr
    | cons d ds =>
      simp only [IndexListTo1D.loop]
      exact ih ds _ (Nat.mod_lt _ (by norm_num))

/-- Decoding over natural-number extents `ns` (all positive, product below
`2^32`): the loop succeeds, splits `x` as `q * ns.prod + rem` with
`rem < ns.prod`, and re-encoding the digits from any start value `r` gives
`r * ns.prod + rem` modulo `2^32`. -/
theorem Index1DToArray.loop_spec (ns : List Nat) (hpos : ∀ n ∈ ns, 0 < n)
    (hprod : ns.prod < 4294967296) (x : Nat) :
    ∃ dest q rem, Index1DToArray.loop (ns.map Nat.cast) x = .ok (dest, q) ∧
      dest.length = ns.length ∧ x = q * ns.prod + rem ∧ rem < ns.prod ∧
      ((∀ n ∈ ns, n < 2147483648) → List.Forall₂ (fun d n => 0 ≤ d ∧ d < (n : Int)) dest ns) ∧
      ∀ r, IndexListTo1D.loop r (ns.map Nat.cast) dest ≡ r * ns.prod + rem [MOD 4294967296] := by
  induction ns with
  | nil =>
    refine ⟨[], x, 0, ?_, rfl, by simp, by simp, by simp, ?_⟩
    · simp [Index1DToArray.loop]
    · intro r; simp [IndexListTo1D.loop]; exact Nat.ModEq.refl _
  | cons n ns ih =>
    have hn : 0 < n := hpos n (by simp)
    have hpos1 : ∀ m ∈ ns, 0 < m := fun m hm => hpos m (by simp [hm])
    have hP : 0 < ns.prod := List.prod_pos hpos1
    have hnP : n * ns.prod < 4294967296 := by simpa using hprod
    have hP1 : ns.prod < 4294967296 := lt_of_le_of_lt (Nat.le_mul_of_pos_left _ hn) hnP
    have hn1 : n < 4294967296 := lt_of_le_of_lt (Nat.le_mul_of_pos_right _ hP) hnP
    obtain ⟨dest, q, rem, hrun, hlen, hx, hrem, hnn, henc⟩ := ih hpos1 hP1
    have hU : toUInt (n : Int) = n := by rw [toUInt_natCast]; exact Nat.mod_eq_of_lt hn1
    have hqn : q % n < 4294967296 := lt_trans (Nat.mod_lt _ hn) hn1
    refine ⟨toInt (q % n) :: dest, q / n, (q % n) * ns.prod + rem, ?_, by simp [hlen], ?_, ?_, ?_, ?_⟩
    · simp only [List.map_cons, Index1DToArray.loop, hrun, hU]
      rw [if_neg (by omega)]
    · rw [List.prod_cons]
      calc x = q * ns.prod + rem := hx
        _ = (q / n * n + q % n) * ns.prod + rem := by rw [Nat.div_add_mod']
        _ = q / n * (n * ns.prod) + (q % n * ns.prod + rem) := by ring
    · rw [List.prod_cons]
      calc q % n * ns.prod + rem < q % n * ns.prod + ns.prod := by omega
        _ = (q % n + 1) * ns.prod := by ring
        _ ≤ n * ns.prod := Nat.mul_le_mul_right _ (Nat.mod_lt _ hn)
    · intro hsmall
      refine List.Forall₂.cons ?_ (hnn fun m hm => hsmall m (by simp [hm]))
      have hn2 : n < 2147483648 := hsmall n (by simp)
      have hlt := Nat.mod_lt q hn
      unfold toInt
      rw [Nat.mod_eq_of_lt hqn, if_pos (by omega)]
      omega
    · intro r
      simp only [List.map_cons, IndexListTo1D.loop, hU, toUInt_toInt]
      refine (henc _).trans ?_
      rw [List.prod_cons]
      have h1 : (r * n % 4294967296 + q % n % 4294967296) % 4294967296 ≡ r * n + q % n [MOD 4294967296] := by
        refine (Nat.mod_modEq _ _).trans ?_
        exact Nat.ModEq.add (Nat.mod_modEq _ _) (Nat.mod_modEq _ _)
      have h2 := (h1.mul_right ns.prod).add_right rem
      refine h2.trans ?_
      have : (r * n + q % n) * ns.prod + rem = r * (n * ns.prod) + (q % n * ns.prod + rem) := by ring
      rw [this]

/-- A list of positive `int` extents is the cast of a list of positive naturals
with the same product. -/
theorem extents_eq_natCast (e : List Int) (hpos : ∀ l ∈ e, 0 < l) :
    ∃ ns : List Nat, e = ns.map Nat.cast ∧ (∀ n ∈ ns, 0 < n) ∧ e.prod = (ns.prod : Int) := by
  induction e with
  | nil => exact ⟨[], rfl, by simp, by simp⟩
  | cons l e ih =>
    obtain ⟨ns, he, hns, hp⟩ := ih fun m hm => hpos m (by simp [hm])
    have hl : 0 < l := hpos l (by simp)
    refine ⟨l.toNat :: ns, ?_, ?_, ?_⟩
    · simp only [List.map_cons, ← he]
      rw [Int.toNat_of_nonneg hl.le]
    · intro n hn
      rcases List.mem_cons.1 hn with h | h
      · subst h; omega
      · exact hns n h
    · simp only [List.prod_cons, hp, Nat.cast_mul]
      rw [Int.toNat_of_nonneg hl.le]

/-! ## Interpolation: supporting lemmas -/

section InterpolationLemmas

variable {α : Type} [LinearOrderedField α]

theorem readAt_of_lt {β : Type} (l : List β) (k : Nat) (h : k < l.length) (d : β) :
    readAt l (k : Int) = .ok (l.getD k d) := by
  have hk : ¬ ((k : Int) < 0) := by omega
  simp [readAt, hk, List.getElem?_eq_getElem h, List.getD_eq_getElem l d h]

theorem readAt_succ_of_lt {β : Type} (l : List β) (k : Nat) (h : k + 1 < l.length) (d : β) :
    readAt l ((k : Int) + 1) = .ok (l.getD (k + 1) d) := by
  have := readAt_of_lt l (k + 1) h d
  simpa using this

theorem readAt_zero {β : Type} (l : List β) (h : 0 < l.length) (d : β) :
    readAt l 0 = .ok (l.getD 0 d) := by
  simpa using readAt_of_lt l 0 h d

theorem readAt_one {β : Type} (l : List β) (h : 1 < l.length) (d : β) :
    readAt l 1 = .ok (l.getD 1 d) := by
  simpa using readAt_of_lt l 1 h d

theorem readAt_last {β : Type} (l : List β) (h : 0 < l.length) (d : β) :
    readAt l (ARRAYLEN1D l - 1) = .ok (l.getD (l.length - 1) d) := by
  have h1 : ARRAYLEN1D l - 1 = ((l.length - 1 : Nat) : Int) := by
    unfold ARRAYLEN1D; omega
  rw [h1]
  exact readAt_of_lt l _ (by omega) d

/-- The branches of `forceToGrid` once the two reads have succeeded. -/
theorem forceToGrid_eq (x : α) (g : List α) (h : 0 < g.length) :
    forceToGrid x g = .ok (if x < g.getD 0 0 then g.getD 0 0
      else if x > g.getD (g.length - 1) 0 then g.getD (g.length - 1) 0 else x) := by
  unfold forceToGrid ARRAYPTR1D
  rw [readAt_zero g h 0, readAt_last g h 0]
  simp only [bind, Except.bind, pure, Except.pure]
  split
  · rfl
  · split <;> rfl

theorem EvenlySpaced.dx_pos {g : List α} (hg : EvenlySpaced g) :
    0 < g.getD 1 0 - g.getD 0 0 := sub_pos.2 hg.step_pos

theorem EvenlySpaced.le_iff {g : List α} (hg : EvenlySpaced g) {i p : Nat}
    (hi : i < g.length) (hp : p < g.length) : g.getD i 0 ≤ g.getD p 0 ↔ i ≤ p := by
  rw [hg.spaced i hi, hg.spaced p hp, add_le_add_iff_left,
    mul_le_mul_right hg.dx_pos, Nat.cast_le]

theorem EvenlySpaced.lt_iff {g : List α} (hg : EvenlySpaced g) {i p : Nat}
    (hi : i < g.length) (hp : p < g.length) : g.getD i 0 < g.getD p 0 ↔ i < p := by
  rw [hg.spaced i hi, hg.spaced p hp, add_lt_add_iff_left,
    mul_lt_mul_right hg.dx_pos, Nat.cast_lt]

theorem ARRAYPTR2D_of_lt (F : List (List α)) {n1 n2 : Nat} (hF : Shape2 F n1 n2)
    (i j : Nat) (hi : i < n1) (hj : j < n2) :
    ARRAYPTR2D F (i : Int) (j : Int) = .ok ((F.getD i []).getD j 0) := by
  obtain ⟨h1, h2⟩ := hF
  have hi' : i < F.length := by omega
  have hrow : (F.getD i []).length = n2 := by
    rw [List.getD_eq_getElem F [] hi']
    exact h2 _ (List.getElem_mem _)
  unfold ARRAYPTR2D
  rw [readAt_of_lt F i hi' []]
  simp only [bind, Except.bind]
  exact readAt_of_lt _ j (by omega) 0

theorem ARRAYPTR3D_of_lt (F : List (List (List α))) {n1 n2 n3 : Nat} (hF : Shape3 F n1 n2 n3)
    (i j k : Nat) (hi : i < n1) (hj : j < n2) (hk : k < n3) :
    ARRAYPTR3D F (i : Int) (j : Int) (k : Int) = .ok (((F.getD i []).getD j []).getD k 0) := by
  obtain ⟨h1, h2⟩ := hF
  have hi' : i < F.length := by omega
  have hplane : Shape2 (F.getD i []) n2 n3 := by
    rw [List.getD_eq_getElem F [] hi']
    exact h2 _ (List.getElem_mem _)
  have hj' : j < (F.getD i []).length := by rw [hplane.1]; exact hj
  have hrow : ((F.getD i []).getD j []).length = n3 := by
    rw [List.getD_eq_getElem _ [] hj']
    exact hplane.2 _ (List.getElem_mem _)
  unfold ARRAYPTR3D
  rw [readAt_of_lt F i hi' []]
  simp only [bind, Except.bind]
  rw [readAt_of_lt _ j hj' []]
  exact readAt_of_lt _ k (by omega) 0

theorem interp1d_left (x1 f1 x2 f2 : α) : interp1d x1 x1 f1 x2 f2 = f1 := by
  simp [interp1d]

theorem interp1d_right (x1 f1 x2 f2 : α) (h : x1 < x2) : interp1d x2 x1 f1 x2 f2 = f2 := by
  simp [interp1d, not_le.2 h]

/-- On a clamped query `interp1d` is the linear formula at the clamped value. -/
theorem interp1d_clamped (x a x1 f1 x2 f2 : α) (h12 : x1 < x2) (h1 : x1 ≤ a) (h2 : a ≤ x2)
    (hx : x = a ∨ (x < a ∧ a = x1) ∨ (a < x ∧ a = x2)) :
    interp1d x x1 f1 x2 f2 = f1 + (f2 - f1) * (a - x1) / (x2 - x1) := by
  have hne : x2 - x1 ≠ 0 := sub_ne_zero.2 (ne_of_gt h12)
  unfold interp1d
  rcases hx with rfl | ⟨hlt, rfl⟩ | ⟨hlt, rfl⟩
  · by_cases c1 : x ≤ x1
    · have : x = x1 := le_antisymm c1 h1
      subst this
      simp
    · rw [if_neg c1]
      by_cases c2 : x ≥ x2
      · have : x = x2 := le_antisymm h2 c2
        subst this
        rw [if_pos le_rfl]
        field_simp
      · rw [if_neg c2]
  · rw [if_pos hlt.le]
    simp
  · rw [if_neg (not_le.2 (lt_trans h12 hlt)), if_pos hlt.le]
    field_simp

theorem lerpA_left (x1 x2 u1 u2 : α) (h : x2 - x1 ≠ 0) :
    u2 + (u2 - u1) / (x2 - x1) * (x1 - x2) = u1 := by
  field_simp
  ring

theorem lerpB_right (x1 x2 u1 u2 : α) (h : x2 - x1 ≠ 0) :
    u1 + (u2 - u1) / (x2 - x1) * (x2 - x1) = u2 := by
  field_simp

/-- A node `grid[p]` lying in the cell `[grid[i], grid[i+1]]` is one of its two
edges. -/
theorem EvenlySpaced.node_cases {g : List α} (hg : EvenlySpaced g) {i p : Nat}
    (hi : i + 1 < g.length) (hp : p < g.length) (h1 : g.getD i 0 ≤ g.getD p 0)
    (h2 : g.getD p 0 ≤ g.getD (i + 1) 0) : p = i ∨ p = i + 1 := by
  have a := (hg.le_iff (by omega) hp).1 h1
  have b := (hg.le_iff hp hi).1 h2
  omega

/-- At a node of the cell, `interp1d` returns the sample of that node. -/
theorem interp1d_node {g : List α} (hg : EvenlySpaced g) {i p : Nat}
    (hi : i + 1 < g.length) (hp : p < g.length) (h1 : g.getD i 0 ≤ g.getD p 0)
    (h2 : g.getD p 0 ≤ g.getD (i + 1) 0) (f : Nat → α) :
    interp1d (g.getD p 0) (g.getD i 0) (f i) (g.getD (i + 1) 0) (f (i + 1)) = f p := by
  have hlt : g.getD i 0 < g.getD (i + 1) 0 := (hg.lt_iff (by omega) hi).2 (by omega)
  rcases hg.node_cases hi hp h1 h2 with rfl | rfl
  · exact interp1d_left _ _ _ _
  · exact interp1d_right _ _ _ _ hlt

/-- At a node of the cell, the form `u2 + (u2-u1)/(x2-x1)*(a-x2)` used for
`w1`, `w2`, `w3` returns the sample of that node. -/
theorem lerpA_node {g : List α} (hg : EvenlySpaced g) {i p : Nat}
    (hi : i + 1 < g.length) (hp : p < g.length) (h1 : g.getD i 0 ≤ g.getD p 0)
    (h2 : g.getD p 0 ≤ g.getD (i + 1) 0) (f : Nat → α) :
    f (i + 1) + (f (i + 1) - f i) / (g.getD (i + 1) 0 - g.getD i 0)
      * (g.getD p 0 - g.getD (i + 1) 0) = f p := by
  have hlt : g.getD i 0 < g.getD (i + 1) 0 := (hg.lt_iff (by omega) hi).2 (by omega)
  have hne : g.getD (i + 1) 0 - g.getD i 0 ≠ 0 := sub_ne_zero.2 (ne_of_gt hlt)
  rcases hg.node_cases hi hp h1 h2 with rfl | rfl
  · exact lerpA_left _ _ _ _ hne
  · simp

/-- At a node of the cell, the form `u1 + (u2-u1)/(x2-x1)*(a-x1)` used for
`w4 .. w7` returns the sample of that node. -/
theorem lerpB_node {g : List α} (hg : EvenlySpaced g) {i p : Nat}
    (hi : i + 1 < g.length) (hp : p < g.length) (h1 : g.getD i 0 ≤ g.getD p 0)
    (h2 : g.getD p 0 ≤ g.getD (i + 1) 0) (f : Nat → α) :
    f i + (f (i + 1) - f i) / (g.getD (i + 1) 0 - g.getD i 0)
      * (g.getD p 0 - g.getD i 0) = f p := by
  have hlt : g.getD i 0 < g.getD (i + 1) 0 := (hg.lt_iff (by omega) hi).2 (by omega)
  have hne : g.getD (i + 1) 0 - g.getD i 0 ≠ 0 := sub_ne_zero.2 (ne_of_gt hlt)
  rcases hg.node_cases hi hp h1 h2 with rfl | rfl
  · simp
  · exact lerpB_right _ _ _ _ hne

theorem bilinA_eq (x1 x2 y1 y2 a b u1 u2 u3 u4 : α) (hx : x2 - x1 ≠ 0) (hy : y2 - y1 ≠ 0) :
    (u4 + (u4 - u3) / (x2 - x1) * (a - x2))
      + ((u4 + (u4 - u3) / (x2 - x1) * (a - x2)) - (u2 + (u2 - u1) / (x2 - x1) * (a - x2)))
        / (y2 - y1) * (b - y2)
    = (u1 + (u2 - u1) * (a - x1) / (x2 - x1))
      + ((u3 + (u4 - u3) * (a - x1) / (x2 - x1)) - (u1 + (u2 - u1) * (a - x1) / (x2 - x1)))
        * (b - y1) / (y2 - y1) := by
  field_simp
  ring

theorem bilinB_eq (x1 x2 y1 y2 a b u5 u6 u7 u8 : α) (hx : x2 - x1 ≠ 0) (hy : y2 - y1 ≠ 0) :
    (u5 + (u6 - u5) / (x2 - x1) * (a - x1))
      + ((u7 + (u8 - u7) / (x2 - x1) * (a - x1)) - (u5 + (u6 - u5) / (x2 - x1) * (a - x1)))
        / (y2 - y1) * (b - y1)
    = (u5 + (u6 - u5) * (a - x1) / (x2 - x1))
      + ((u7 + (u8 - u7) * (a - x1) / (x2 - x1)) - (u5 + (u6 - u5) * (a - x1) / (x2 - x1)))
        * (b - y1) / (y2 - y1) := by
  field_simp

/-- On clamped queries `interp2d` is the bilinear formula at the clamped values. -/
theorem interp2d_clamped (x y a b x1 y1 x2 y2 f11 f12 f21 f22 : α)
    (hx12 : x1 < x2) (hx1 : x1 ≤ a) (hx2 : a ≤ x2)
    (hx : x = a ∨ (x < a ∧ a = x1) ∨ (a < x ∧ a = x2))
    (hy12 : y1 < y2) (hy1 : y1 ≤ b) (hy2 : b ≤ y2)
    (hy : y = b ∨ (y < b ∧ b = y1) ∨ (b < y ∧ b = y2)) :
    interp2d x y x1 y1 x2 y2 f11 f12 f21 f22
    = (f11 + (f21 - f11) * (a - x1) / (x2 - x1))
      + ((f12 + (f22 - f12) * (a - x1) / (x2 - x1)) - (f11 + (f21 - f11) * (a - x1) / (x2 - x1)))
        * (b - y1) / (y2 - y1) := by
  unfold interp2d
  simp only
  rw [interp1d_clamped x a x1 f11 x2 f21 hx12 hx1 hx2 hx,
    interp1d_clamped x a x1 f12 x2 f22 hx12 hx1 hx2 hx,
    interp1d_clamped y b y1 _ y2 _ hy12 hy1 hy2 hy]

theorem slice3_getD (F : List (List (List α))) (r i j : Nat) :
    ((slice3 F r).getD i []).getD j 0 = ((F.getD i []).getD j []).getD r 0 := by
  unfold slice3
  have h1 := List.getD_map (l := F) (d := []) (n := i)
    (fun plane : List (List α) => plane.map fun row => row.getD r 0)
  simp only [List.map_nil] at h1
  rw [h1]
  have h2 := List.getD_map (l := F.getD i []) (d := []) (n := j)
    (fun row : List α => row.getD r 0)
  simp only [List.getD_nil] at h2
  exact h2

theorem slice3_shape {F : List (List (List α))} {n1 n2 n3 : Nat} (hF : Shape3 F n1 n2 n3)
    (r : Nat) : Shape2 (slice3 F r) n1 n2 := by
  obtain ⟨h1, h2⟩ := hF
  refine ⟨by simp [slice3, h1], ?_⟩
  intro row hrow
  simp only [slice3, List.mem_map] at hrow
  obtain ⟨plane, hp, rfl⟩ := hrow
  simpa using (h2 plane hp).1

variable [FloorRing α]

/-- The branches of `getCellIndex` once the reads have succeeded. -/
theorem getCellIndex_eq (v : α) (g : List α) (h : 2 ≤ g.length) :
    getCellIndex v g = .ok (if v < g.getD 0 0 then -1
      else if v ≥ g.getD (g.length - 1) 0 then (g.length : Int) - 2
      else if ⌊(v - g.getD 0 0) / (g.getD 1 0 - g.getD 0 0)⌋ = (g.length : Int) - 1
        then ⌊(v - g.getD 0 0) / (g.getD 1 0 - g.getD 0 0)⌋ - 1
        else ⌊(v - g.getD 0 0) / (g.getD 1 0 - g.getD 0 0)⌋) := by
  unfold getCellIndex ARRAYPTR1D
  rw [readAt_zero g (by omega) 0, readAt_one g (by omega) 0, readAt_last g (by omega) 0]
  simp only [bind, Except.bind, pure, Except.pure, ARRAYLEN1D]
  split
  · rfl
  · split
    · rfl
    · split <;> rfl

/-- Locating a query on an evenly spaced grid: `forceToGrid` returns `a` in the
grid range, `getCellIndex a` returns a cell `i` with `0 ≤ i ≤ len-2` and
`grid[i] ≤ a ≤ grid[i+1]`; the query `x` is `a` itself, or lies below `a` with
`a` the left edge of the cell, or above `a` with `a` the right edge. -/
theorem locate_spec {g : List α} (hg : EvenlySpaced g) (x : α) :
    ∃ (a : α) (i : Nat), forceToGrid x g = .ok a ∧ getCellIndex a g = .ok (i : Int) ∧
      i + 1 < g.length ∧ g.getD i 0 ≤ a ∧ a ≤ g.getD (i + 1) 0 ∧
      (x = a ∨ (x < a ∧ a = g.getD i 0) ∨ (a < x ∧ a = g.getD (i + 1) 0)) ∧
      a = (if x < g.getD 0 0 then g.getD 0 0
        else if x > g.getD (g.length - 1) 0 then g.getD (g.length - 1) 0 else x) := by
  have hn := hg.two_le
  have hdx := hg.dx_pos
  set g0 := g.getD 0 0 with hg0
  set dx := g.getD 1 0 - g.getD 0 0 with hdxdef
  set last := g.getD (g.length - 1) 0 with hlast
  have hlastv : last = g0 + ((g.length - 1 : Nat) : α) * dx := hg.spaced _ (by omega)
  have hg0last : g0 < last := (hg.lt_iff (by omega) (by omega)).2 (by omega)
  -- the cell of a value inside the grid range
  have cell : ∀ a : α, g0 ≤ a → a ≤ last →
      ∃ i : Nat, getCellIndex a g = .ok (i : Int) ∧ i + 1 < g.length ∧
        g.getD i 0 ≤ a ∧ a ≤ g.getD (i + 1) 0 ∧ (a = g0 → i = 0) ∧
        (a = last → i + 2 = g.length) := by
    intro a ha0 ha1
    rw [getCellIndex_eq a g hn, if_neg (not_lt.2 ha0)]
    by_cases hal : a ≥ last
    · have hal' : a = last := le_antisymm ha1 hal
      refine ⟨g.length - 2, ?_, by omega, ?_, ?_, ?_, fun _ => by omega⟩
      · rw [if_pos hal]
        congr 1
        omega
      · rw [hal']
        exact (hg.le_iff (by omega) (by omega)).2 (by omega)
      · have h1 : g.length - 2 + 1 = g.length - 1 := by omega
        rw [h1]
        exact ha1
      · intro h
        rw [h] at hal'
        exact absurd hal' (ne_of_lt hg0last)
    · rw [if_neg hal]
      have hal' : a < last := not_le.1 hal
      set m := ⌊(a - g0) / dx⌋ with hm
      have hm0 : 0 ≤ m := Int.floor_nonneg.2 (div_nonneg (sub_nonneg.2 ha0) hdx.le)
      have hmlt : m < ((g.length - 1 : Nat) : Int) := by
        rw [hm, Int.floor_lt, div_lt_iff₀ hdx]
        rw [hlastv] at hal'
        have : a - g0 < ((g.length - 1 : Nat) : α) * dx := by linarith
        simpa using this
      have hmne : ¬ (m = (g.length : Int) - 1) := by omega
      rw [if_neg hmne]
      obtain ⟨i, hi⟩ := Int.eq_ofNat_of_zero_le hm0
      have hilt : i + 1 < g.length := by omega
      have hle : (m : α) ≤ (a - g0) / dx := Int.floor_le _
      have hlt : (a - g0) / dx < (m : α) + 1 := Int.lt_floor_add_one _
      rw [le_div_iff₀ hdx] at hle
      rw [div_lt_iff₀ hdx] at hlt
      have hmi : (m : α) = (i : α) := by rw [hi]; simp
      rw [hmi] at hle hlt
      refine ⟨i, by rw [hi], hilt, ?_, ?_, ?_, ?_⟩
      · rw [hg.spaced i (by omega)]
        change g0 + (i : α) * dx ≤ a
        linarith
      · rw [hg.spaced (i + 1) hilt]
        push_cast
        change a ≤ g0 + ((i : α) + 1) * dx
        linarith
      · intro h
        rw [h, sub_self] at hlt
        by_contra hne
        have hi1 : (1 : α) ≤ (i : α) := by exact_mod_cast Nat.one_le_iff_ne_zero.2 hne
        have h0 : 0 ≤ (i : α) * dx := by nlinarith
        nlinarith
      · intro h
        exact absurd h (ne_of_lt hal')
  rw [forceToGrid_eq x g (by omega)]
  by_cases hx0 : x < g0
  · rw [if_pos hx0]
    obtain ⟨i, h1, h2, h3, h4, h5, -⟩ := cell g0 le_rfl hg0last.le
    have hi0 := h5 rfl
    subst hi0
    exact ⟨g0, 0, rfl, h1, h2, h3, h4, Or.inr (Or.inl ⟨hx0, rfl⟩), rfl⟩
  · rw [if_neg hx0]
    by_cases hx1 : x > last
    · rw [if_pos hx1]
      obtain ⟨i, h1, h2, h3, h4, -, h6⟩ := cell last hg0last.le le_rfl
      have hi := h6 rfl
      have hi' : i + 1 = g.length - 1 := by omega
      refine ⟨last, i, rfl, h1, h2, h3, h4, Or.inr (Or.inr ⟨hx1, ?_⟩), rfl⟩
      rw [hi']
    · rw [if_neg hx1]
      obtain ⟨i, h1, h2, h3, h4, -, -⟩ := cell x (not_lt.1 hx0) (not_lt.1 hx1)
      exact ⟨x, i, rfl, h1, h2, h3, h4, Or.inl rfl, rfl⟩

/-- The value of `interp2d_grid` once the cell `(i, j)` is known. -/
theorem interp2d_grid_eq {g1 g2 : List α} {F : List (List α)} (x y a b : α) (i j : Nat)
    (ha : forceToGrid x g1 = .ok a) (hb : forceToGrid y g2 = .ok b)
    (hi : getCellIndex a g1 = .ok (i : Int)) (hj : getCellIndex b g2 = .ok (j : Int))
    (hi1 : i + 1 < g1.length) (hj1 : j + 1 < g2.length)
    (hF : Shape2 F g1.length g2.length) :
    interp2d_grid g1 g2 F x y = .ok (interp2d x y (g1.getD i 0) (g2.getD j 0)
      (g1.getD (i + 1) 0) (g2.getD (j + 1) 0)
      ((F.getD i []).getD j 0) ((F.getD i []).getD (j + 1) 0)
      ((F.getD (i + 1) []).getD j 0) ((F.getD (i + 1) []).getD (j + 1) 0)) := by
  have ei : ((i : Int) + 1) = ((i + 1 : Nat) : Int) := by push_cast; rfl
  have ej : ((j : Int) + 1) = ((j + 1 : Nat) : Int) := by push_cast; rfl
  simp only [interp2d_grid, ha, hb, hi, hj, bind, Except.bind, ARRAYPTR1D]
  rw [ei, ej, readAt_of_lt g1 i (by omega) 0, readAt_of_lt g1 (i + 1) hi1 0,
    readAt_of_lt g2 j (by omega) 0, readAt_of_lt g2 (j + 1) hj1 0]
  simp only [ARRAYPTR2D_of_lt F hF i j (by omega) (by omega),
    ARRAYPTR2D_of_lt F hF (i + 1) j hi1 (by omega),
    ARRAYPTR2D_of_lt F hF i (j + 1) (by omega) hj1,
    ARRAYPTR2D_of_lt F hF (i + 1) (j + 1) hi1 hj1]
  rfl

/-- The value of `interpTrilinear` once the cell `(i, j, k)` is known. -/
theorem interpTrilinear_eq {g1 g2 g3 : List α} {F : List (List (List α))}
    (x y z a b c : α) (i j k : Nat)
    (ha : forceToGrid x g1 = .ok a) (hb : forceToGrid y g2 = .ok b)
    (hc : forceToGrid z g3 = .ok c)
    (hi : getCellIndex a g1 = .ok (i : Int)) (hj : getCellIndex b g2 = .ok (j : Int))
    (hk : getCellIndex c g3 = .ok (k : Int))
    (hi1 : i + 1 < g1.length) (hj1 : j + 1 < g2.length) (hk1 : k + 1 < g3.length)
    (hF : Shape3 F g1.length g2.length g3.length) :
    interpTrilinear g1 g2 g3 F x y z = .ok
      (let x1 := g1.getD i 0
       let x2 := g1.getD (i + 1) 0
       let y1 := g2.getD j 0
       let y2 := g2.getD (j + 1) 0
       let z1 := g3.getD k 0
       let z2 := g3.getD (k + 1) 0
       let u1 := ((F.getD i []).getD j []).getD k 0
       let u2 := ((F.getD (i + 1) []).getD j []).getD k 0
       let u3 := ((F.getD i []).getD (j + 1) []).getD k 0
       let u4 := ((F.getD (i + 1) []).getD (j + 1) []).getD k 0
       let u5 := ((F.getD i []).getD j []).getD (k + 1) 0
       let u6 := ((F.getD (i + 1) []).getD j []).getD (k + 1) 0
       let u7 := ((F.getD i []).getD (j + 1) []).getD (k + 1) 0
       let u8 := ((F.getD (i + 1) []).getD (j + 1) []).getD (k + 1) 0
       let w1 := u2 + (u2 - u1) / (x2 - x1) * (a - x2)
       let w2 := u4 + (u4 - u3) / (x2 - x1) * (a - x2)
       let w3 := w2 + (w2 - w1) / (y2 - y1) * (b - y2)
       let w4 := u5 + (u6 - u5) / (x2 - x1) * (a - x1)
       let w5 := u7 + (u8 - u7) / (x2 - x1) * (a - x1)
       let w6 := w4 + (w5 - w4) / (y2 - y1) * (b - y1)
       w3 + (w6 - w3) / (z2 - z1) * (c - z1)) := by
  have ei : ((i : Int) + 1) = ((i + 1 : Nat) : Int) := by push_cast; rfl
  have ej : ((j : Int) + 1) = ((j + 1 : Nat) : Int) := by push_cast; rfl
  have ek : ((k : Int) + 1) = ((k + 1 : Nat) : Int) := by push_cast; rfl
  simp only [interpTrilinear, ha, hb, hc, hi, hj, hk, bind, Except.bind, ARRAYPTR1D]
  rw [ei, ej, ek, readAt_of_lt g1 i (by omega) 0, readAt_of_lt g1 (i + 1) hi1 0,
    readAt_of_lt g2 j (by omega) 0, readAt_of_lt g2 (j + 1) hj1 0,
    readAt_of_lt g3 k (by omega) 0, readAt_of_lt g3 (k + 1) hk1 0]
  simp only [ARRAYPTR3D_of_lt F hF i j k (by omega) (by omega) (by omega),
    ARRAYPTR3D_of_lt F hF (i + 1) j k hi1 (by omega) (by omega),
    ARRAYPTR3D_of_lt F hF i (j + 1) k (by omega) hj1 (by omega),
    ARRAYPTR3D_of_lt F hF (i + 1) (j + 1) k hi1 hj1 (by omega),
    ARRAYPTR3D_of_lt F hF i j (k + 1) (by omega) (by omega) hk1,
    ARRAYPTR3D_of_lt F hF (i + 1) j (k + 1) hi1 (by omega) hk1,
    ARRAYPTR3D_of_lt F hF i (j + 1) (k + 1) (by omega) hj1 hk1,
    ARRAYPTR3D_of_lt F hF (i + 1) (j + 1) (k + 1) hi1 hj1 hk1]
  rfl

/-- Locating a node `grid[p]`: the query is left unchanged by `forceToGrid` and
its cell has the node as one of its edges. -/
theorem locate_node {g : List α} (hg : EvenlySpaced g) (p : Nat) (hp : p < g.length) :
    ∃ i : Nat, forceToGrid (g.getD p 0) g = .ok (g.getD p 0) ∧
      getCellIndex (g.getD p 0) g = .ok (i : Int) ∧ i + 1 < g.length ∧
      g.getD i 0 ≤ g.getD p 0 ∧ g.getD p 0 ≤ g.getD (i + 1) 0 := by
  obtain ⟨a, i, ha, hi, hi1, h1, h2, -, hval⟩ := locate_spec hg (g.getD p 0)
  have hn := hg.two_le
  have c1 : ¬ (g.getD p 0 < g.getD 0 0) := not_lt.2 ((hg.le_iff (by omega) hp).2 (by omega))
  have c2 : ¬ (g.getD p 0 > g.getD (g.length - 1) 0) :=
    not_lt.2 ((hg.le_iff hp (by omega)).2 (by omega))
  rw [if_neg c1, if_neg c2] at hval
  subst hval
  exact ⟨i, ha, hi, hi1, h1, h2⟩

end InterpolationLemmas

/-! ## Serial grid search: supporting lemmas -/

theorem latticeFrom_zero (grids : List (List Dbl)) (hne : ∀ g ∈ grids, g ≠ []) :
    latticeFrom grids (grids.map fun _ => 0) = lattice grids := by
  induction grids with
  | nil => rfl
  | cons g gs ih =>
    have hg : g ≠ [] := hne g (by simp)
    obtain ⟨x, xs, rfl⟩ := List.exists_cons_of_ne_nil hg
    have ih' := ih fun g' hg' => hne g' (by simp [hg'])
    simp only [List.map_cons, latticeFrom, List.drop_zero, ih', lattice, List.flatMap_cons]

theorem validIndex_zero (grids : List (List Dbl)) (hne : ∀ g ∈ grids, g ≠ []) :
    ValidIndex (grids.map fun _ => 0) grids := by
  induction grids with
  | nil => exact List.Forall₂.nil
  | cons g gs ih =>
    refine List.Forall₂.cons ?_ (ih fun g' hg' => hne g' (by simp [hg']))
    exact List.length_pos.2 (hne g (by simp))

/-- One turn of the odometer: at a valid index tuple the reads succeed and give
the first of the points still to visit; the incremented tuple is valid and
addresses the rest, or the odometer reports completion, the rest is empty and
all indices are back to zero. -/
theorem odometer_step (grids : List (List Dbl)) (hne : ∀ g ∈ grids, g ≠ [])
    (idx : List Nat) (hv : ValidIndex idx grids) :
    ∃ p rest, gridSearch.readArgs grids idx = .ok p ∧ latticeFrom grids idx = p :: rest ∧
      (((gridSearch.increment (grids.map List.length) idx).2 = false ∧
          ValidIndex (gridSearch.increment (grids.map List.length) idx).1 grids ∧
          rest = latticeFrom grids (gridSearch.increment (grids.map List.length) idx).1) ∨
       ((gridSearch.increment (grids.map List.length) idx).2 = true ∧ rest = [] ∧
          (gridSearch.increment (grids.map List.length) idx).1 = grids.map fun _ => 0)) := by
  induction hv with
  | nil =>
    exact ⟨[], [], rfl, rfl, Or.inr ⟨rfl, rfl, rfl⟩⟩
  | @cons d g ds gs hd hv ih =>
    have hne' : ∀ g' ∈ gs, g' ≠ [] := fun g' hg' => hne g' (by simp [hg'])
    obtain ⟨p, rest, hread, hfrom, hstep⟩ := ih hne'
    have hdrop : g.drop d = g[d] :: g.drop (d + 1) := List.drop_eq_getElem_cons hd
    have hget : g[d]? = some g[d] := List.getElem?_eq_getElem hd
    refine ⟨g[d] :: p, rest.map (fun q => g[d] :: q)
      ++ (g.drop (d + 1)).flatMap (fun y => (lattice gs).map fun q => y :: q), ?_, ?_, ?_⟩
    · simp only [gridSearch.readArgs, hget, hread]
    · simp only [latticeFrom, hdrop, hfrom, List.map_cons, List.cons_append]
    · simp only [List.map_cons, gridSearch.increment]
      rcases hstep with ⟨h2, hval, hrest⟩ | ⟨h2, hrest, hzero⟩
      · left
        generalize hinc : gridSearch.increment (gs.map List.length) ds = nx at h2 hval hrest
        obtain ⟨ds1, b⟩ := nx
        simp only at h2 hval hrest
        subst h2
        refine ⟨rfl, List.Forall₂.cons hd hval, ?_⟩
        simp only [latticeFrom, hdrop, hrest]
      · generalize hinc : gridSearch.increment (gs.map List.length) ds = nx at h2 hzero
        obtain ⟨ds1, b⟩ := nx
        simp only at h2 hzero
        subst h2
        subst hzero
        subst hrest
        by_cases hlast : d + 1 = g.length
        · right
          dsimp only
          rw [if_pos hlast]
          refine ⟨rfl, ?_, rfl⟩
          rw [hlast, List.drop_length]
          simp
        · left
          have hd1 : d + 1 < g.length := by omega
          dsimp only
          rw [if_neg hlast]
          refine ⟨rfl, List.Forall₂.cons hd1 (validIndex_zero gs hne'), ?_⟩
          have hdrop1 : g.drop (d + 1) = g[d + 1] :: g.drop (d + 1 + 1) :=
            List.drop_eq_getElem_cons hd1
          simp only [latticeFrom, hdrop1, latticeFrom_zero gs hne', List.flatMap_cons,
            List.map_nil, List.nil_append]

theorem gridSearch.update_index (v : Dbl) (p : List Dbl) (st : SearchState) :
    (gridSearch.update v p st).dataIndexArray = st.dataIndexArray := by
  unfold gridSearch.update
  simp only
  split_ifs <;> rfl

theorem gridSearch.update_sameResult (v : Dbl) (p : List Dbl) {a b : SearchState}
    (h : SameResult a b) : SameResult (gridSearch.update v p a) (gridSearch.update v p b) := by
  obtain ⟨h1, h2, h3, h4⟩ := h
  unfold gridSearch.update SameResult
  simp only [h1, h2, h3, h4]
  split_ifs <;> simp [h1, h2, h3, h4]

theorem gridSearch.scan_sameResult (pFn : List Dbl → Dbl) (pts : List (List Dbl))
    {a b : SearchState} (h : SameResult a b) :
    SameResult (gridSearch.scan pFn pts a) (gridSearch.scan pFn pts b) := by
  induction pts generalizing a b with
  | nil => exact h
  | cons p pts ih =>
    simp only [gridSearch.scan, List.foldl_cons] at ih ⊢
    exact ih (gridSearch.update_sameResult _ _ h)

/-- The `while` loop entered at a valid index tuple with enough fuel applies
the comparisons to the points still to visit, in order, and leaves all indices
at zero. -/
theorem gridSearch.loop_eq (grids : List (List Dbl)) (hne : ∀ g ∈ grids, g ≠ [])
    (pFn : List Dbl → Dbl) (fuel : Nat) (st : SearchState)
    (hv : ValidIndex st.dataIndexArray grids)
    (hfuel : (latticeFrom grids st.dataIndexArray).length ≤ fuel) :
    ∃ st1, gridSearch.loop grids pFn fuel st = .ok st1 ∧
      st1.dataIndexArray = (grids.map fun _ => 0) ∧
      SameResult st1 (gridSearch.scan pFn (latticeFrom grids st.dataIndexArray) st) := by
  induction fuel generalizing st with
  | zero =>
    obtain ⟨p, rest, -, hfrom, -⟩ := odometer_step grids hne st.dataIndexArray hv
    rw [hfrom] at hfuel
    simp at hfuel
  | succ fuel ih =>
    obtain ⟨p, rest, hread, hfrom, hstep⟩ := odometer_step grids hne st.dataIndexArray hv
    rw [hfrom] at hfuel ⊢
    simp only [gridSearch.loop, gridSearch.body, hread, gridSearch.update_index]
    rcases hstep with ⟨h2, hval, hrest⟩ | ⟨h2, hrest, hzero⟩
    · generalize hinc : gridSearch.increment (grids.map List.length) st.dataIndexArray = nx
        at h2 hval hrest
      obtain ⟨idx1, b⟩ := nx
      simp only at h2 hval hrest
      subst h2
      simp only
      have hlen : (latticeFrom grids idx1).length ≤ fuel := by
        rw [← hrest]
        simpa using hfuel
      obtain ⟨st1, hrun, hidx, hsame⟩ := ih
        { gridSearch.update (pFn p) p st with dataIndexArray := idx1 } hval hlen
      refine ⟨st1, hrun, hidx, ?_⟩
      simp only [← hrest] at hsame
      have hstart : SameResult
          { gridSearch.update (pFn p) p st with dataIndexArray := idx1 }
          (gridSearch.update (pFn p) p st) := ⟨rfl, rfl, rfl, rfl⟩
      have h3 := gridSearch.scan_sameResult pFn rest hstart
      obtain ⟨a1, a2, a3, a4⟩ := hsame
      obtain ⟨b1, b2, b3, b4⟩ := h3
      exact ⟨a1.trans b1, a2.trans b2, a3.trans b3, a4.trans b4⟩
    · generalize hinc : gridSearch.increment (grids.map List.length) st.dataIndexArray = nx
        at h2 hzero
      obtain ⟨idx1, b⟩ := nx
      simp only at h2 hzero
      subst h2 hzero hrest
      exact ⟨_, rfl, rfl, rfl, rfl, rfl, rfl⟩

/-- With all grids non-empty and fuel for every lattice point, `gridSearch`
returns the multiplicity, maximum and argmax obtained by applying its
comparisons to the lattice points in lexicographic order. -/
theorem gridSearch_eq_scan (grids : List (List Dbl)) (hne : ∀ g ∈ grids, g ≠ [])
    (pFn : List Dbl → Dbl) (argMax0 : List Dbl) (fuel : Nat)
    (hfuel : (lattice grids).length ≤ fuel) :
    gridSearch grids pFn argMax0 fuel
      = .ok ((gridSearch.scan pFn (lattice grids) (gridSearch.init grids argMax0)).nMaxMultiplicity,
          (gridSearch.scan pFn (lattice grids) (gridSearch.init grids argMax0)).max,
          (gridSearch.scan pFn (lattice grids) (gridSearch.init grids argMax0)).argMaxArray) := by
  have hany : (grids.map List.length).any (fun len => len == 0) = false := by
    rw [Bool.eq_false_iff]
    intro h
    simp only [List.any_eq_true, List.mem_map, beq_iff_eq] at h
    obtain ⟨len, ⟨g, hg, rfl⟩, h0⟩ := h
    exact hne g hg (List.length_eq_zero.1 h0)
  have hzero : ((grids.map List.length).map fun _ => 0) = grids.map fun _ => 0 := by
    rw [List.map_map]
    rfl
  have hv : ValidIndex (gridSearch.init grids argMax0).dataIndexArray grids := by
    simp only [gridSearch.init, hzero]
    exact validIndex_zero grids hne
  have hfrom : latticeFrom grids (gridSearch.init grids argMax0).dataIndexArray
      = lattice grids := by
    simp only [gridSearch.init, hzero]
    exact latticeFrom_zero grids hne
  obtain ⟨st1, hrun, -, h1, h2, h3, h4⟩ := gridSearch.loop_eq grids hne pFn fuel
    (gridSearch.init grids argMax0) hv (by rw [hfrom]; exact hfuel)
  rw [hfrom] at h1 h2 h3 h4
  have hrun' : gridSearch.run grids pFn argMax0 fuel = .ok st1 := by
    unfold gridSearch.run
    simp only [hany, Bool.false_eq_true, if_false]
    exact hrun
  unfold gridSearch
  rw [hrun']
  simp only [h2, h3, h4]

theorem countP_eq_zero_of_lt (pFn : List Dbl → Dbl) (pts : List (List Dbl)) (v : Dbl)
    (h : ∀ p ∈ pts, pFn p < v) : pts.countP (fun p => decide (pFn p = v)) = 0 := by
  rw [List.countP_eq_zero]
  intro p hp
  simpa using ne_of_lt (h p hp)

theorem serialInv_step (pFn : List Dbl → Dbl) (pts : List (List Dbl)) (st : SearchState)
    (p : List Dbl) (h : SerialInv pFn pts st) :
    SerialInv pFn (pts ++ [p]) (gridSearch.update (pFn p) p st) := by
  obtain ⟨hn, hrest⟩ := h
  by_cases hpts : pts = []
  · subst hpts
    have h0 : st.nIter = 0 := by simpa using hn
    unfold gridSearch.update
    simp only [h0, if_true]
    refine ⟨by simp, fun _ => ⟨?_, rfl, ⟨[], [], by simp, by simp⟩, by simp⟩⟩
    intro q hq
    simp only [List.nil_append, List.mem_singleton] at hq
    rw [hq]
  · obtain ⟨hle, harg, ⟨pre, post, hsplit, hpre⟩, hcount⟩ := hrest hpts
    have hn0 : st.nIter ≠ 0 := by
      rw [hn]
      exact fun h => hpts (List.length_eq_zero.1 h)
    unfold gridSearch.update
    simp only [if_neg hn0]
    by_cases hgt : pFn p > st.max
    · simp only [if_pos hgt]
      refine ⟨by simp [hn], fun _ => ⟨?_, rfl, ⟨pts, [], rfl, ?_⟩, ?_⟩⟩
      · intro q hq
        rcases List.mem_append.1 hq with hq | hq
        · exact le_of_lt (lt_of_le_of_lt (hle q hq) hgt)
        · rw [List.mem_singleton.1 hq]
      · intro q hq
        exact lt_of_le_of_lt (hle q hq) hgt
      · rw [List.countP_append, countP_eq_zero_of_lt pFn pts (pFn p)
          (fun q hq => lt_of_le_of_lt (hle q hq) hgt)]
        simp
    · simp only [if_neg hgt]
      by_cases heq : pFn p = st.max
      · simp only [if_pos heq]
        refine ⟨by simp [hn], fun _ => ⟨?_, harg, ⟨pre, post ++ [p], ?_, hpre⟩, ?_⟩⟩
        · intro q hq
          rcases List.mem_append.1 hq with hq | hq
          · exact hle q hq
          · rw [List.mem_singleton.1 hq, heq]
        · rw [hsplit]
          simp
        · rw [List.countP_append, ← hcount]
          simp [heq]
      · simp only [if_neg heq]
        refine ⟨by simp [hn], fun _ => ⟨?_, harg, ⟨pre, post ++ [p], ?_, hpre⟩, ?_⟩⟩
        · intro q hq
          rcases List.mem_append.1 hq with hq | hq
          · exact hle q hq
          · rw [List.mem_singleton.1 hq]
            exact le_of_not_lt hgt
        · rw [hsplit]
          simp
        · rw [List.countP_append, ← hcount]
          simp [heq]

theorem serialInv_scan (pFn : List Dbl → Dbl) (rest done : List (List Dbl)) (st : SearchState)
    (h : SerialInv pFn done st) :
    SerialInv pFn (done ++ rest) (gridSearch.scan pFn rest st) := by
  induction rest generalizing done st with
  | nil => simpa [gridSearch.scan] using h
  | cons p rest ih =>
    have h1 := ih (done ++ [p]) _ (serialInv_step pFn done st p h)
    simpa [gridSearch.scan] using h1

theorem lattice_ne_nil (grids : List (List Dbl)) (hne : ∀ g ∈ grids, g ≠ []) :
    lattice grids ≠ [] := by
  obtain ⟨p, rest, -, hfrom, -⟩ :=
    odometer_step grids hne _ (validIndex_zero grids hne)
  rw [latticeFrom_zero grids hne] at hfrom
  rw [hfrom]
  exact List.cons_ne_nil _ _

/-- The state reached by `gridSearch` on non-empty grids satisfies the serial
invariant for the whole lattice. -/
theorem serialInv_lattice (grids : List (List Dbl)) (pFn : List Dbl → Dbl)
    (argMax0 : List Dbl) :
    SerialInv pFn (lattice grids)
      (gridSearch.scan pFn (lattice grids) (gridSearch.init grids argMax0)) := by
  have h0 : SerialInv pFn [] (gridSearch.init grids argMax0) :=
    ⟨rfl, fun h => absurd rfl h⟩
  simpa using serialInv_scan pFn (lattice grids) [] _ h0

/-! ## Flat indices and the lattice -/

theorem lattice_length_cons (g : List Dbl) (gs : List (List Dbl)) :
    (lattice (g :: gs)).length = g.length * (lattice gs).length := by
  induction g with
  | nil => simp [lattice]
  | cons x xs ih =>
    simp only [lattice, List.flatMap_cons, List.length_append, List.length_map,
      List.length_cons] at ih ⊢
    rw [ih]
    ring

/-- Entry `a * |S| + b` of the blocks `x₀ :: S, x₁ :: S, ...` is `x_a :: S[b]`. -/
theorem flatMap_cons_getElem? (S : List (List Dbl)) (g : List Dbl) (a b : Nat) (x : Dbl)
    (t : List Dbl) (ha : g[a]? = some x) (hb : S[b]? = some t) :
    (g.flatMap fun y => S.map fun p => y :: p)[a * S.length + b]? = some (x :: t) := by
  have hbl : b < S.length := (List.getElem?_eq_some_iff.1 hb).1
  induction g generalizing a with
  | nil => simp at ha
  | cons y ys ih =>
    rw [List.flatMap_cons]
    cases a with
    | zero =>
      simp only [List.getElem?_cons_zero, Option.some.injEq] at ha
      subst ha
      rw [Nat.zero_mul, Nat.zero_add, List.getElem?_append_left (by simpa using hbl),
        List.getElem?_map, hb]
      rfl
    | succ a =>
      simp only [List.getElem?_cons_succ] at ha
      have hge : (S.map fun p => y :: p).length ≤ (a + 1) * S.length + b := by
        rw [List.length_map]
        nlinarith
      rw [List.getElem?_append_right hge]
      have hidx : (a + 1) * S.length + b - (S.map fun p => y :: p).length
          = a * S.length + b := by
        rw [List.length_map, Nat.add_mul, Nat.one_mul]
        omega
      rw [hidx]
      exact ih a ha

/-- Decoding a flat index and reading the grids yields the lattice point at
that position of the lexicographic enumeration (grid lengths fit `int`, the
lattice size fits `unsigned int`). For any `x` the decoder loop leaves the
quotient `x / N` and addresses the point at position `x % N`. -/
theorem decode_read (grids : List (List Dbl)) (hne : ∀ g ∈ grids, g ≠ [])
    (hint : ∀ g ∈ grids, g.length < 2147483648) (x : Nat) :
    ∃ ds p, Index1DToArray.loop (grids.map fun g => (g.length : Int)) x
        = .ok (ds, x / (lattice grids).length) ∧
      MaxIndexFnObj2.readArgs grids ds = .ok p ∧
      (lattice grids)[x % (lattice grids).length]? = some p := by
  induction grids with
  | nil =>
    refine ⟨[], [], ?_, rfl, ?_⟩
    · simp [Index1DToArray.loop, lattice]
    · simp [lattice, Nat.mod_one]
  | cons g gs ih =>
    obtain ⟨ds, p, hloop, hread, hget⟩ :=
      ih (fun g' hg' => hne g' (by simp [hg'])) (fun g' hg' => hint g' (by simp [hg']))
    have hg : 0 < g.length := List.length_pos.2 (hne g (by simp))
    have hgi : g.length < 2147483648 := hint g (by simp)
    set N := (lattice gs).length with hN
    have hU : toUInt (g.length : Int) = g.length := by
      rw [toUInt_natCast]
      exact Nat.mod_eq_of_lt (by omega)
    have hd : x / N % g.length < g.length := Nat.mod_lt _ hg
    have hI : toInt (x / N % g.length) = ((x / N % g.length : Nat) : Int) := by
      unfold toInt
      rw [Nat.mod_eq_of_lt (by omega), if_pos (by omega)]
    refine ⟨toInt (x / N % g.length) :: ds, g[x / N % g.length] :: p, ?_, ?_, ?_⟩
    · simp only [List.map_cons, Index1DToArray.loop, hloop, hU]
      rw [if_neg (by omega), lattice_length_cons, Nat.div_div_eq_div_mul, Nat.mul_comm N]
    · simp only [MaxIndexFnObj2.readArgs, hI, hread]
      rw [readAt_of_lt g _ hd ⊥]
      simp only [List.getD_eq_getElem g ⊥ hd]
    · rw [lattice_length_cons, Nat.mul_comm, Nat.mod_mul, Nat.add_comm, Nat.mul_comm]
      exact flatMap_cons_getElem? (lattice gs) g _ _ _ _ (List.getElem?_eq_getElem hd) hget

/-! ## Parallel grid search, N-D: supporting lemmas -/

theorem track_refl (pFn : List Dbl → Dbl) (s : MaxIndexFnObj2) : Track pFn s ∅ s :=
  ⟨le_rfl, fun _ hp => absurd hp (Set.not_mem_empty _), Or.inl ⟨rfl, rfl⟩⟩

theorem track_step (pFn : List Dbl → Dbl) (s : MaxIndexFnObj2) (p : List Dbl) :
    Track pFn s {p} (MaxIndexFnObj2.step pFn s p) := by
  unfold MaxIndexFnObj2.step
  by_cases h : pFn p > s.m_value_of_max
  · rw [if_pos h]
    refine ⟨le_of_lt h, ?_, Or.inr ⟨p, rfl, rfl, rfl⟩⟩
    intro q hq
    rw [Set.mem_singleton_iff.1 hq]
  · rw [if_neg h]
    refine ⟨le_rfl, ?_, Or.inl ⟨rfl, rfl⟩⟩
    intro q hq
    rw [Set.mem_singleton_iff.1 hq]
    exact le_of_not_lt h

theorem track_trans (pFn : List Dbl → Dbl) {s0 s1 s2 : MaxIndexFnObj2}
    {P Q : Set (List Dbl)} (h1 : Track pFn s0 P s1) (h2 : Track pFn s1 Q s2) :
    Track pFn s0 (P ∪ Q) s2 := by
  obtain ⟨a1, b1, c1⟩ := h1
  obtain ⟨a2, b2, c2⟩ := h2
  refine ⟨le_trans a1 a2, ?_, ?_⟩
  · intro p hp
    rcases hp with hp | hp
    · exact le_trans (b1 p hp) a2
    · exact b2 p hp
  · rcases c2 with ⟨e1, e2⟩ | ⟨p, hp, e1, e2⟩
    · rcases c1 with ⟨d1, d2⟩ | ⟨p, hp, d1, d2⟩
      · exact Or.inl ⟨e1.trans d1, e2.trans d2⟩
      · exact Or.inr ⟨p, Or.inl hp, d1.trans e1.symm, e2.trans d2⟩
    · exact Or.inr ⟨p, Or.inr hp, e1, e2⟩

theorem track_join (pFn : List Dbl → Dbl) {s0 l r : MaxIndexFnObj2} {P Q : Set (List Dbl)}
    (hs : negDblMax ≤ s0.m_value_of_max) (h1 : Track pFn s0 P l)
    (h2 : Track pFn (MaxIndexFnObj2.split s0) Q r) :
    Track pFn s0 (P ∪ Q) (MaxIndexFnObj2.join l r) := by
  obtain ⟨a1, b1, c1⟩ := h1
  obtain ⟨a2, b2, c2⟩ := h2
  simp only [MaxIndexFnObj2.split] at a2 c2
  unfold MaxIndexFnObj2.join
  by_cases h : r.m_value_of_max > l.m_value_of_max
  · rw [if_pos h]
    refine ⟨le_of_lt (lt_of_le_of_lt a1 h), ?_, ?_⟩
    · intro p hp
      rcases hp with hp | hp
      · exact le_of_lt (lt_of_le_of_lt (b1 p hp) h)
      · exact b2 p hp
    · rcases c2 with ⟨e1, -⟩ | ⟨p, hp, e1, e2⟩
      · exfalso
        have : r.m_value_of_max ≤ l.m_value_of_max := by
          rw [e1]
          exact le_trans hs a1
        exact absurd h (not_lt.2 this)
      · exact Or.inr ⟨p, Or.inr hp, e1, e2⟩
  · rw [if_neg h]
    refine ⟨a1, ?_, ?_⟩
    · intro p hp
      rcases hp with hp | hp
      · exact b1 p hp
      · exact le_trans (b2 p hp) (le_of_not_lt h)
    · rcases c1 with ⟨d1, d2⟩ | ⟨p, hp, d1, d2⟩
      · exact Or.inl ⟨d1, d2⟩
      · exact Or.inr ⟨p, Or.inl hp, d1, d2⟩

theorem ptsOf_succ (L : List (List Dbl)) (lo k : Nat) (p : List Dbl)
    (hp : L[lo]? = some p) :
    ptsOf L lo (lo + (k + 1)) = {p} ∪ ptsOf L (lo + 1) (lo + 1 + k) := by
  ext q
  simp only [ptsOf, Set.mem_setOf_eq, Set.mem_union, Set.mem_singleton_iff]
  constructor
  · rintro ⟨n, h1, h2, h3⟩
    by_cases hn : n = lo
    · subst hn
      left
      rw [hp] at h3
      exact (Option.some.inj h3).symm
    · exact Or.inr ⟨n, by omega, by omega, h3⟩
  · rintro (rfl | ⟨n, h1, h2, h3⟩)
    · exact ⟨lo, le_rfl, by omega, hp⟩
    · exact ⟨n, by omega, by omega, h3⟩

theorem ptsOf_empty (L : List (List Dbl)) (lo : Nat) : ptsOf L lo (lo + 0) = ∅ := by
  ext q
  simp only [ptsOf, Set.mem_setOf_eq, Set.mem_empty_iff_false, iff_false]
  rintro ⟨n, h1, h2, -⟩
  omega

theorem planPts_chunk (L : List (List Dbl)) (c : Nat × Nat) :
    planPts L (.chunk c) = ptsOf L c.1 c.2 := by
  ext q
  simp [planPts, Reduction.chunks]

theorem planPts_reuse (L : List (List Dbl)) (a b : Reduction (Nat × Nat)) :
    planPts L (.reuse a b) = planPts L a ∪ planPts L b := by
  ext q
  simp only [planPts, Reduction.chunks, List.mem_append, Set.mem_setOf_eq, Set.mem_union]
  constructor
  · rintro ⟨c, hc | hc, h⟩
    · exact Or.inl ⟨c, hc, h⟩
    · exact Or.inr ⟨c, hc, h⟩
  · rintro (⟨c, hc, h⟩ | ⟨c, hc, h⟩)
    · exact ⟨c, Or.inl hc, h⟩
    · exact ⟨c, Or.inr hc, h⟩

theorem planPts_fork (L : List (List Dbl)) (a b : Reduction (Nat × Nat)) :
    planPts L (.fork a b) = planPts L a ∪ planPts L b :=
  planPts_reuse L a b

/-- One iteration of `MaxIndexFnObj2::operator()` at a flat index inside the
lattice: decoding and reading succeed and the comparison is made at the lattice
point of that index. -/
theorem MaxIndexFnObj2.visit_eq (grids : List (List Dbl)) (hok : FlatOK grids)
    (pFn : List Dbl → Dbl) (self : MaxIndexFnObj2) (n : Nat)
    (hn : n < (lattice grids).length) :
    ∃ p, (lattice grids)[n]? = some p ∧
      MaxIndexFnObj2.visit grids pFn (grids.map fun g => (g.length : Int)) self n
        = .ok (MaxIndexFnObj2.step pFn self p) := by
  obtain ⟨ds, p, hloop, hread, hget⟩ := decode_read grids hok.nonempty hok.fitsInt n
  have hN := hok.fitsUInt
  rw [Nat.mod_eq_of_lt hn] at hget
  rw [Nat.div_eq_of_lt hn] at hloop
  refine ⟨p, hget, ?_⟩
  unfold MaxIndexFnObj2.visit Index1DToArray
  rw [Nat.mod_eq_of_lt (by omega), hloop]
  simp only [if_true, hread]
  unfold MaxIndexFnObj2.step
  split <;> rfl

theorem MaxIndexFnObj2.range_track (grids : List (List Dbl)) (hok : FlatOK grids)
    (pFn : List Dbl → Dbl) (k lo : Nat) (s : MaxIndexFnObj2)
    (h : lo + k ≤ (lattice grids).length) :
    ∃ s1, (List.range' lo k).foldlM
        (MaxIndexFnObj2.visit grids pFn (grids.map fun g => (g.length : Int))) s = .ok s1 ∧
      Track pFn s (ptsOf (lattice grids) lo (lo + k)) s1 := by
  induction k generalizing lo s with
  | zero =>
    refine ⟨s, rfl, ?_⟩
    rw [ptsOf_empty]
    exact track_refl pFn s
  | succ k ih =>
    obtain ⟨p, hp, hvisit⟩ := MaxIndexFnObj2.visit_eq grids hok pFn s lo (by omega)
    obtain ⟨s1, hrun, htrack⟩ := ih (lo + 1) (MaxIndexFnObj2.step pFn s p) (by omega)
    refine ⟨s1, ?_, ?_⟩
    · rw [List.range'_succ, List.foldlM_cons, hvisit]
      exact hrun
    · rw [ptsOf_succ _ _ _ _ hp]
      exact track_trans pFn (track_step pFn s p) htrack

/-- Following any schedule whose chunks lie inside the lattice, the reduction
succeeds and its final body tracks the points of all chunks. -/
theorem MaxIndexFnObj2.reduce_track (grids : List (List Dbl)) (hok : FlatOK grids)
    (pFn : List Dbl → Dbl) (plan : Reduction (Nat × Nat))
    (hplan : ∀ c ∈ plan.chunks, c.1 ≤ c.2 ∧ c.2 ≤ (lattice grids).length)
    (s0 : MaxIndexFnObj2) (hs : negDblMax ≤ s0.m_value_of_max) :
    ∃ s1, parallel_reduce
        (MaxIndexFnObj2.body grids pFn (grids.map fun g => (g.length : Int))) plan s0 = .ok s1 ∧
      Track pFn s0 (planPts (lattice grids) plan) s1 := by
  induction plan generalizing s0 with
  | chunk c =>
    obtain ⟨h1, h2⟩ := hplan c (by simp [Reduction.chunks])
    obtain ⟨s1, hrun, htrack⟩ :=
      MaxIndexFnObj2.range_track grids hok pFn (c.2 - c.1) c.1 s0 (by omega)
    have hc : c.1 + (c.2 - c.1) = c.2 := by omega
    rw [hc] at htrack
    refine ⟨s1, ?_, ?_⟩
    · simp only [parallel_reduce, MaxIndexFnObj2.body, MaxIndexFnObj2.call, forRange]
      exact hrun
    · rw [planPts_chunk]
      exact htrack
  | reuse a b iha ihb =>
    have ha : ∀ c ∈ a.chunks, c.1 ≤ c.2 ∧ c.2 ≤ (lattice grids).length :=
      fun c hc => hplan c (by simp [Reduction.chunks, hc])
    have hb : ∀ c ∈ b.chunks, c.1 ≤ c.2 ∧ c.2 ≤ (lattice grids).length :=
      fun c hc => hplan c (by simp [Reduction.chunks, hc])
    obtain ⟨s1, hrun1, ht1⟩ := iha ha s0 hs
    obtain ⟨s2, hrun2, ht2⟩ := ihb hb s1 (le_trans hs ht1.1)
    refine ⟨s2, ?_, ?_⟩
    · simp only [parallel_reduce, hrun1, hrun2]
    · rw [planPts_reuse]
      exact track_trans pFn ht1 ht2
  | fork a b iha ihb =>
    have ha : ∀ c ∈ a.chunks, c.1 ≤ c.2 ∧ c.2 ≤ (lattice grids).length :=
      fun c hc => hplan c (by simp [Reduction.chunks, hc])
    have hb : ∀ c ∈ b.chunks, c.1 ≤ c.2 ∧ c.2 ≤ (lattice grids).length :=
      fun c hc => hplan c (by simp [Reduction.chunks, hc])
    obtain ⟨l, hrun1, ht1⟩ := iha ha s0 hs
    obtain ⟨r, hrun2, ht2⟩ := ihb hb (MaxIndexFnObj2.split s0) (le_refl _)
    refine ⟨MaxIndexFnObj2.join l r, ?_, ?_⟩
    · simp only [parallel_reduce, hrun1]
      have hsplit : (MaxIndexFnObj2.body grids pFn
          (grids.map fun g => (g.length : Int))).split s0 = MaxIndexFnObj2.split s0 := rfl
      rw [hsplit, hrun2]
      rfl
    · rw [planPts_fork]
      exact track_join pFn hs ht1 ht2

theorem totalGridSize2_eq (grids : List (List Dbl)) :
    totalGridSize2 (grids.map fun g => (g.length : Int)) = ((lattice grids).length : Int) := by
  have h : ∀ (gs : List (List Dbl)) (a : Int),
      (gs.map fun g => (g.length : Int)).foldl (fun total len => total * len) a
        = a * ((lattice gs).length : Int) := by
    intro gs
    induction gs with
    | nil => intro a; simp [lattice]
    | cons g gs ih =>
      intro a
      simp only [List.map_cons, List.foldl_cons, ih, lattice_length_cons]
      push_cast
      ring
  unfold totalGridSize2
  rw [h, one_mul]

theorem totalGridSize_foldl (gs : List (List Dbl)) (a : Nat) :
    (gs.map fun g => (g.length : Int)).foldl
        (fun total len => total * toUInt len % 4294967296) a % 4294967296
      = a * (lattice gs).length % 4294967296 := by
  induction gs generalizing a with
  | nil => simp [lattice]
  | cons g gs ih =>
    simp only [List.map_cons, List.foldl_cons, ih, lattice_length_cons, toUInt_natCast]
    have h1 : a * (g.length % 4294967296) % 4294967296 ≡ a * g.length [MOD 4294967296] :=
      (Nat.mod_modEq _ _).trans ((Nat.ModEq.refl a).mul (Nat.mod_modEq _ _))
    have h2 := h1.mul_right (lattice gs).length
    have h3 : a * g.length * (lattice gs).length = a * (g.length * (lattice gs).length) := by
      ring
    rw [h3] at h2
    exact h2

theorem totalGridSize_foldl_lt (ls : List Int) (a : Nat) (ha : a < 4294967296) :
    ls.foldl (fun total len => total * toUInt len % 4294967296) a < 4294967296 := by
  induction ls generalizing a with
  | nil => simpa using ha
  | cons l ls ih =>
    simp only [List.foldl_cons]
    exact ih _ (Nat.mod_lt _ (by norm_num))

/-- The wrapping product `totalGridSize` is the lattice size modulo `2^32`. -/
theorem totalGridSize_eq (grids : List (List Dbl)) :
    totalGridSize (grids.map fun g => (g.length : Int)) = (lattice grids).length % 4294967296 := by
  have h := totalGridSize_foldl grids 1
  have hlt := totalGridSize_foldl_lt (grids.map fun g => (g.length : Int)) 1 (by norm_num)
  rw [Nat.mod_eq_of_lt hlt, Nat.one_mul] at h
  exact h

theorem planPts_covers (L : List (List Dbl)) (plan : Reduction (Nat × Nat))
    (hcov : Covers plan L.length) (p : List Dbl) : p ∈ planPts L plan ↔ p ∈ L := by
  obtain ⟨hin, hall⟩ := hcov
  constructor
  · rintro ⟨c, -, n, -, -, hn⟩
    exact List.getElem?_mem hn
  · intro hp
    obtain ⟨n, hn, hget⟩ := List.getElem_of_mem hp
    obtain ⟨c, hc, h1, h2⟩ := hall n hn
    exact ⟨c, hc, n, h1, h2, by rw [List.getElem?_eq_getElem hn, hget]⟩

/-- The flattened parallel search on a well-formed grid set, under any schedule
covering the flat index range: it returns 1, a value bounding the objective on
the lattice and, when some lattice point has an objective value above the
sentinel `-DBL_MAX`, a lattice point attaining that value. -/
theorem gridSearchParallel_max (grids : List (List Dbl)) (hok : FlatOK grids)
    (pFn : List Dbl → Dbl) (plan : Reduction (Nat × Nat))
    (hcov : Covers plan (lattice grids).length)
    (habove : ∃ p ∈ lattice grids, negDblMax < pFn p) :
    ∃ maxval argmax, gridSearchParallel grids pFn plan = .ok (1, maxval, argmax) ∧
      (∀ p ∈ lattice grids, pFn p ≤ maxval) ∧ argmax ∈ lattice grids ∧
      pFn argmax = maxval := by
  have hN := hok.fitsUInt
  have hNpos : 0 < (lattice grids).length :=
    List.length_pos.2 (lattice_ne_nil grids hok.nonempty)
  have hplan : ∀ c ∈ plan.chunks, c.1 ≤ c.2 ∧ c.2 ≤ (lattice grids).length :=
    fun c hc => ⟨le_of_lt (hcov.1 c hc).1, (hcov.1 c hc).2⟩
  obtain ⟨s1, hrun, h1, h2, h3⟩ := MaxIndexFnObj2.reduce_track grids hok pFn plan hplan
    { m_value_of_max := negDblMax, m_argmax := grids.map fun _ => negDblMax } le_rfl
  have hle : ∀ p ∈ lattice grids, pFn p ≤ s1.m_value_of_max :=
    fun p hp => h2 p ((planPts_covers _ plan hcov p).2 hp)
  refine ⟨s1.m_value_of_max, s1.m_argmax, ?_, hle, ?_⟩
  · unfold gridSearchParallel
    simp only [totalGridSize2_eq, totalGridSize_eq, UINT_MAX]
    rw [if_neg (by simpa using hN), Nat.mod_eq_of_lt (by omega), if_neg (by omega), hrun]
  · rcases h3 with ⟨e1, -⟩ | ⟨p, hp, e1, e2⟩
    · exfalso
      obtain ⟨p, hp, hlt⟩ := habove
      have := hle p hp
      rw [e1] at this
      exact absurd hlt (not_lt.2 this)
    · rw [e2]
      exact ⟨(planPts_covers _ plan hcov p).1 hp, e1⟩

/-- Serial and flattened parallel search agree on the maximum whenever some
lattice point has an objective value above the sentinel `-DBL_MAX`, and the
parallel argmax is then a lattice point attaining it. -/
theorem gridSearchParallel_agrees (grids : List (List Dbl)) (hok : FlatOK grids)
    (pFn : List Dbl → Dbl) (plan : Reduction (Nat × Nat))
    (hcov : Covers plan (lattice grids).length)
    (habove : ∃ p ∈ lattice grids, negDblMax < pFn p)
    (argMax0 : List Dbl) (fuel : Nat) (hfuel : (lattice grids).length ≤ fuel) :
    ∃ count maxval argSerial argParallel,
      gridSearch grids pFn argMax0 fuel = .ok (count, maxval, argSerial) ∧
      gridSearchParallel grids pFn plan = .ok (1, maxval, argParallel) ∧
      argParallel ∈ lattice grids ∧ pFn argParallel = maxval := by
  obtain ⟨mp, ap, hpar, hple, hpmem, hpval⟩ :=
    gridSearchParallel_max grids hok pFn plan hcov habove
  obtain ⟨-, h⟩ := serialInv_lattice grids pFn argMax0
  obtain ⟨hle, harg, ⟨pre, post, hsplit, -⟩, -⟩ := h (lattice_ne_nil grids hok.nonempty)
  have hser := gridSearch_eq_scan grids hok.nonempty pFn argMax0 fuel hfuel
  have hmem : (gridSearch.scan pFn (lattice grids) (gridSearch.init grids argMax0)).argMaxArray
      ∈ pre ++ (gridSearch.scan pFn (lattice grids)
          (gridSearch.init grids argMax0)).argMaxArray :: post := by
    simp
  rw [← hsplit] at hmem
  have heq : (gridSearch.scan pFn (lattice grids) (gridSearch.init grids argMax0)).max = mp := by
    apply le_antisymm
    · rw [← harg]
      exact hple _ hmem
    · rw [← hpval]
      exact hle _ hpmem
  refine ⟨_, _, _, ap, hser, ?_, hpmem, ?_⟩
  · rw [heq]
    exact hpar
  · rw [heq]
    exact hpval

/-! ## Serial grid search, 2-D: supporting lemmas -/

/-- The nested loops of `gridSearch2D` visit the pairs of `lattice2` in order. -/
theorem gridSearch2D.foldl_eq_scan (pFn : Dbl → Dbl → Dbl) (g1 g2 : List Dbl)
    (st : Search2DState) :
    g1.foldl (fun st arg1 => g2.foldl (fun st arg2 => gridSearch2D.step pFn arg1 arg2 st) st) st
      = gridSearch2D.scan pFn (lattice2 g1 g2) st := by
  induction g1 generalizing st with
  | nil => rfl
  | cons x xs ih =>
    simp only [List.foldl_cons, ih, gridSearch2D.scan, lattice2, List.flatMap_cons,
      List.foldl_append, List.foldl_map]

theorem countP2_eq_zero_of_lt (pFn : Dbl → Dbl → Dbl) (pts : List (Dbl × Dbl)) (v : Dbl)
    (h : ∀ q ∈ pts, pFn q.1 q.2 < v) :
    pts.countP (fun q => decide (pFn q.1 q.2 = v)) = 0 := by
  rw [List.countP_eq_zero]
  intro q hq
  simpa using ne_of_lt (h q hq)

theorem serialInv2_step (pFn : Dbl → Dbl → Dbl) (pts : List (Dbl × Dbl))
    (st : Search2DState) (p : Dbl × Dbl) (h : SerialInv2 pFn pts st) :
    SerialInv2 pFn (pts ++ [p]) (gridSearch2D.step pFn p.1 p.2 st) := by
  obtain ⟨hn, hrest⟩ := h
  by_cases hpts : pts = []
  · subst hpts
    have h0 : st.i = 0 := by simpa using hn
    unfold gridSearch2D.step
    simp only [h0, if_true]
    refine ⟨by simp, fun _ => ⟨pFn p.1 p.2, rfl, ?_, rfl, ⟨[], [], by simp, by simp⟩, by simp⟩⟩
    intro q hq
    simp only [List.nil_append, List.mem_singleton] at hq
    rw [hq]
  · obtain ⟨M, hmax, hle, harg, ⟨pre, post, hsplit, hpre⟩, hcount⟩ := hrest hpts
    have hn0 : st.i ≠ 0 := by
      rw [hn]
      exact fun h => hpts (List.length_eq_zero.1 h)
    unfold gridSearch2D.step
    simp only [if_neg hn0, hmax]
    by_cases hgt : pFn p.1 p.2 > M
    · simp only [if_pos hgt]
      refine ⟨by simp [hn], fun _ => ⟨pFn p.1 p.2, rfl, ?_, rfl, ⟨pts, [], rfl, ?_⟩, ?_⟩⟩
      · intro q hq
        rcases List.mem_append.1 hq with hq | hq
        · exact le_of_lt (lt_of_le_of_lt (hle q hq) hgt)
        · rw [List.mem_singleton.1 hq]
      · intro q hq
        exact lt_of_le_of_lt (hle q hq) hgt
      · rw [List.countP_append, countP2_eq_zero_of_lt pFn pts (pFn p.1 p.2)
          (fun q hq => lt_of_le_of_lt (hle q hq) hgt)]
        simp
    · simp only [if_neg hgt]
      by_cases heq : pFn p.1 p.2 = M
      · simp only [if_pos heq]
        refine ⟨by simp [hn], fun _ => ⟨M, rfl, ?_, harg, ⟨pre, post ++ [p], ?_, hpre⟩, ?_⟩⟩
        · intro q hq
          rcases List.mem_append.1 hq with hq | hq
          · exact hle q hq
          · rw [List.mem_singleton.1 hq, heq]
        · rw [hsplit]
          simp
        · rw [List.countP_append, ← hcount]
          simp [heq]
      · simp only [if_neg heq]
        refine ⟨by simp [hn], fun _ => ⟨M, hmax, ?_, harg, ⟨pre, post ++ [p], ?_, hpre⟩, ?_⟩⟩
        · intro q hq
          rcases List.mem_append.1 hq with hq | hq
          · exact hle q hq
          · rw [List.mem_singleton.1 hq]
            exact le_of_not_lt hgt
        · rw [hsplit]
          simp
        · rw [List.countP_append, ← hcount]
          simp [heq]

theorem serialInv2_scan (pFn : Dbl → Dbl → Dbl) (rest done : List (Dbl × Dbl))
    (st : Search2DState) (h : SerialInv2 pFn done st) :
    SerialInv2 pFn (done ++ rest) (gridSearch2D.scan pFn rest st) := by
  induction rest generalizing done st with
  | nil => simpa [gridSearch2D.scan] using h
  | cons p rest ih =>
    have h1 := ih (done ++ [p]) _ (serialInv2_step pFn done st p h)
    simpa [gridSearch2D.scan] using h1

theorem mem_lattice2 (g1 g2 : List Dbl) (q : Dbl × Dbl) :
    q ∈ lattice2 g1 g2 ↔ q.1 ∈ g1 ∧ q.2 ∈ g2 := by
  obtain ⟨x, y⟩ := q
  simp only [lattice2, List.mem_flatMap, List.mem_map, Prod.mk.injEq]
  constructor
  · rintro ⟨a, ha, b, hb, rfl, rfl⟩
    exact ⟨ha, hb⟩
  · rintro ⟨ha, hb⟩
    exact ⟨x, ha, y, hb, rfl, rfl⟩

/-- On non-empty grids `gridSearch2D` returns a value that bounds the objective
on the lattice and is attained at the returned pair, a lattice point. -/
theorem gridSearch2D_max (g1 g2 : List Dbl) (pFn : Dbl → Dbl → Dbl) (a1 a2 : Dbl)
    (h1 : g1 ≠ []) (h2 : g2 ≠ []) :
    ∃ count maxval arg1 arg2, gridSearch2D g1 g2 pFn a1 a2 = .ok (count, maxval, arg1, arg2) ∧
      (∀ x ∈ g1, ∀ y ∈ g2, pFn x y ≤ maxval) ∧ arg1 ∈ g1 ∧ arg2 ∈ g2 ∧
      pFn arg1 arg2 = maxval := by
  have hne : lattice2 g1 g2 ≠ [] := by
    obtain ⟨x, xs, rfl⟩ := List.exists_cons_of_ne_nil h1
    obtain ⟨y, ys, rfl⟩ := List.exists_cons_of_ne_nil h2
    simp [lattice2]
  have h0 : SerialInv2 pFn []
      { i := 0, count := 0, max := none, argmax1 := a1, argmax2 := a2 } :=
    ⟨rfl, fun h => absurd rfl h⟩
  have hinv := serialInv2_scan pFn (lattice2 g1 g2) [] _ h0
  rw [List.nil_append] at hinv
  have hrun : gridSearch2D g1 g2 pFn a1 a2
      = match (gridSearch2D.scan pFn (lattice2 g1 g2)
          { i := 0, count := 0, max := none, argmax1 := a1, argmax2 := a2 }).max with
        | some max => .ok ((gridSearch2D.scan pFn (lattice2 g1 g2)
            { i := 0, count := 0, max := none, argmax1 := a1, argmax2 := a2 }).count, max,
            (gridSearch2D.scan pFn (lattice2 g1 g2)
              { i := 0, count := 0, max := none, argmax1 := a1, argmax2 := a2 }).argmax1,
            (gridSearch2D.scan pFn (lattice2 g1 g2)
              { i := 0, count := 0, max := none, argmax1 := a1, argmax2 := a2 }).argmax2)
        | none => .error .undefinedBehaviour := by
    unfold gridSearch2D
    simp only [gridSearch2D.foldl_eq_scan]
  rw [hrun]
  generalize gridSearch2D.scan pFn (lattice2 g1 g2)
    { i := 0, count := 0, max := none, argmax1 := a1, argmax2 := a2 } = stF at hinv
  obtain ⟨M, hmax, hle, harg, ⟨pre, post, hsplit, -⟩, -⟩ := hinv.2 hne
  have hmem : (stF.argmax1, stF.argmax2) ∈ lattice2 g1 g2 := by
    rw [hsplit]
    exact List.mem_append_right _ (List.mem_cons_self _ _)
  rw [mem_lattice2] at hmem
  refine ⟨stF.count, M, stF.argmax1, stF.argmax2, ?_, ?_, hmem.1, hmem.2, harg⟩
  · rw [hmax]
  · intro x hx y hy
    exact hle (x, y) ((mem_lattice2 g1 g2 (x, y)).2 ⟨hx, hy⟩)

/-! ## Parallel grid search, 2-D: supporting lemmas -/

theorem track2_congr {g1 g2 : List Dbl} {pFn : Dbl → Dbl → Dbl} {P Q : Set (Nat × Nat)}
    {s : MaxIndexFnObj} (h : ∀ q, q ∈ P ↔ q ∈ Q) (ht : Track2 g1 g2 pFn P s) :
    Track2 g1 g2 pFn Q s := by
  have : P = Q := Set.ext h
  subst this
  exact ht

theorem track2_step {g1 g2 : List Dbl} {pFn : Dbl → Dbl → Dbl} (hf : SentinelSafe g1 g2 pFn)
    {P : Set (Nat × Nat)} (hP : InBox g1 g2 P) (p : Nat × Nat)
    (hp : p.1 < g1.length ∧ p.2 < g2.length) {s : MaxIndexFnObj}
    (ht : Track2 g1 g2 pFn P s) :
    Track2 g1 g2 pFn (P ∪ {p}) (MaxIndexFnObj.step g1 g2 pFn s p.1 p.2) := by
  unfold MaxIndexFnObj.step
  rcases ht with ⟨hempty, hm⟩ | ⟨q, hq, hval, ha1, ha2, hle⟩
  · rw [if_pos (Or.inl hm)]
    refine Or.inr ⟨p, Or.inr rfl, rfl, rfl, rfl, ?_⟩
    intro r hr
    rcases hr with hr | hr
    · rw [hempty] at hr
      exact absurd hr (Set.not_mem_empty _)
    · rw [Set.mem_singleton_iff.1 hr]
  · by_cases hc : s.m_value_of_max = negDblMax ∨ valAt g1 g2 pFn (p.1, p.2) > s.m_value_of_max
    · rw [if_pos hc]
      have hsm : s.m_value_of_max ≤ valAt g1 g2 pFn p := by
        rcases hc with hc | hc
        · rcases hf with hA | hB
          · exact absurd (hval.trans hc) (hA q (hP q hq).1 (hP q hq).2)
          · rw [hc]
            exact hB p hp.1 hp.2
        · exact le_of_lt hc
      refine Or.inr ⟨p, Or.inr rfl, rfl, rfl, rfl, ?_⟩
      intro r hr
      rcases hr with hr | hr
      · exact le_trans (hle r hr) hsm
      · rw [Set.mem_singleton_iff.1 hr]
    · rw [if_neg hc]
      refine Or.inr ⟨q, Or.inl hq, hval, ha1, ha2, ?_⟩
      intro r hr
      rcases hr with hr | hr
      · exact hle r hr
      · rw [Set.mem_singleton_iff.1 hr]
        exact le_of_not_lt fun h => hc (Or.inr h)

theorem track2_join {g1 g2 : List Dbl} {pFn : Dbl → Dbl → Dbl} (hf : SentinelSafe g1 g2 pFn)
    {P Q : Set (Nat × Nat)} (hP : InBox g1 g2 P) (hQ : InBox g1 g2 Q) (hne : Q.Nonempty)
    {l r : MaxIndexFnObj} (hl : Track2 g1 g2 pFn P l) (hr : Track2 g1 g2 pFn Q r) :
    Track2 g1 g2 pFn (P ∪ Q) (MaxIndexFnObj.join l r) := by
  rcases hr with ⟨hempty, -⟩ | ⟨qr, hqr, hvr, hr1, hr2, hler⟩
  · rw [hempty] at hne
    exact absurd hne Set.not_nonempty_empty
  unfold MaxIndexFnObj.join
  rcases hl with ⟨hempty, hm⟩ | ⟨ql, hql, hvl, hl1, hl2, hlel⟩
  · rw [if_pos (Or.inl hm)]
    refine Or.inr ⟨qr, Or.inr hqr, hvr, hr1, hr2, ?_⟩
    intro t ht
    rcases ht with ht | ht
    · rw [hempty] at ht
      exact absurd ht (Set.not_mem_empty _)
    · exact hler t ht
  · by_cases hc : l.m_value_of_max = negDblMax ∨ r.m_value_of_max > l.m_value_of_max
    · rw [if_pos hc]
      have hlr : l.m_value_of_max ≤ r.m_value_of_max := by
        rcases hc with hc | hc
        · rcases hf with hA | hB
          · exact absurd (hvl.trans hc) (hA ql (hP ql hql).1 (hP ql hql).2)
          · rw [hc, ← hvr]
            exact hB qr (hQ qr hqr).1 (hQ qr hqr).2
        · exact le_of_lt hc
      refine Or.inr ⟨qr, Or.inr hqr, hvr, hr1, hr2, ?_⟩
      intro t ht
      rcases ht with ht | ht
      · exact le_trans (hlel t ht) hlr
      · exact hler t ht
    · rw [if_neg hc]
      refine Or.inr ⟨ql, Or.inl hql, hvl, hl1, hl2, ?_⟩
      intro t ht
      rcases ht with ht | ht
      · exact hlel t ht
      · exact le_trans (hler t ht) (le_of_not_lt fun h => hc (Or.inr h))

theorem MaxIndexFnObj.visit2d_eq (g1 g2 : List Dbl) (pFn : Dbl → Dbl → Dbl)
    (s : MaxIndexFnObj) (i j : Nat) (hi : i < g1.length) (hj : j < g2.length) :
    MaxIndexFnObj.visit g1 g2 pFn s i j = .ok (MaxIndexFnObj.step g1 g2 pFn s i j) := by
  unfold MaxIndexFnObj.visit MaxIndexFnObj.step valAt
  simp only [List.getElem?_eq_getElem hi, List.getElem?_eq_getElem hj,
    List.getD_eq_getElem g1 ⊥ hi, List.getD_eq_getElem g2 ⊥ hj]
  split <;> rfl

theorem inBox_union {g1 g2 : List Dbl} {P Q : Set (Nat × Nat)} (hP : InBox g1 g2 P)
    (hQ : InBox g1 g2 Q) : InBox g1 g2 (P ∪ Q) := by
  intro q hq
  rcases hq with hq | hq
  · exact hP q hq
  · exact hQ q hq

theorem inBox_rect (g1 g2 : List Dbl) (rb re cb ce : Nat) (h1 : re ≤ g1.length)
    (h2 : ce ≤ g2.length) : InBox g1 g2 (rect rb re cb ce) := by
  intro q hq
  obtain ⟨-, a, -, b⟩ := hq
  exact ⟨lt_of_lt_of_le a h1, lt_of_lt_of_le b h2⟩

/-- The inner loop of `MaxIndexFnObj::operator()` over the columns
`[cb, cb + k)` of row `i`. -/
theorem MaxIndexFnObj.cols_track {g1 g2 : List Dbl} {pFn : Dbl → Dbl → Dbl}
    (hf : SentinelSafe g1 g2 pFn) (i : Nat) (hi : i < g1.length) (k cb : Nat)
    (P : Set (Nat × Nat)) (s : MaxIndexFnObj) (hk : cb + k ≤ g2.length)
    (hP : InBox g1 g2 P) (ht : Track2 g1 g2 pFn P s) :
    ∃ s1, (List.range' cb k).foldlM (fun self j => MaxIndexFnObj.visit g1 g2 pFn self i j) s
        = .ok s1 ∧
      Track2 g1 g2 pFn (P ∪ rect i (i + 1) cb (cb + k)) s1 := by
  induction k generalizing cb P s with
  | zero =>
    refine ⟨s, rfl, track2_congr ?_ ht⟩
    intro q
    simp only [rect, Set.mem_union, Set.mem_setOf_eq]
    constructor
    · exact fun h => Or.inl h
    · rintro (h | h)
      · exact h
      · omega
  | succ k ih =>
    have hstep := track2_step hf hP (i, cb) ⟨hi, by omega⟩ ht
    have hP1 : InBox g1 g2 (P ∪ {(i, cb)}) := by
      intro q hq
      rcases hq with hq | hq
      · exact hP q hq
      · rw [Set.mem_singleton_iff.1 hq]
        exact ⟨hi, by omega⟩
    obtain ⟨s1, hrun, htrack⟩ := ih (cb + 1) _ _ (by omega) hP1 hstep
    refine ⟨s1, ?_, track2_congr ?_ htrack⟩
    · rw [List.range'_succ, List.foldlM_cons, MaxIndexFnObj.visit2d_eq g1 g2 pFn s i cb hi
        (by omega)]
      exact hrun
    · intro q
      obtain ⟨a, b⟩ := q
      simp only [rect, Set.mem_union, Set.mem_setOf_eq, Set.mem_singleton_iff, Prod.mk.injEq]
      by_cases hq : (a, b) ∈ P
      · simp only [hq, true_or]
      · simp only [hq, false_or]
        omega

/-- The outer loop of `MaxIndexFnObj::operator()` over the rows `[rb, rb + k)`. -/
theorem MaxIndexFnObj.rows_track {g1 g2 : List Dbl} {pFn : Dbl → Dbl → Dbl}
    (hf : SentinelSafe g1 g2 pFn) (cb ce : Nat) (hc : cb ≤ ce) (hce : ce ≤ g2.length)
    (k rb : Nat) (P : Set (Nat × Nat)) (s : MaxIndexFnObj) (hk : rb + k ≤ g1.length)
    (hP : InBox g1 g2 P) (ht : Track2 g1 g2 pFn P s) :
    ∃ s1, (List.range' rb k).foldlM
        (fun self i => forRange cb ce
          (fun self j => MaxIndexFnObj.visit g1 g2 pFn self i j) self) s = .ok s1 ∧
      Track2 g1 g2 pFn (P ∪ rect rb (rb + k) cb ce) s1 := by
  induction k generalizing rb P s with
  | zero =>
    refine ⟨s, rfl, track2_congr ?_ ht⟩
    intro q
    simp only [rect, Set.mem_union, Set.mem_setOf_eq]
    constructor
    · exact fun h => Or.inl h
    · rintro (h | h)
      · exact h
      · omega
  | succ k ih =>
    obtain ⟨s1, hrow, htrow⟩ :=
      MaxIndexFnObj.cols_track hf rb (by omega) (ce - cb) cb P s (by omega) hP ht
    have hce' : cb + (ce - cb) = ce := by omega
    rw [hce'] at htrow
    have hP1 : InBox g1 g2 (P ∪ rect rb (rb + 1) cb ce) :=
      inBox_union hP (inBox_rect g1 g2 _ _ _ _ (by omega) hce)
    obtain ⟨s2, hrun, htrack⟩ := ih (rb + 1) _ s1 (by omega) hP1 htrow
    refine ⟨s2, ?_, track2_congr ?_ htrack⟩
    · rw [List.range'_succ, List.foldlM_cons]
      have : forRange cb ce (fun self j => MaxIndexFnObj.visit g1 g2 pFn self rb j) s
          = .ok s1 := hrow
      rw [this]
      exact hrun
    · intro q
      obtain ⟨a, b⟩ := q
      simp only [rect, Set.mem_union, Set.mem_setOf_eq]
      by_cases hq : (a, b) ∈ P
      · simp only [hq, true_or]
      · simp only [hq, false_or]
        omega

theorem chunks_ne_nil {ρ : Type} (plan : Reduction ρ) : plan.chunks ≠ [] := by
  induction plan with
  | chunk c => simp [Reduction.chunks]
  | reuse a b iha _ => simp [Reduction.chunks, iha]
  | fork a b iha _ => simp [Reduction.chunks, iha]

theorem plan2Pts_inBox {g1 g2 : List Dbl} {plan : Reduction Range2d}
    (h : ChunksOK g1 g2 plan) : InBox g1 g2 (plan2Pts plan) := by
  rintro q ⟨c, hc, hq⟩
  obtain ⟨-, h2, -, h4⟩ := h c hc
  exact inBox_rect g1 g2 _ _ _ _ h2 h4 q hq

theorem plan2Pts_nonempty {g1 g2 : List Dbl} {plan : Reduction Range2d}
    (h : ChunksOK g1 g2 plan) : (plan2Pts plan).Nonempty := by
  obtain ⟨c, cs, hcs⟩ := List.exists_cons_of_ne_nil (chunks_ne_nil plan)
  have hc : c ∈ plan.chunks := by rw [hcs]; exact List.mem_cons_self _ _
  obtain ⟨h1, -, h3, -⟩ := h c hc
  exact ⟨(c.rowBegin, c.colBegin), c, hc, le_rfl, h1, le_rfl, h3⟩

theorem plan2Pts_append (a b : Reduction Range2d) (q : Nat × Nat) :
    q ∈ plan2Pts (.reuse a b) ↔ q ∈ plan2Pts a ∨ q ∈ plan2Pts b := by
  simp only [plan2Pts, Reduction.chunks, List.mem_append, Set.mem_setOf_eq]
  constructor
  · rintro ⟨c, hc | hc, h⟩
    · exact Or.inl ⟨c, hc, h⟩
    · exact Or.inr ⟨c, hc, h⟩
  · rintro (⟨c, hc, h⟩ | ⟨c, hc, h⟩)
    · exact ⟨c, Or.inl hc, h⟩
    · exact ⟨c, Or.inr hc, h⟩

/-- Following any 2-D schedule of non-empty rectangles inside the grid box, the
reduction succeeds and its final body tracks the index pairs of all chunks. -/
theorem MaxIndexFnObj.reduce2d_track {g1 g2 : List Dbl} {pFn : Dbl → Dbl → Dbl}
    (hf : SentinelSafe g1 g2 pFn) (plan : Reduction Range2d) (hplan : ChunksOK g1 g2 plan)
    (P : Set (Nat × Nat)) (s0 : MaxIndexFnObj) (hP : InBox g1 g2 P)
    (ht : Track2 g1 g2 pFn P s0) :
    ∃ s1, parallel_reduce (MaxIndexFnObj.body g1 g2 pFn) plan s0 = .ok s1 ∧
      Track2 g1 g2 pFn (P ∪ plan2Pts plan) s1 := by
  induction plan generalizing P s0 with
  | chunk c =>
    obtain ⟨h1, h2, h3, h4⟩ := hplan c (by simp [Reduction.chunks])
    obtain ⟨s1, hrun, htrack⟩ := MaxIndexFnObj.rows_track hf c.colBegin c.colEnd
      (le_of_lt h3) h4 (c.rowEnd - c.rowBegin) c.rowBegin P s0 (by omega) hP ht
    have hr : c.rowBegin + (c.rowEnd - c.rowBegin) = c.rowEnd := by omega
    rw [hr] at htrack
    refine ⟨s1, hrun, track2_congr ?_ htrack⟩
    intro q
    simp [plan2Pts, Reduction.chunks]
  | reuse a b iha ihb =>
    have ha : ChunksOK g1 g2 a := fun c hc => hplan c (by simp [Reduction.chunks, hc])
    have hb : ChunksOK g1 g2 b := fun c hc => hplan c (by simp [Reduction.chunks, hc])
    obtain ⟨s1, hrun1, ht1⟩ := iha ha P s0 hP ht
    obtain ⟨s2, hrun2, ht2⟩ := ihb hb _ s1 (inBox_union hP (plan2Pts_inBox ha)) ht1
    refine ⟨s2, ?_, track2_congr ?_ ht2⟩
    · simp only [parallel_reduce, hrun1, hrun2]
    · intro q
      simp only [Set.mem_union, plan2Pts_append]
      tauto
  | fork a b iha ihb =>
    have ha : ChunksOK g1 g2 a := fun c hc => hplan c (by simp [Reduction.chunks, hc])
    have hb : ChunksOK g1 g2 b := fun c hc => hplan c (by simp [Reduction.chunks, hc])
    obtain ⟨l, hrun1, ht1⟩ := iha ha P s0 hP ht
    have hunset : Track2 g1 g2 pFn ∅ (MaxIndexFnObj.split s0) := Or.inl ⟨rfl, rfl⟩
    obtain ⟨r, hrun2, ht2⟩ := ihb hb ∅ (MaxIndexFnObj.split s0)
      (fun q hq => absurd hq (Set.not_mem_empty _)) hunset
    have ht2' : Track2 g1 g2 pFn (plan2Pts b) r :=
      track2_congr (fun q => by simp) ht2
    have hj := track2_join hf (inBox_union hP (plan2Pts_inBox ha)) (plan2Pts_inBox hb)
      (plan2Pts_nonempty hb) ht1 ht2'
    refine ⟨MaxIndexFnObj.join l r, ?_, track2_congr ?_ hj⟩
    · simp only [parallel_reduce, hrun1]
      have hsplit : (MaxIndexFnObj.body g1 g2 pFn).split s0 = MaxIndexFnObj.split s0 := rfl
      rw [hsplit, hrun2]
      rfl
    · intro q
      have := plan2Pts_append a b q
      simp only [Set.mem_union]
      have h2 : q ∈ plan2Pts (.fork a b) ↔ q ∈ plan2Pts a ∨ q ∈ plan2Pts b := this
      tauto

theorem sentinelSafe_of_mem {g1 g2 : List Dbl} {pFn : Dbl → Dbl → Dbl}
    (hf : (∀ x ∈ g1, ∀ y ∈ g2, pFn x y ≠ negDblMax) ∨
      (∀ x ∈ g1, ∀ y ∈ g2, negDblMax ≤ pFn x y)) : SentinelSafe g1 g2 pFn := by
  have hmem : ∀ q : Nat × Nat, q.1 < g1.length → q.2 < g2.length →
      g1.getD q.1 ⊥ ∈ g1 ∧ g2.getD q.2 ⊥ ∈ g2 := by
    intro q h1 h2
    rw [List.getD_eq_getElem g1 ⊥ h1, List.getD_eq_getElem g2 ⊥ h2]
    exact ⟨List.getElem_mem _, List.getElem_mem _⟩
  rcases hf with hA | hB
  · exact Or.inl fun q h1 h2 => hA _ (hmem q h1 h2).1 _ (hmem q h1 h2).2
  · exact Or.inr fun q h1 h2 => hB _ (hmem q h1 h2).1 _ (hmem q h1 h2).2

/-- The 2-D parallel search on non-empty grids, under any schedule covering the
index rectangle, for an objective that avoids the sentinel on the lattice or
never goes below it: it returns 1, a value bounding the objective on the
lattice, and a lattice point attaining that value. -/
theorem gridSearch2DParallel_max (g1 g2 : List Dbl) (pFn : Dbl → Dbl → Dbl)
    (plan : Reduction Range2d) (h1 : g1 ≠ []) (h2 : g2 ≠ [])
    (hcov : Covers2 plan g1.length g2.length)
    (hf : (∀ x ∈ g1, ∀ y ∈ g2, pFn x y ≠ negDblMax) ∨
      (∀ x ∈ g1, ∀ y ∈ g2, negDblMax ≤ pFn x y)) :
    ∃ maxval arg1 arg2, gridSearch2DParallel g1 g2 pFn plan = .ok (1, maxval, arg1, arg2) ∧
      (∀ x ∈ g1, ∀ y ∈ g2, pFn x y ≤ maxval) ∧ arg1 ∈ g1 ∧ arg2 ∈ g2 ∧
      pFn arg1 arg2 = maxval := by
  have hsafe := sentinelSafe_of_mem hf
  have hok : ChunksOK g1 g2 plan := hcov.1
  have hl1 : 0 < g1.length := List.length_pos.2 h1
  have hl2 : 0 < g2.length := List.length_pos.2 h2
  obtain ⟨s1, hrun, htrack⟩ := MaxIndexFnObj.reduce2d_track hsafe plan hok ∅
    { m_value_of_max := negDblMax, m_argmax1 := negDblMax, m_argmax2 := negDblMax }
    (fun q hq => absurd hq (Set.not_mem_empty _)) (Or.inl ⟨rfl, rfl⟩)
  have htrack' : Track2 g1 g2 pFn (plan2Pts plan) s1 :=
    track2_congr (fun q => by simp) htrack
  rcases htrack' with ⟨hempty, -⟩ | ⟨q, hq, hval, ha1, ha2, hle⟩
  · have := plan2Pts_nonempty hok
    rw [hempty] at this
    exact absurd this Set.not_nonempty_empty
  · obtain ⟨hq1, hq2⟩ := plan2Pts_inBox hok q hq
    refine ⟨s1.m_value_of_max, s1.m_argmax1, s1.m_argmax2, ?_, ?_, ?_, ?_, ?_⟩
    · unfold gridSearch2DParallel
      simp only
      rw [if_neg (by omega), hrun]
    · intro x hx y hy
      obtain ⟨i, hi, rfl⟩ := List.getElem_of_mem hx
      obtain ⟨j, hj, rfl⟩ := List.getElem_of_mem hy
      obtain ⟨c, hc, c1, c2, c3, c4⟩ := hcov.2 i j hi hj
      have := hle (i, j) ⟨c, hc, c1, c2, c3, c4⟩
      unfold valAt at this
      rw [List.getD_eq_getElem g1 ⊥ hi, List.getD_eq_getElem g2 ⊥ hj] at this
      exact this
    · rw [ha1, List.getD_eq_getElem g1 ⊥ hq1]
      exact List.getElem_mem _
    · rw [ha2, List.getD_eq_getElem g2 ⊥ hq2]
      exact List.getElem_mem _
    · rw [ha1, ha2]
      exact hval

/-! ## Codec: claims -/

/-- C1. Codec round trip: for every list of positive extents `e` and every flat
index `x` with `0 ≤ x < product(e) < 2^32`, `Index1DToArray` succeeds (no
division by zero, final assertion holds) and `IndexListTo1D` applied to the
decoded index list returns `x`. -/
theorem codec_round_trip (e : List Int) (x : Nat) (hpos : ∀ l ∈ e, 0 < l)
    (hprod : e.prod < 4294967296) (hx : (x : Int) < e.prod) :
    ∃ dest, Index1DToArray x e = .ok dest ∧ IndexListTo1D e dest = .ok x := by
  obtain ⟨ns, rfl, hns, hp⟩ := extents_eq_natCast e hpos
  rw [hp] at hprod hx
  have hprod1 : ns.prod < 4294967296 := by exact_mod_cast hprod
  have hx1 : x < ns.prod := by exact_mod_cast hx
  cases ns with
  | nil =>
    have hx0 : x = 0 := by simpa using hx1
    subst hx0
    exact ⟨[], by simp [Index1DToArray, Index1DToArray.loop], by simp [IndexListTo1D]⟩
  | cons n ns =>
    have hn : 0 < n := hns n (by simp)
    have hpos1 : ∀ m ∈ ns, 0 < m := fun m hm => hns m (by simp [hm])
    have hP : 0 < ns.prod := List.prod_pos hpos1
    have hnP : n * ns.prod < 4294967296 := by simpa using hprod1
    have hP1 : ns.prod < 4294967296 := lt_of_le_of_lt (Nat.le_mul_of_pos_left _ hn) hnP
    have hn1 : n < 4294967296 := lt_of_le_of_lt (Nat.le_mul_of_pos_right _ hP) hnP
    obtain ⟨dest, q, rem, hrun, hlen, hxq, hrem, -, henc⟩ :=
      Index1DToArray.loop_spec ns hpos1 hP1 x
    have hU : toUInt (n : Int) = n := by rw [toUInt_natCast]; exact Nat.mod_eq_of_lt hn1
    have hxn : x < n * ns.prod := by simpa using hx1
    have hqn : q < n := by
      by_contra hge
      have h1 : n * ns.prod ≤ q * ns.prod := Nat.mul_le_mul_right _ (not_lt.1 hge)
      omega
    have hqx : q ≤ x := by
      calc q = q * 1 := (Nat.mul_one q).symm
        _ ≤ q * ns.prod := Nat.mul_le_mul_left _ hP
        _ ≤ x := by omega
    refine ⟨toInt (q % n) :: dest, ?_, ?_⟩
    · simp only [Index1DToArray, List.map_cons, Index1DToArray.loop, hrun, hU]
      rw [if_neg (by omega)]
      simp [Nat.div_eq_of_lt hqn]
    · have hlen1 : (List.map Nat.cast (n :: ns) : List Int).length = (toInt (q % n) :: dest).length := by
        simp [hlen]
      simp only [IndexListTo1D, List.map_cons]
      rw [if_neg (by simpa using hlen1)]
      simp only [toUInt_toInt]
      have hq' : q % n % 4294967296 = q := by
        rw [Nat.mod_eq_of_lt hqn, Nat.mod_eq_of_lt (by omega)]
      rw [hq']
      have hmod := henc q
      rw [← hxq] at hmod
      have hlt := IndexListTo1D.loop_lt (ns.map Nat.cast) dest q (by omega)
      have hxlt : x < 4294967296 := by omega
      have := Nat.ModEq.eq_of_lt_of_lt hmod hlt hxlt
      rw [this]

/-- Witness for `codec_round_trip` on the extents `[2, 3, 4]` at flat index `17`. -/
theorem codec_round_trip_witness :
    ∃ dest, Index1DToArray 17 [2, 3, 4] = .ok dest ∧ IndexListTo1D [2, 3, 4] dest = .ok 17 :=
  codec_round_trip [2, 3, 4] 17 (by decide) (by decide) (by decide)

/-! ## Interpolation: claims -/

section InterpolationClaims

variable {α : Type} [LinearOrderedField α] [FloorRing α]

/-- The grid `{0, 1}` over `ℚ` is evenly spaced. -/
theorem evenlySpaced_01 : EvenlySpaced ([0, 1] : List ℚ) where
  two_le := by simp
  step_pos := by norm_num [List.getD]
  spaced := by
    intro k hk
    simp only [List.length_cons, List.length_nil] at hk
    interval_cases k <;> norm_num [List.getD]

/-- The grid `{0, 1, 2}` over `ℚ` is evenly spaced. -/
theorem evenlySpaced_012 : EvenlySpaced ([0, 1, 2] : List ℚ) where
  two_le := by simp
  step_pos := by norm_num [List.getD]
  spaced := by
    intro k hk
    simp only [List.length_cons, List.length_nil] at hk
    interval_cases k <;> norm_num [List.getD]

/-- The 2×3 table of the worked example has the shape of its grids. -/
theorem shape_example23 :
    Shape2 ([[0, 2, 4], [1, 3, 5]] : List (List ℚ)) ([0, 1] : List ℚ).length
      ([0, 1, 2] : List ℚ).length := by
  refine ⟨rfl, ?_⟩
  intro row hrow
  simp only [List.mem_cons, List.mem_singleton, List.not_mem_nil, or_false] at hrow
  rcases hrow with rfl | rfl <;> rfl

/-- A 2×2×2 table has the shape of three copies of the grid `{0, 1}`. -/
theorem shape_example222 :
    Shape3 ([[[0, 1], [2, 3]], [[4, 5], [6, 7]]] : List (List (List ℚ)))
      ([0, 1] : List ℚ).length ([0, 1] : List ℚ).length ([0, 1] : List ℚ).length := by
  refine ⟨rfl, ?_⟩
  intro plane hplane
  simp only [List.mem_cons, List.mem_singleton, List.not_mem_nil, or_false] at hplane
  rcases hplane with rfl | rfl
  all_goals
    refine ⟨rfl, ?_⟩
    intro row hrow
    simp only [List.mem_cons, List.mem_singleton, List.not_mem_nil, or_false] at hrow
    rcases hrow with rfl | rfl <;> rfl

/-- C6. Bilinear exactness at nodes: over exact arithmetic, for evenly spaced
strictly increasing grids of length at least 2, a table `F` of matching shape
and any node `(p, q)` (last row and column included), `interp2d_grid`
evaluated at `(grid1[p], grid2[q])` returns `F[p][q]`. -/
theorem bilinear_exact_at_nodes {g1 g2 : List α} {F : List (List α)}
    (h1 : EvenlySpaced g1) (h2 : EvenlySpaced g2) (hF : Shape2 F g1.length g2.length)
    (p q : Nat) (hp : p < g1.length) (hq : q < g2.length) :
    interp2d_grid g1 g2 F (g1.getD p 0) (g2.getD q 0) = .ok ((F.getD p []).getD q 0) := by
  obtain ⟨i, ha, hi, hi1, hx1, hx2⟩ := locate_node h1 p hp
  obtain ⟨j, hb, hj, hj1, hy1, hy2⟩ := locate_node h2 q hq
  rw [interp2d_grid_eq _ _ _ _ i j ha hb hi hj hi1 hj1 hF]
  congr 1
  have e1 := interp1d_node h1 hi1 hp hx1 hx2 (fun t => (F.getD t []).getD j 0)
  have e2 := interp1d_node h1 hi1 hp hx1 hx2 (fun t => (F.getD t []).getD (j + 1) 0)
  have e3 := interp1d_node h2 hj1 hq hy1 hy2 (fun t => (F.getD p []).getD t 0)
  simp only at e1 e2 e3
  unfold interp2d
  simp only
  rw [e1, e2, e3]

/-- Witness for `bilinear_exact_at_nodes`: the last node `(1, 2)` of the 2×3
example table. -/
theorem bilinear_exact_at_nodes_witness :
    interp2d_grid ([0, 1] : List ℚ) [0, 1, 2] [[0, 2, 4], [1, 3, 5]]
      (([0, 1] : List ℚ).getD 1 0) (([0, 1, 2] : List ℚ).getD 2 0)
      = .ok ((([[0, 2, 4], [1, 3, 5]] : List (List ℚ)).getD 1 []).getD 2 0) :=
  bilinear_exact_at_nodes evenlySpaced_01 evenlySpaced_012 shape_example23 1 2
    (by decide) (by decide)

/-- Evaluation of `interp2d_grid` on the 2×3 example at the query `(0.5, 1.0)`:
the cell is `(0, 1)`, the corners are `2, 3, 4, 5`, and the query lies on the
lower edge `y = 1` of the cell. -/
theorem example23_eval :
    interp2d_grid ([0, 1] : List ℚ) [0, 1, 2] [[0, 2, 4], [1, 3, 5]] (1 / 2) 1
      = .ok (5 / 2) := by
  have h1 : forceToGrid (1 / 2 : ℚ) [0, 1] = .ok (1 / 2) := by
    norm_num [forceToGrid, ARRAYPTR1D, ARRAYLEN1D, readAt, bind, Except.bind, pure, Except.pure]
  have h2 : forceToGrid (1 : ℚ) [0, 1, 2] = .ok 1 := by
    simp [forceToGrid, ARRAYPTR1D, ARRAYLEN1D, readAt, bind, Except.bind, pure, Except.pure]
  have h3 : getCellIndex (1 / 2 : ℚ) [0, 1] = .ok 0 := by
    norm_num [getCellIndex, ARRAYPTR1D, ARRAYLEN1D, readAt, bind, Except.bind, pure,
      Except.pure]
  have h4 : getCellIndex (1 : ℚ) [0, 1, 2] = .ok 1 := by
    norm_num [getCellIndex, ARRAYPTR1D, ARRAYLEN1D, readAt, bind, Except.bind, pure,
      Except.pure]
  simp only [interp2d_grid, h1, h2, h3, h4, bind, Except.bind]
  norm_num [ARRAYPTR1D, ARRAYPTR2D, ARRAYLEN1D, readAt, bind, Except.bind, pure,
    Except.pure, interp2d, interp1d]

/-- C7 (as stated, refuted). On the 2×3 example with `grid1 = {0,1}`,
`grid2 = {0,1,2}` and the table `f(0,0)=0, f(1,0)=1, f(0,1)=2, f(1,1)=3,
f(0,2)=4, f(1,2)=5`, `interp2d_grid` at `(0.5, 1.0)` does not return `3.0`. -/
theorem worked_example_not_three :
    interp2d_grid ([0, 1] : List ℚ) [0, 1, 2] [[0, 2, 4], [1, 3, 5]] (1 / 2) 1 ≠ .ok 3 := by
  rw [example23_eval]
  intro h
  injection h with h
  norm_num at h

/-- C7 (amended). On the 2×3 example with `grid1 = {0,1}`, `grid2 = {0,1,2}` and
the table `f(0,0)=0, f(1,0)=1, f(0,1)=2, f(1,1)=3, f(0,2)=4, f(1,2)=5`,
`interp2d_grid` at `(0.5, 1.0)` returns `2.5`, the midpoint of the row `y = 1`
(values 2 and 3). -/
theorem worked_example_value :
    interp2d_grid ([0, 1] : List ℚ) [0, 1, 2] [[0, 2, 4], [1, 3, 5]] (1 / 2) 1
      = .ok (5 / 2) :=
  example23_eval

/-- C8. Trilinear exactness at nodes: over exact arithmetic, for evenly spaced
strictly increasing grids of length at least 2, a table `F` of matching shape
and any node `(p, q, r)`, `interpTrilinear` evaluated at
`(grid1[p], grid2[q], grid3[r])` returns `F[p][q][r]`. -/
theorem trilinear_exact_at_nodes {g1 g2 g3 : List α} {F : List (List (List α))}
    (h1 : EvenlySpaced g1) (h2 : EvenlySpaced g2) (h3 : EvenlySpaced g3)
    (hF : Shape3 F g1.length g2.length g3.length)
    (p q r : Nat) (hp : p < g1.length) (hq : q < g2.length) (hr : r < g3.length) :
    interpTrilinear g1 g2 g3 F (g1.getD p 0) (g2.getD q 0) (g3.getD r 0)
      = .ok (((F.getD p []).getD q []).getD r 0) := by
  obtain ⟨i, ha, hi, hi1, hx1, hx2⟩ := locate_node h1 p hp
  obtain ⟨j, hb, hj, hj1, hy1, hy2⟩ := locate_node h2 q hq
  obtain ⟨k, hc, hk, hk1, hz1, hz2⟩ := locate_node h3 r hr
  rw [interpTrilinear_eq _ _ _ _ _ _ i j k ha hb hc hi hj hk hi1 hj1 hk1 hF]
  congr 1
  have e1 := lerpA_node h1 hi1 hp hx1 hx2 (fun t => ((F.getD t []).getD j []).getD k 0)
  have e2 := lerpA_node h1 hi1 hp hx1 hx2 (fun t => ((F.getD t []).getD (j + 1) []).getD k 0)
  have e3 := lerpA_node h2 hj1 hq hy1 hy2 (fun t => ((F.getD p []).getD t []).getD k 0)
  have e4 := lerpB_node h1 hi1 hp hx1 hx2 (fun t => ((F.getD t []).getD j []).getD (k + 1) 0)
  have e5 := lerpB_node h1 hi1 hp hx1 hx2
    (fun t => ((F.getD t []).getD (j + 1) []).getD (k + 1) 0)
  have e6 := lerpB_node h2 hj1 hq hy1 hy2 (fun t => ((F.getD p []).getD t []).getD (k + 1) 0)
  have e7 := lerpB_node h3 hk1 hr hz1 hz2 (fun t => ((F.getD p []).getD q []).getD t 0)
  simp only at e1 e2 e3 e4 e5 e6 e7
  simp only
  rw [e1, e2, e3, e4, e5, e6, e7]

/-- Witness for `trilinear_exact_at_nodes`: the node `(1, 0, 1)` of a 2×2×2 table. -/
theorem trilinear_exact_at_nodes_witness :
    interpTrilinear ([0, 1] : List ℚ) [0, 1] [0, 1] [[[0, 1], [2, 3]], [[4, 5], [6, 7]]]
      (([0, 1] : List ℚ).getD 1 0) (([0, 1] : List ℚ).getD 0 0) (([0, 1] : List ℚ).getD 1 0)
      = .ok (((([[[0, 1], [2, 3]], [[4, 5], [6, 7]]] : List (List (List ℚ))).getD 1 []).getD
          0 []).getD 1 0) :=
  trilinear_exact_at_nodes evenlySpaced_01 evenlySpaced_01 evenlySpaced_01 shape_example222
    1 0 1 (by decide) (by decide) (by decide)

/-- C9. Trilinear reduces to bilinear on a z-slice: over exact arithmetic, for
evenly spaced strictly increasing grids of length at least 2, a table `F` of
matching shape, an index `r` of `grid3` and any query `(x, y)`,
`interpTrilinear` at `(x, y, grid3[r])` equals `interp2d_grid` at `(x, y)` on
the 2-D slice of `F` at third index `r`. -/
theorem trilinear_reduces_to_bilinear {g1 g2 g3 : List α} {F : List (List (List α))}
    (h1 : EvenlySpaced g1) (h2 : EvenlySpaced g2) (h3 : EvenlySpaced g3)
    (hF : Shape3 F g1.length g2.length g3.length)
    (r : Nat) (hr : r < g3.length) (x y : α) :
    interpTrilinear g1 g2 g3 F x y (g3.getD r 0) = interp2d_grid g1 g2 (slice3 F r) x y := by
  obtain ⟨a, i, ha, hi, hi1, hx1, hx2, hxc, -⟩ := locate_spec h1 x
  obtain ⟨b, j, hb, hj, hj1, hy1, hy2, hyc, -⟩ := locate_spec h2 y
  obtain ⟨k, hc, hk, hk1, hz1, hz2⟩ := locate_node h3 r hr
  have hxlt : g1.getD i 0 < g1.getD (i + 1) 0 := (h1.lt_iff (by omega) hi1).2 (by omega)
  have hylt : g2.getD j 0 < g2.getD (j + 1) 0 := (h2.lt_iff (by omega) hj1).2 (by omega)
  have hxne : g1.getD (i + 1) 0 - g1.getD i 0 ≠ 0 := sub_ne_zero.2 (ne_of_gt hxlt)
  have hyne : g2.getD (j + 1) 0 - g2.getD j 0 ≠ 0 := sub_ne_zero.2 (ne_of_gt hylt)
  rw [interpTrilinear_eq _ _ _ _ _ _ i j k ha hb hc hi hj hk hi1 hj1 hk1 hF,
    interp2d_grid_eq x y a b i j ha hb hi hj hi1 hj1 (slice3_shape hF r)]
  congr 1
  simp only [slice3_getD]
  have hW := fun t : Nat => interp2d_clamped x y a b (g1.getD i 0) (g2.getD j 0)
    (g1.getD (i + 1) 0) (g2.getD (j + 1) 0)
    (((F.getD i []).getD j []).getD t 0) (((F.getD i []).getD (j + 1) []).getD t 0)
    (((F.getD (i + 1) []).getD j []).getD t 0) (((F.getD (i + 1) []).getD (j + 1) []).getD t 0)
    hxlt hx1 hx2 hxc hylt hy1 hy2 hyc
  have e7 := lerpB_node h3 hk1 hr hz1 hz2 (fun t =>
    interp2d x y (g1.getD i 0) (g2.getD j 0) (g1.getD (i + 1) 0) (g2.getD (j + 1) 0)
      (((F.getD i []).getD j []).getD t 0) (((F.getD i []).getD (j + 1) []).getD t 0)
      (((F.getD (i + 1) []).getD j []).getD t 0)
      (((F.getD (i + 1) []).getD (j + 1) []).getD t 0))
  simp only at e7
  rw [← e7, hW k, hW (k + 1), ← bilinA_eq _ _ _ _ _ _ _ _ _ _ hxne hyne,
    ← bilinB_eq _ _ _ _ _ _ _ _ _ _ hxne hyne]

/-- Witness for `trilinear_reduces_to_bilinear`: a 2×2×2 table, slice `r = 1`,
query `(1/2, 3)` (the second coordinate lies outside the grid). -/
theorem trilinear_reduces_to_bilinear_witness :
    interpTrilinear ([0, 1] : List ℚ) [0, 1] [0, 1] [[[0, 1], [2, 3]], [[4, 5], [6, 7]]]
      (1 / 2) 3 (([0, 1] : List ℚ).getD 1 0)
      = interp2d_grid ([0, 1] : List ℚ) [0, 1]
          (slice3 [[[0, 1], [2, 3]], [[4, 5], [6, 7]]] 1) (1 / 2) 3 :=
  trilinear_reduces_to_bilinear evenlySpaced_01 evenlySpaced_01 evenlySpaced_01
    shape_example222 1 (by decide) (1 / 2) 3

end InterpolationClaims

section EndpointClaims

variable {α : Type} [LinearOrderedField α]

/-- C10 (as stated, refuted). With `x1 = 1`, `f1 = 0`, `x2 = 0`, `f2 = 1` the call
`interp1d(x2, x1, f1, x2, f2)` returns `f1 = 0`, not `f2 = 1`: the test
`z <= x1` comes first. -/
theorem interp1d_endpoint_counterexample :
    ¬ (∀ x1 f1 x2 f2 : ℚ,
        interp1d x1 x1 f1 x2 f2 = f1 ∧ interp1d x2 x1 f1 x2 f2 = f2) := by
  intro h
  have h2 := (h 1 0 0 1).2
  norm_num [interp1d] at h2

/-- C10 (amended). `interp1d(x1, x1, f1, x2, f2) = f1` for all arguments, and
`interp1d(x2, x1, f1, x2, f2) = f2` whenever `x1 < x2`. -/
theorem interp1d_endpoints (x1 f1 x2 f2 : α) :
    interp1d x1 x1 f1 x2 f2 = f1 ∧ (x1 < x2 → interp1d x2 x1 f1 x2 f2 = f2) :=
  ⟨interp1d_left x1 f1 x2 f2, interp1d_right x1 f1 x2 f2⟩

/-- Witness for `interp1d_endpoints` at `x1 = 0`, `f1 = 5`, `x2 = 2`, `f2 = 7`. -/
theorem interp1d_endpoints_witness :
    (0 : ℚ) < 2 ∧ interp1d (0 : ℚ) 0 5 2 7 = 5 ∧ interp1d (2 : ℚ) 0 5 2 7 = 7 :=
  ⟨by norm_num, (interp1d_endpoints (0 : ℚ) 5 2 7).1,
    (interp1d_endpoints (0 : ℚ) 5 2 7).2 (by norm_num)⟩

end EndpointClaims

/-! ## Grid search: claims -/

/-- The search on ordered values (objective without NaN, counters without
overflow): for every grid set whose grids are all non-empty and every objective
`pFn`, `gridSearch` (given fuel for every lattice point) returns a `maxval`
that bounds `pFn` on all lattice points and is attained at the returned argmax,
which is the first lattice point in lexicographic order attaining it. -/
theorem gridSearch_first_maximum (grids : List (List Dbl)) (pFn : List Dbl → Dbl)
    (argMax0 : List Dbl) (fuel : Nat) (hne : ∀ g ∈ grids, g ≠ [])
    (hfuel : (lattice grids).length ≤ fuel) :
    ∃ count maxval argmax, gridSearch grids pFn argMax0 fuel = .ok (count, maxval, argmax) ∧
      (∀ p ∈ lattice grids, pFn p ≤ maxval) ∧ pFn argmax = maxval ∧
      ∃ pre post, lattice grids = pre ++ argmax :: post ∧ ∀ q ∈ pre, pFn q < maxval := by
  obtain ⟨-, h⟩ := serialInv_lattice grids pFn argMax0
  obtain ⟨hle, harg, hfirst, -⟩ := h (lattice_ne_nil grids hne)
  exact ⟨_, _, _, gridSearch_eq_scan grids hne pFn argMax0 fuel hfuel, hle, harg, hfirst⟩

theorem DBL_MAX_pos : (0 : ℚ) < DBL_MAX := by
  unfold DBL_MAX
  have : (2 : ℚ) ^ 971 < 2 ^ 1024 := by
    apply pow_lt_pow_right₀ <;> norm_num
  linarith

theorem Dbl.fin_lt_fin (a b : ℚ) : Dbl.fin a < Dbl.fin b ↔ a < b := by
  simp [Dbl.fin]

theorem Dbl.fin_eq_fin (a b : ℚ) : Dbl.fin a = Dbl.fin b ↔ a = b := by
  simp [Dbl.fin]

theorem paraboloid_fin (x y : ℚ) :
    paraboloid [Dbl.fin x, Dbl.fin y] = Dbl.fin (-(x - 1) ^ 2 - (y - 1) ^ 2) := rfl

/-- The nine lattice points of `{0,1,2} × {0,1,2}` in lexicographic order. -/
theorem lattice_grid33 : lattice [grid012, grid012] =
    [[Dbl.fin 0, Dbl.fin 0], [Dbl.fin 0, Dbl.fin 1], [Dbl.fin 0, Dbl.fin 2],
     [Dbl.fin 1, Dbl.fin 0], [Dbl.fin 1, Dbl.fin 1], [Dbl.fin 1, Dbl.fin 2],
     [Dbl.fin 2, Dbl.fin 0], [Dbl.fin 2, Dbl.fin 1], [Dbl.fin 2, Dbl.fin 2]] := by
  simp [lattice, grid012]

theorem grid33_nonempty : ∀ g ∈ [grid012, grid012], g ≠ [] := by
  simp [grid012]

theorem grid33_fuel : (lattice [grid012, grid012]).length ≤ 9 := by
  rw [lattice_grid33]
  simp

/-- Evaluation of `gridSearch` on `{0,1,2} × {0,1,2}` with the paraboloid
objective: multiplicity 1, maximum 0, argmax `(1, 1)`. -/
theorem gridSearch_grid33 :
    gridSearch [grid012, grid012] paraboloid [] 9
      = .ok (1, Dbl.fin 0, [Dbl.fin 1, Dbl.fin 1]) := by
  rw [gridSearch_eq_scan _ grid33_nonempty _ _ _ grid33_fuel, lattice_grid33]
  simp only [gridSearch.scan, List.foldl_cons, List.foldl_nil, gridSearch.init,
    gridSearch.update, paraboloid_fin]
  norm_num [Dbl.fin_lt_fin, Dbl.fin_eq_fin]

/-- An instance of `gridSearch_first_maximum`: on `{0,1,2} × {0,1,2}` with
`f(x,y) = -(x-1)^2 - (y-1)^2` the search returns maximum 0 at `(1,1)`. -/
theorem gridSearch_first_maximum_witness :
    gridSearch [grid012, grid012] paraboloid [] 9
        = .ok (1, Dbl.fin 0, [Dbl.fin 1, Dbl.fin 1]) ∧
    ∃ count maxval argmax,
      gridSearch [grid012, grid012] paraboloid [] 9 = .ok (count, maxval, argmax) ∧
      (∀ p ∈ lattice [grid012, grid012], paraboloid p ≤ maxval) ∧
      paraboloid argmax = maxval ∧
      ∃ pre post, lattice [grid012, grid012] = pre ++ argmax :: post ∧
        ∀ q ∈ pre, paraboloid q < maxval :=
  ⟨gridSearch_grid33,
    gridSearch_first_maximum [grid012, grid012] paraboloid [] 9 grid33_nonempty grid33_fuel⟩

/-- The search on ordered values (objective without NaN, counters without
overflow): for every grid set whose grids are all non-empty and every objective
`pFn`, the integer returned by `gridSearch` is the number of lattice points
(index tuples) whose objective value equals the returned `maxval`, and it is at
least 1. -/
theorem gridSearch_multiplicity (grids : List (List Dbl)) (pFn : List Dbl → Dbl)
    (argMax0 : List Dbl) (fuel : Nat) (hne : ∀ g ∈ grids, g ≠ [])
    (hfuel : (lattice grids).length ≤ fuel) :
    ∃ count maxval argmax, gridSearch grids pFn argMax0 fuel = .ok (count, maxval, argmax) ∧
      count = (lattice grids).countP (fun p => decide (pFn p = maxval)) ∧ 1 ≤ count := by
  obtain ⟨-, h⟩ := serialInv_lattice grids pFn argMax0
  obtain ⟨-, harg, ⟨pre, post, hsplit, -⟩, hcount⟩ := h (lattice_ne_nil grids hne)
  refine ⟨_, _, _, gridSearch_eq_scan grids hne pFn argMax0 fuel hfuel, hcount, ?_⟩
  rw [hcount]
  apply List.countP_pos_iff.2
  have hmem : (gridSearch.scan pFn (lattice grids) (gridSearch.init grids argMax0)).argMaxArray
      ∈ pre ++ (gridSearch.scan pFn (lattice grids)
          (gridSearch.init grids argMax0)).argMaxArray :: post := by
    simp
  rw [← hsplit] at hmem
  exact ⟨_, hmem, by simpa using harg⟩

/-- An instance of `gridSearch_multiplicity` on `{0,1,2} × {0,1,2}` with the
paraboloid objective. -/
theorem gridSearch_multiplicity_witness :
    ∃ count maxval argmax,
      gridSearch [grid012, grid012] paraboloid [] 9 = .ok (count, maxval, argmax) ∧
      count = (lattice [grid012, grid012]).countP (fun p => decide (paraboloid p = maxval)) ∧
      1 ≤ count :=
  gridSearch_multiplicity [grid012, grid012] paraboloid [] 9 grid33_nonempty grid33_fuel

/-- C4 (failing input). On the single grid `{0, 1}` with the objective constantly
`-∞`, scanned as one chunk `[0, 2)`: `gridSearch` returns maximum `-∞` at the
lattice point `(0)`, while `gridSearchParallel` returns the untouched sentinel
`-DBL_MAX` as maximum and the vector `(-DBL_MAX)`, which is not a lattice
point, as argmax. -/
theorem gridSearchParallel_sentinel_divergence :
    gridSearch [[Dbl.fin 0, Dbl.fin 1]] constNegInf [] 2
        = .ok (2, Dbl.negInf, [Dbl.fin 0]) ∧
    gridSearchParallel [[Dbl.fin 0, Dbl.fin 1]] constNegInf (.chunk (0, 2))
        = .ok (1, negDblMax, [negDblMax]) ∧
    Covers (.chunk (0, 2)) (lattice [[Dbl.fin 0, Dbl.fin 1]]).length ∧
    negDblMax ≠ Dbl.negInf ∧
    [negDblMax] ∉ lattice [[Dbl.fin 0, Dbl.fin 1]] := by
  refine ⟨?_, ?_, ?_, ?_, ?_⟩
  · simp [gridSearch, gridSearch.run, gridSearch.loop, gridSearch.body, gridSearch.readArgs,
      gridSearch.update, gridSearch.increment, constNegInf]
  · simp [gridSearchParallel, totalGridSize2, totalGridSize, UINT_MAX, toUInt,
      parallel_reduce, MaxIndexFnObj2.body, MaxIndexFnObj2.call, forRange, List.range',
      MaxIndexFnObj2.visit, Index1DToArray, Index1DToArray.loop, toInt,
      MaxIndexFnObj2.readArgs, readAt, Dbl.negInf, negDblMax, Dbl.fin, bind, Except.bind,
      pure, Except.pure, constNegInf]
  · refine ⟨?_, ?_⟩
    · intro c hc
      simp only [Reduction.chunks, List.mem_singleton] at hc
      subst hc
      simp [lattice]
    · intro k hk
      exact ⟨(0, 2), by simp [Reduction.chunks], Nat.zero_le _, by simpa [lattice] using hk⟩
  · simp [negDblMax, Dbl.negInf, Dbl.fin]
  · intro h
    have hpos := DBL_MAX_pos
    simp [lattice, negDblMax, Dbl.fin_eq_fin] at h
    rcases h with h | h <;> linarith

/-- C5 (failing input). On `grid1 = {0}`, `grid2 = {0, 1}` with an objective
that returns exactly `-DBL_MAX` at `(0, 0)` and `-∞` at `(0, 1)`, scanned as the
single rectangle `[0,1) × [0,2)`: `gridSearch2D` returns the maximum `-DBL_MAX`
at `(0, 0)`, while `gridSearch2DParallel` returns `-∞` at `(0, 1)`, which is
not the maximum: `MaxIndexFnObj::operator()` takes the stored objective value
`-DBL_MAX` for its "unset" sentinel and overwrites it with the smaller value. -/
theorem gridSearch2DParallel_sentinel_collision :
    gridSearch2D [Dbl.fin 0] [Dbl.fin 0, Dbl.fin 1] sentinelThenNegInf (Dbl.fin 0) (Dbl.fin 0)
        = .ok (1, negDblMax, Dbl.fin 0, Dbl.fin 0) ∧
    gridSearch2DParallel [Dbl.fin 0] [Dbl.fin 0, Dbl.fin 1] sentinelThenNegInf
        (.chunk { rowBegin := 0, rowEnd := 1, colBegin := 0, colEnd := 2 })
        = .ok (1, Dbl.negInf, Dbl.fin 0, Dbl.fin 1) ∧
    Covers2 (.chunk { rowBegin := 0, rowEnd := 1, colBegin := 0, colEnd := 2 })
      [Dbl.fin 0].length [Dbl.fin 0, Dbl.fin 1].length ∧
    Dbl.negInf ≠ negDblMax := by
  have h10 : ¬ (Dbl.fin 1 = Dbl.fin 0) := by
    rw [Dbl.fin_eq_fin]
    norm_num
  have hlt : Dbl.negInf < negDblMax := by
    simp [Dbl.negInf, negDblMax, Dbl.fin]
  refine ⟨?_, ?_, ?_, ne_of_lt hlt⟩
  · simp [gridSearch2D, gridSearch2D.step, sentinelThenNegInf, h10, not_lt.2 hlt.le,
      (ne_of_lt hlt)]
  · simp [gridSearch2DParallel, parallel_reduce, MaxIndexFnObj.body, MaxIndexFnObj.call,
      forRange, List.range', MaxIndexFnObj.visit, sentinelThenNegInf, h10, bind, Except.bind,
      pure, Except.pure]
  · refine ⟨?_, ?_⟩
    · intro c hc
      simp only [Reduction.chunks, List.mem_singleton] at hc
      subst hc
      simp
    · intro i j hi hj
      exact ⟨{ rowBegin := 0, rowEnd := 1, colBegin := 0, colEnd := 2 },
        by simp [Reduction.chunks], Nat.zero_le _, hi, Nat.zero_le _, hj⟩

/-- A sufficient condition for serial/parallel agreement in 2-D, for objective
values in `Dbl` (no NaN): for every pair of non-empty grids, every objective
that on the lattice either never returns exactly `-DBL_MAX` or never returns a
value below `-DBL_MAX`, and every schedule of non-empty sub-rectangles covering
the index rectangle (scanned by `MaxIndexFnObj::operator()`, merged by `join`),
`gridSearch2DParallel` yields the same `maxval` as `gridSearch2D`, and its
argmax pair is a lattice point attaining `maxval`. -/
theorem gridSearch2DParallel_agrees (g1 g2 : List Dbl) (pFn : Dbl → Dbl → Dbl)
    (plan : Reduction Range2d) (a1 a2 : Dbl) (h1 : g1 ≠ []) (h2 : g2 ≠ [])
    (hcov : Covers2 plan g1.length g2.length)
    (hf : (∀ x ∈ g1, ∀ y ∈ g2, pFn x y ≠ negDblMax) ∨
      (∀ x ∈ g1, ∀ y ∈ g2, negDblMax ≤ pFn x y)) :
    ∃ count maxval s1 s2 p1 p2,
      gridSearch2D g1 g2 pFn a1 a2 = .ok (count, maxval, s1, s2) ∧
      gridSearch2DParallel g1 g2 pFn plan = .ok (1, maxval, p1, p2) ∧
      p1 ∈ g1 ∧ p2 ∈ g2 ∧ pFn p1 p2 = maxval := by
  obtain ⟨count, ms, s1, s2, hser, hsle, hs1, hs2, hsval⟩ :=
    gridSearch2D_max g1 g2 pFn a1 a2 h1 h2
  obtain ⟨mp, p1, p2, hpar, hple, hp1, hp2, hpval⟩ :=
    gridSearch2DParallel_max g1 g2 pFn plan h1 h2 hcov hf
  have heq : ms = mp := by
    apply le_antisymm
    · rw [← hsval]
      exact hple s1 hs1 s2 hs2
    · rw [← hpval]
      exact hsle p1 hp1 p2 hp2
  subst heq
  exact ⟨count, ms, s1, s2, p1, p2, hser, hpar, hp1, hp2, hpval⟩

theorem plan33_covers : Covers2 plan33 grid012.length grid012.length := by
  refine ⟨?_, ?_⟩
  · intro c hc
    simp only [plan33, Reduction.chunks, List.cons_append, List.nil_append, List.mem_cons,
      List.mem_singleton, List.not_mem_nil, or_false] at hc
    rcases hc with rfl | rfl <;> simp [grid012]
  · intro i j hi hj
    have hi' : i < 3 := by simpa [grid012] using hi
    have hj' : j < 3 := by simpa [grid012] using hj
    by_cases h : i < 2
    · exact ⟨{ rowBegin := 0, rowEnd := 2, colBegin := 0, colEnd := 3 },
        by simp [plan33, Reduction.chunks], Nat.zero_le _, h, Nat.zero_le _, hj'⟩
    · exact ⟨{ rowBegin := 2, rowEnd := 3, colBegin := 0, colEnd := 3 },
        by simp [plan33, Reduction.chunks], by simpa using not_lt.1 h, hi', Nat.zero_le _, hj'⟩

theorem paraboloid_above_sentinel :
    ∀ x ∈ grid012, ∀ y ∈ grid012, negDblMax ≤ paraboloid [x, y] := by
  have hpos := DBL_MAX_pos
  have h2 : (2 : ℚ) < DBL_MAX := by
    unfold DBL_MAX
    norm_num
  intro x hx y hy
  simp only [grid012, List.mem_cons, List.mem_singleton, List.not_mem_nil, or_false] at hx hy
  rcases hx with rfl | rfl | rfl <;> rcases hy with rfl | rfl | rfl <;>
    · rw [paraboloid_fin]
      apply le_of_lt
      rw [negDblMax, Dbl.fin_lt_fin]
      norm_num
      linarith

/-- An instance of `gridSearch2DParallel_agrees`: the grids `{0,1,2} × {0,1,2}`,
the paraboloid objective and a schedule with one fork. -/
theorem gridSearch2DParallel_agrees_witness :
    ∃ count maxval s1 s2 p1 p2,
      gridSearch2D grid012 grid012 (fun x y => paraboloid [x, y]) (Dbl.fin 0) (Dbl.fin 0)
        = .ok (count, maxval, s1, s2) ∧
      gridSearch2DParallel grid012 grid012 (fun x y => paraboloid [x, y]) plan33
        = .ok (1, maxval, p1, p2) ∧
      p1 ∈ grid012 ∧ p2 ∈ grid012 ∧ (fun x y => paraboloid [x, y]) p1 p2 = maxval :=
  gridSearch2DParallel_agrees grid012 grid012 (fun x y => paraboloid [x, y]) plan33
    (Dbl.fin 0) (Dbl.fin 0) (by simp [grid012]) (by simp [grid012]) plan33_covers
    (Or.inr paraboloid_above_sentinel)

/-! ## Interpolation: monotonicity, clamping, cell location -/

section ClampingLemmas

variable {α : Type} [LinearOrderedField α]

theorem interp1d_bounds (z x1 f1 x2 f2 : α) (hx : x1 < x2) (hf : f1 ≤ f2) :
    f1 ≤ interp1d z x1 f1 x2 f2 ∧ interp1d z x1 f1 x2 f2 ≤ f2 := by
  have hd : 0 < x2 - x1 := sub_pos.2 hx
  unfold interp1d
  by_cases c1 : z ≤ x1
  · rw [if_pos c1]
    exact ⟨le_rfl, hf⟩
  · rw [if_neg c1]
    by_cases c2 : z ≥ x2
    · rw [if_pos c2]
      exact ⟨hf, le_rfl⟩
    · rw [if_neg c2]
      have hz1 : 0 ≤ z - x1 := sub_nonneg.2 (le_of_lt (not_le.1 c1))
      have hz2 : z - x1 ≤ x2 - x1 := by linarith [not_le.1 c2]
      have hff : 0 ≤ f2 - f1 := sub_nonneg.2 hf
      have h0 : 0 ≤ (f2 - f1) * (z - x1) / (x2 - x1) :=
        div_nonneg (mul_nonneg hff hz1) hd.le
      have h1 : (f2 - f1) * (z - x1) / (x2 - x1) ≤ f2 - f1 := by
        rw [div_le_iff₀ hd]
        exact mul_le_mul_of_nonneg_left hz2 hff
      constructor <;> linarith

theorem interp1d_mono (z z' x1 f1 x2 f2 : α) (hx : x1 < x2) (hf : f1 ≤ f2) (hz : z ≤ z') :
    interp1d z x1 f1 x2 f2 ≤ interp1d z' x1 f1 x2 f2 := by
  have hd : 0 < x2 - x1 := sub_pos.2 hx
  by_cases c1 : z ≤ x1
  · have : interp1d z x1 f1 x2 f2 = f1 := by simp [interp1d, c1]
    rw [this]
    exact (interp1d_bounds z' x1 f1 x2 f2 hx hf).1
  · by_cases c2 : z' ≥ x2
    · have : interp1d z' x1 f1 x2 f2 = f2 := by
        simp [interp1d, c2, not_le.2 (lt_of_lt_of_le hx c2)]
      rw [this]
      exact (interp1d_bounds z x1 f1 x2 f2 hx hf).2
    · have c1' : ¬ z' ≤ x1 := fun h => c1 (le_trans hz h)
      have c2' : ¬ z ≥ x2 := fun h => c2 (le_trans h hz)
      unfold interp1d
      rw [if_neg c1, if_neg c2', if_neg c1', if_neg c2]
      have hff : 0 ≤ f2 - f1 := sub_nonneg.2 hf
      have hnum : (f2 - f1) * (z - x1) ≤ (f2 - f1) * (z' - x1) :=
        mul_le_mul_of_nonneg_left (by linarith) hff
      have := div_le_div_of_nonneg_right hnum hd.le
      linarith

end ClampingLemmas

section SecondInterpolationClaims

variable {α : Type} [LinearOrderedField α]

/-- C11. `lerp1d` monotonicity: over exact arithmetic, for `x1 < x2`, `f1 ≤ f2`
and `z ≤ z'`, `interp1d` at `z` is at most `interp1d` at `z'`, and the result
lies in `[f1, f2]` (clamped, never extrapolated). -/
theorem interp1d_monotone_clamped (x1 f1 x2 f2 z z' : α) (hx : x1 < x2) (hf : f1 ≤ f2)
    (hz : z ≤ z') :
    interp1d z x1 f1 x2 f2 ≤ interp1d z' x1 f1 x2 f2 ∧
      f1 ≤ interp1d z x1 f1 x2 f2 ∧ interp1d z x1 f1 x2 f2 ≤ f2 :=
  ⟨interp1d_mono z z' x1 f1 x2 f2 hx hf hz, interp1d_bounds z x1 f1 x2 f2 hx hf⟩

/-- Witness for `interp1d_monotone_clamped` at `x1 = 0`, `f1 = 5`, `x2 = 2`,
`f2 = 7`, `z = 1/2`, `z' = 3`. -/
theorem interp1d_monotone_clamped_witness :
    interp1d (1 / 2 : ℚ) 0 5 2 7 ≤ interp1d (3 : ℚ) 0 5 2 7 ∧
      (5 : ℚ) ≤ interp1d (1 / 2 : ℚ) 0 5 2 7 ∧ interp1d (1 / 2 : ℚ) 0 5 2 7 ≤ 7 :=
  interp1d_monotone_clamped (0 : ℚ) 5 2 7 (1 / 2) 3 (by norm_num) (by norm_num) (by norm_num)

/-- A forced query is left unchanged by `forceToGrid`. -/
theorem forceToGrid_idem {g : List α} (hg : EvenlySpaced g) (a : α) (i : Nat)
    (hi : i + 1 < g.length) (h1 : g.getD i 0 ≤ a) (h2 : a ≤ g.getD (i + 1) 0) :
    forceToGrid a g = .ok a := by
  have hn := hg.two_le
  have c1 : ¬ (a < g.getD 0 0) :=
    not_lt.2 (le_trans ((hg.le_iff (by omega) (by omega)).2 (Nat.zero_le i)) h1)
  have c2 : ¬ (a > g.getD (g.length - 1) 0) :=
    not_lt.2 (le_trans h2 ((hg.le_iff hi (by omega)).2 (by omega)))
  rw [forceToGrid_eq a g (by omega), if_neg c1, if_neg c2]

variable [FloorRing α]

/-- C12. Boundary queries are clamped: over exact arithmetic, for evenly spaced
strictly increasing grids of length at least 2, a table of matching shape and
any query `(x, y)`, `interp2d_grid` at `(x, y)` returns the value it returns at
`(forceToGrid(x, grid1), forceToGrid(y, grid2))`, although `interp2d` receives
the unclamped `x`, `y`. -/
theorem interp2d_grid_clamps {g1 g2 : List α} {F : List (List α)}
    (h1 : EvenlySpaced g1) (h2 : EvenlySpaced g2) (hF : Shape2 F g1.length g2.length)
    (x y : α) :
    ∃ a b v, forceToGrid x g1 = .ok a ∧ forceToGrid y g2 = .ok b ∧
      interp2d_grid g1 g2 F x y = .ok v ∧ interp2d_grid g1 g2 F a b = .ok v := by
  obtain ⟨a, i, ha, hi, hi1, hx1, hx2, hxc, -⟩ := locate_spec h1 x
  obtain ⟨b, j, hb, hj, hj1, hy1, hy2, hyc, -⟩ := locate_spec h2 y
  have hxlt : g1.getD i 0 < g1.getD (i + 1) 0 := (h1.lt_iff (by omega) hi1).2 (by omega)
  have hylt : g2.getD j 0 < g2.getD (j + 1) 0 := (h2.lt_iff (by omega) hj1).2 (by omega)
  have haa := forceToGrid_idem h1 a i hi1 hx1 hx2
  have hbb := forceToGrid_idem h2 b j hj1 hy1 hy2
  refine ⟨a, b, _, ha, hb, interp2d_grid_eq x y a b i j ha hb hi hj hi1 hj1 hF, ?_⟩
  rw [interp2d_grid_eq a b a b i j haa hbb hi hj hi1 hj1 hF]
  congr 1
  rw [interp2d_clamped x y a b _ _ _ _ _ _ _ _ hxlt hx1 hx2 hxc hylt hy1 hy2 hyc,
    interp2d_clamped a b a b _ _ _ _ _ _ _ _ hxlt hx1 hx2 (Or.inl rfl) hylt hy1 hy2
      (Or.inl rfl)]

/-- Witness for `interp2d_grid_clamps`: the 2×3 example table at the query
`(-1, 5)`, outside the grid on both axes. -/
theorem interp2d_grid_clamps_witness :
    ∃ a b v, forceToGrid (-1 : ℚ) [0, 1] = .ok a ∧ forceToGrid (5 : ℚ) [0, 1, 2] = .ok b ∧
      interp2d_grid ([0, 1] : List ℚ) [0, 1, 2] [[0, 2, 4], [1, 3, 5]] (-1) 5 = .ok v ∧
      interp2d_grid ([0, 1] : List ℚ) [0, 1, 2] [[0, 2, 4], [1, 3, 5]] a b = .ok v :=
  interp2d_grid_clamps evenlySpaced_01 evenlySpaced_012 shape_example23 (-1) 5

/-- C13. `getCellIndex` returns the enclosing cell: over exact arithmetic, for an
evenly spaced grid of length `n ≥ 2` and `x` in `[grid[0], grid[n-1]]` the
result `i` satisfies `0 ≤ i ≤ n-2` and `grid[i] ≤ x ≤ grid[i+1]`; at `x` equal
to the last sample it is `n-2`; for `x < grid[0]` it is `-1`. -/
theorem getCellIndex_enclosing {g : List α} (hg : EvenlySpaced g) (x : α) :
    (g.getD 0 0 ≤ x → x ≤ g.getD (g.length - 1) 0 →
      ∃ i : Nat, getCellIndex x g = .ok (i : Int) ∧ i + 2 ≤ g.length ∧
        g.getD i 0 ≤ x ∧ x ≤ g.getD (i + 1) 0) ∧
    (x = g.getD (g.length - 1) 0 → getCellIndex x g = .ok ((g.length : Int) - 2)) ∧
    (x < g.getD 0 0 → getCellIndex x g = .ok (-1)) := by
  have hn := hg.two_le
  refine ⟨?_, ?_, ?_⟩
  · intro h0 h1
    obtain ⟨a, i, -, hi, hi1, hx1, hx2, -, hval⟩ := locate_spec hg x
    rw [if_neg (not_lt.2 h0), if_neg (not_lt.2 h1)] at hval
    subst hval
    exact ⟨i, hi, by omega, hx1, hx2⟩
  · intro hx
    have h0 : ¬ (x < g.getD 0 0) := by
      rw [hx]
      exact not_lt.2 ((hg.le_iff (by omega) (by omega)).2 (Nat.zero_le _))
    rw [getCellIndex_eq x g hn, if_neg h0, if_pos (by rw [hx])]
  · intro hx
    rw [getCellIndex_eq x g hn, if_pos hx]

/-- Witness for `getCellIndex_enclosing` on the grid `{0, 1, 2}`: an interior
query, the last sample and a query below the grid. -/
theorem getCellIndex_enclosing_witness :
    (∃ i : Nat, getCellIndex (3 / 2 : ℚ) [0, 1, 2] = .ok (i : Int) ∧
        i + 2 ≤ ([0, 1, 2] : List ℚ).length ∧
        ([0, 1, 2] : List ℚ).getD i 0 ≤ 3 / 2 ∧ (3 / 2 : ℚ) ≤ ([0, 1, 2] : List ℚ).getD (i + 1) 0) ∧
    getCellIndex (2 : ℚ) [0, 1, 2] = .ok ((([0, 1, 2] : List ℚ).length : Int) - 2) ∧
    getCellIndex (-1 : ℚ) [0, 1, 2] = .ok (-1) :=
  ⟨(getCellIndex_enclosing evenlySpaced_012 (3 / 2 : ℚ)).1 (by norm_num [List.getD])
      (by norm_num [List.getD]),
    (getCellIndex_enclosing evenlySpaced_012 (2 : ℚ)).2.1 (by norm_num [List.getD]),
    (getCellIndex_enclosing evenlySpaced_012 (-1 : ℚ)).2.2 (by norm_num [List.getD])⟩

end SecondInterpolationClaims

section NestedTrilinear

variable {α : Type} [LinearOrderedField α]

theorem trilinear_algebra (z1 z2 c B1 B2 : α) :
    B1 + (B2 - B1) / (z2 - z1) * (c - z1) = B1 + (B2 - B1) * (c - z1) / (z2 - z1) := by
  rw [div_mul_eq_mul_div]

variable [FloorRing α]

/-- The value of `trilinearNested` once the cell `(i, j, k)` is known. -/
theorem trilinearNested_eq {g1 g2 g3 : List α} {F : List (List (List α))}
    (x y z a b c : α) (i j k : Nat)
    (ha : forceToGrid x g1 = .ok a) (hb : forceToGrid y g2 = .ok b)
    (hc : forceToGrid z g3 = .ok c)
    (hi : getCellIndex a g1 = .ok (i : Int)) (hj : getCellIndex b g2 = .ok (j : Int))
    (hk : getCellIndex c g3 = .ok (k : Int))
    (hi1 : i + 1 < g1.length) (hj1 : j + 1 < g2.length) (hk1 : k + 1 < g3.length)
    (hF : Shape3 F g1.length g2.length g3.length) :
    trilinearNested g1 g2 g3 F x y z = .ok
      (interp1d z (g3.getD k 0)
        (interp2d x y (g1.getD i 0) (g2.getD j 0) (g1.getD (i + 1) 0) (g2.getD (j + 1) 0)
          (((F.getD i []).getD j []).getD k 0) (((F.getD i []).getD (j + 1) []).getD k 0)
          (((F.getD (i + 1) []).getD j []).getD k 0)
          (((F.getD (i + 1) []).getD (j + 1) []).getD k 0))
        (g3.getD (k + 1) 0)
        (interp2d x y (g1.getD i 0) (g2.getD j 0) (g1.getD (i + 1) 0) (g2.getD (j + 1) 0)
          (((F.getD i []).getD j []).getD (k + 1) 0)
          (((F.getD i []).getD (j + 1) []).getD (k + 1) 0)
          (((F.getD (i + 1) []).getD j []).getD (k + 1) 0)
          (((F.getD (i + 1) []).getD (j + 1) []).getD (k + 1) 0))) := by
  have ei : ((i : Int) + 1) = ((i + 1 : Nat) : Int) := by push_cast; rfl
  have ej : ((j : Int) + 1) = ((j + 1 : Nat) : Int) := by push_cast; rfl
  have ek : ((k : Int) + 1) = ((k + 1 : Nat) : Int) := by push_cast; rfl
  simp only [trilinearNested, ha, hb, hc, hi, hj, hk, bind, Except.bind, ARRAYPTR1D]
  rw [ei, ej, ek, readAt_of_lt g1 i (by omega) 0, readAt_of_lt g1 (i + 1) hi1 0,
    readAt_of_lt g2 j (by omega) 0, readAt_of_lt g2 (j + 1) hj1 0,
    readAt_of_lt g3 k (by omega) 0, readAt_of_lt g3 (k + 1) hk1 0]
  simp only [ARRAYPTR3D_of_lt F hF i j k (by omega) (by omega) (by omega),
    ARRAYPTR3D_of_lt F hF (i + 1) j k hi1 (by omega) (by omega),
    ARRAYPTR3D_of_lt F hF i (j + 1) k (by omega) hj1 (by omega),
    ARRAYPTR3D_of_lt F hF (i + 1) (j + 1) k hi1 hj1 (by omega),
    ARRAYPTR3D_of_lt F hF i j (k + 1) (by omega) (by omega) hk1,
    ARRAYPTR3D_of_lt F hF (i + 1) j (k + 1) hi1 (by omega) hk1,
    ARRAYPTR3D_of_lt F hF i (j + 1) (k + 1) (by omega) hj1 hk1,
    ARRAYPTR3D_of_lt F hF (i + 1) (j + 1) (k + 1) hi1 hj1 hk1]
  rfl

/-- C17. The trilinear formula is bona fide trilinear interpolation: over exact
arithmetic, for evenly spaced strictly increasing grids of length at least 2, a
table of matching shape and any query `(x, y, z)`, the value `w7` computed by
`interpTrilinear` equals `interp1d(z, z1, interp2d(x, y, x1, y1, x2, y2, u1,
u3, u2, u4), z2, interp2d(x, y, x1, y1, x2, y2, u5, u7, u6, u8))` on the same
cell corners. -/
theorem trilinear_eq_nested {g1 g2 g3 : List α} {F : List (List (List α))}
    (h1 : EvenlySpaced g1) (h2 : EvenlySpaced g2) (h3 : EvenlySpaced g3)
    (hF : Shape3 F g1.length g2.length g3.length) (x y z : α) :
    ∃ v, interpTrilinear g1 g2 g3 F x y z = .ok v ∧
      trilinearNested g1 g2 g3 F x y z = .ok v := by
  obtain ⟨a, i, ha, hi, hi1, hx1, hx2, hxc, -⟩ := locate_spec h1 x
  obtain ⟨b, j, hb, hj, hj1, hy1, hy2, hyc, -⟩ := locate_spec h2 y
  obtain ⟨c, k, hc, hk, hk1, hz1, hz2, hzc, -⟩ := locate_spec h3 z
  have hxlt : g1.getD i 0 < g1.getD (i + 1) 0 := (h1.lt_iff (by omega) hi1).2 (by omega)
  have hylt : g2.getD j 0 < g2.getD (j + 1) 0 := (h2.lt_iff (by omega) hj1).2 (by omega)
  have hzlt : g3.getD k 0 < g3.getD (k + 1) 0 := (h3.lt_iff (by omega) hk1).2 (by omega)
  have hxne : g1.getD (i + 1) 0 - g1.getD i 0 ≠ 0 := sub_ne_zero.2 (ne_of_gt hxlt)
  have hyne : g2.getD (j + 1) 0 - g2.getD j 0 ≠ 0 := sub_ne_zero.2 (ne_of_gt hylt)
  refine ⟨_, interpTrilinear_eq x y z a b c i j k ha hb hc hi hj hk hi1 hj1 hk1 hF, ?_⟩
  rw [trilinearNested_eq x y z a b c i j k ha hb hc hi hj hk hi1 hj1 hk1 hF]
  congr 1
  rw [interp1d_clamped z c _ _ _ _ hzlt hz1 hz2 hzc,
    interp2d_clamped x y a b _ _ _ _ _ _ _ _ hxlt hx1 hx2 hxc hylt hy1 hy2 hyc,
    interp2d_clamped x y a b _ _ _ _ _ _ _ _ hxlt hx1 hx2 hxc hylt hy1 hy2 hyc]
  simp only
  rw [bilinA_eq _ _ _ _ _ _ _ _ _ _ hxne hyne, bilinB_eq _ _ _ _ _ _ _ _ _ _ hxne hyne,
    trilinear_algebra]

/-- Witness for `trilinear_eq_nested`: a 2×2×2 table at the query
`(1/2, 3, 1/4)`. -/
theorem trilinear_eq_nested_witness :
    ∃ v, interpTrilinear ([0, 1] : List ℚ) [0, 1] [0, 1]
        [[[0, 1], [2, 3]], [[4, 5], [6, 7]]] (1 / 2) 3 (1 / 4) = .ok v ∧
      trilinearNested ([0, 1] : List ℚ) [0, 1] [0, 1]
        [[[0, 1], [2, 3]], [[4, 5], [6, 7]]] (1 / 2) 3 (1 / 4) = .ok v :=
  trilinear_eq_nested evenlySpaced_01 evenlySpaced_01 evenlySpaced_01 shape_example222
    (1 / 2) 3 (1 / 4)

end NestedTrilinear

/-! ## Codec: the final assertion -/

/-- The decoder loop over positive extents that fit `int`: it succeeds, the
decoded indices are the mixed-radix digits of `x` and the remaining quotient is
`x / product`. -/
theorem Index1DToArray.loop_digits (ns : List Nat) (hpos : ∀ n ∈ ns, 0 < n)
    (hint : ∀ n ∈ ns, n < 2147483648) (x : Nat) :
    Index1DToArray.loop (ns.map Nat.cast) x
      = .ok ((digitsOf ns x).map Nat.cast, x / ns.prod) := by
  induction ns with
  | nil => simp [Index1DToArray.loop, digitsOf]
  | cons n ns ih =>
    have hn : 0 < n := hpos n (by simp)
    have hni : n < 2147483648 := hint n (by simp)
    have ih' := ih (fun m hm => hpos m (by simp [hm])) (fun m hm => hint m (by simp [hm]))
    have hU : toUInt (n : Int) = n := by
      rw [toUInt_natCast]
      exact Nat.mod_eq_of_lt (by omega)
    have hd : x / ns.prod % n < n := Nat.mod_lt _ hn
    have hI : toInt (x / ns.prod % n) = ((x / ns.prod % n : Nat) : Int) := by
      unfold toInt
      rw [Nat.mod_eq_of_lt (by omega), if_pos (by omega)]
    simp only [List.map_cons, Index1DToArray.loop, ih', hU, digitsOf, hI, List.prod_cons]
    rw [if_neg (by omega), Nat.div_div_eq_div_mul, Nat.mul_comm]

theorem digitsOf_lt (ns : List Nat) (hpos : ∀ n ∈ ns, 0 < n) (x : Nat) :
    List.Forall₂ (fun d n => d < n) (digitsOf ns x) ns := by
  induction ns with
  | nil => exact List.Forall₂.nil
  | cons n ns ih =>
    exact List.Forall₂.cons (Nat.mod_lt _ (hpos n (by simp)))
      (ih fun m hm => hpos m (by simp [hm]))

theorem digitsOf_bounds (ns : List Nat) (hpos : ∀ n ∈ ns, 0 < n) (x : Nat) :
    List.Forall₂ (fun (d l : Int) => 0 ≤ d ∧ d < l)
      ((digitsOf ns x).map Nat.cast) (ns.map Nat.cast) := by
  induction ns with
  | nil => exact List.Forall₂.nil
  | cons n ns ih =>
    have hlt := Nat.mod_lt (x / ns.prod) (hpos n (by simp))
    refine List.Forall₂.cons ⟨Int.natCast_nonneg _, by exact_mod_cast hlt⟩
      (ih fun m hm => hpos m (by simp [hm]))

/-- C14. `Index1DToArray` rejects out-of-range flat indices: for positive `int`
extents `e` and any flat index `x`, the final assertion (remaining quotient
`== 0`) holds exactly when `x < product(e)`; when it holds every decoded
component satisfies `0 ≤ dest[i] < e[i]`, otherwise the run ends in the failed
assertion. -/
theorem decode_assertion_iff (e : List Int) (x : Nat) (hpos : ∀ l ∈ e, 0 < l)
    (hint : ∀ l ∈ e, l < 2147483648) :
    ((x : Int) < e.prod → ∃ dest, Index1DToArray x e = .ok dest ∧
        List.Forall₂ (fun (d l : Int) => 0 ≤ d ∧ d < l) dest e) ∧
    (¬ (x : Int) < e.prod → Index1DToArray x e = .error .assertion) := by
  obtain ⟨ns, rfl, hns, hp⟩ := extents_eq_natCast e hpos
  have hint' : ∀ n ∈ ns, n < 2147483648 := by
    intro n hn
    have := hint (n : Int) (List.mem_map.2 ⟨n, hn, rfl⟩)
    exact_mod_cast this
  have hP : 0 < ns.prod := List.prod_pos hns
  have hloop := Index1DToArray.loop_digits ns hns hint' x
  rw [hp]
  constructor
  · intro hx
    have hx' : x < ns.prod := by exact_mod_cast hx
    refine ⟨(digitsOf ns x).map Nat.cast, ?_, digitsOf_bounds ns hns x⟩
    unfold Index1DToArray
    rw [hloop]
    simp [Nat.div_eq_of_lt hx']
  · intro hx
    have hx' : ns.prod ≤ x := by
      have : ¬ x < ns.prod := fun h => hx (by exact_mod_cast h)
      omega
    have hq : x / ns.prod ≠ 0 := by
      have := Nat.div_pos hx' hP
      omega
    unfold Index1DToArray
    rw [hloop]
    simp [hq]

/-- Witness for `decode_assertion_iff` on the extents `[2, 3, 4]`: index 17 is
decoded, index 24 trips the assertion. -/
theorem decode_assertion_iff_witness :
    (∃ dest, Index1DToArray 17 [2, 3, 4] = .ok dest ∧
        List.Forall₂ (fun (d l : Int) => 0 ≤ d ∧ d < l) dest [2, 3, 4]) ∧
    Index1DToArray 24 [2, 3, 4] = .error .assertion :=
  ⟨(decode_assertion_iff [2, 3, 4] 17 (by decide) (by decide)).1 (by decide),
    (decode_assertion_iff [2, 3, 4] 24 (by decide) (by decide)).2 (by decide)⟩

/-! ## Serial search on a zero-length grid -/

/-- C15. Zero-length grid in the serial search: when some grid has length 0,
`gridSearch` terminates (with any fuel) without a single pass through the loop
body, hence without evaluating the objective (`nIter = 0`); it returns
multiplicity 0, `*pMaxVal = -DBL_MAX` and the caller's `argMaxArray` unchanged.
A search over non-empty grids returns a multiplicity of at least 1. -/
theorem gridSearch_zero_length (grids : List (List Dbl)) (pFn : List Dbl → Dbl)
    (argMax0 : List Dbl) (fuel : Nat) (hz : ∃ g ∈ grids, g.length = 0) :
    (∃ st, gridSearch.run grids pFn argMax0 fuel = .ok st ∧ st.nIter = 0 ∧
        st.argMaxArray = argMax0) ∧
      gridSearch grids pFn argMax0 fuel = .ok (0, negDblMax, argMax0) := by
  have hany : (grids.map List.length).any (fun len => len == 0) = true := by
    obtain ⟨g, hg, h0⟩ := hz
    simp only [List.any_eq_true, List.mem_map, beq_iff_eq]
    exact ⟨g.length, ⟨g, hg, rfl⟩, h0⟩
  have hrun : gridSearch.run grids pFn argMax0 fuel
      = .ok { dataIndexArray := (grids.map List.length).map fun _ => 0, nIter := 0,
              nMaxMultiplicity := 0, max := negDblMax, argMaxArray := argMax0 } := by
    unfold gridSearch.run
    simp only [hany, if_true]
  refine ⟨⟨_, hrun, rfl, rfl⟩, ?_⟩
  unfold gridSearch
  rw [hrun]

/-- Witness for `gridSearch_zero_length`: the grid set `{0,1,2} × {}` with the
paraboloid objective, no fuel and the caller's vector `(7, 7)`. -/
theorem gridSearch_zero_length_witness :
    (∃ st, gridSearch.run [grid012, []] paraboloid [Dbl.fin 7, Dbl.fin 7] 0 = .ok st ∧
        st.nIter = 0 ∧ st.argMaxArray = [Dbl.fin 7, Dbl.fin 7]) ∧
      gridSearch [grid012, []] paraboloid [Dbl.fin 7, Dbl.fin 7] 0
        = .ok (0, negDblMax, [Dbl.fin 7, Dbl.fin 7]) :=
  gridSearch_zero_length [grid012, []] paraboloid [Dbl.fin 7, Dbl.fin 7] 0
    ⟨[], by simp, rfl⟩

/-! ## The lattice-size check of `gridSearchParallel` -/

theorem lattice_length (grids : List (List Dbl)) :
    (lattice grids).length = (grids.map List.length).prod := by
  induction grids with
  | nil => simp [lattice]
  | cons g gs ih => rw [lattice_length_cons, ih, List.map_cons, List.prod_cons]

theorem totalGridSize2_foldl (ls : List Int) (a : Int) :
    ls.foldl (fun total len => total * len) a = a * ls.prod := by
  induction ls generalizing a with
  | nil => simp
  | cons l ls ih => simp only [List.foldl_cons, ih, List.prod_cons, mul_assoc]

/-- Rounding does not change the outcome of the size assertion: for any
monotone rounding that is exact on integers up to `2^53`, the rounded product
of non-negative lengths is below `UINT_MAX` exactly when the true product is. -/
theorem totalGridSize2Fl_lt_iff (rnd : ℚ → ℚ) (hmono : ∀ a b : ℚ, a ≤ b → rnd a ≤ rnd b)
    (hexact : ∀ n : Int, 0 ≤ n → n ≤ 9007199254740992 → rnd (n : ℚ) = (n : ℚ))
    (lens : List Int) (hnn : ∀ l ∈ lens, 0 ≤ l) :
    totalGridSize2Fl rnd lens < ((UINT_MAX : Nat) : ℚ) ↔
      totalGridSize2 lens < ((UINT_MAX : Nat) : Int) := by
  have key : ∀ (ls : List Int), (∀ l ∈ ls, 0 ≤ l) → ∀ (t : ℚ) (P : Int),
      ((t = (P : ℚ) ∧ 0 ≤ P ∧ P ≤ 9007199254740992) ∨
        ((9007199254740992 : ℚ) ≤ t ∧ 9007199254740992 ≤ P)) →
      ((ls.foldl (fun total len => rnd (total * (len : ℚ))) t
            = ((ls.foldl (fun total len => total * len) P : Int) : ℚ) ∧
          0 ≤ ls.foldl (fun total len => total * len) P ∧
          ls.foldl (fun total len => total * len) P ≤ 9007199254740992) ∨
        ((9007199254740992 : ℚ) ≤ ls.foldl (fun total len => rnd (total * (len : ℚ))) t ∧
          9007199254740992 ≤ ls.foldl (fun total len => total * len) P)) := by
    intro ls
    induction ls with
    | nil => intro _ t P h; simpa using h
    | cons l ls ih =>
      intro hl t P h
      have hl0 : 0 ≤ l := hl l (by simp)
      have hbig : rnd (9007199254740992 : ℚ) = 9007199254740992 := by
        have := hexact 9007199254740992 (by norm_num) le_rfl
        simpa using this
      simp only [List.foldl_cons]
      apply ih (fun m hm => hl m (by simp [hm]))
      rcases h with ⟨rfl, hP0, hP1⟩ | ⟨ht, hP⟩
      · by_cases hsmall : P * l ≤ 9007199254740992
        · left
          refine ⟨?_, mul_nonneg hP0 hl0, hsmall⟩
          have := hexact (P * l) (mul_nonneg hP0 hl0) hsmall
          simpa using this
        · right
          have hgt : (9007199254740992 : Int) ≤ P * l := le_of_lt (not_le.1 hsmall)
          refine ⟨?_, hgt⟩
          rw [← hbig]
          apply hmono
          have : ((9007199254740992 : Int) : ℚ) ≤ ((P * l : Int) : ℚ) := by exact_mod_cast hgt
          simpa using this
      · by_cases hz : l = 0
        · left
          subst hz
          refine ⟨?_, by simp, by simp⟩
          have := hexact 0 le_rfl (by norm_num)
          simpa using this
        · right
          have hl1 : 1 ≤ l := by omega
          have hl1q : (1 : ℚ) ≤ (l : ℚ) := by exact_mod_cast hl1
          constructor
          · rw [← hbig]
            apply hmono
            nlinarith
          · nlinarith
  have h := key lens hnn 1 1 (Or.inl ⟨by simp, by norm_num, by norm_num⟩)
  unfold totalGridSize2Fl totalGridSize2 UINT_MAX
  rcases h with ⟨heq, -, -⟩ | ⟨h1, h2⟩
  · rw [heq]
    constructor
    · intro h
      exact_mod_cast h
    · intro h
      exact_mod_cast h
  · constructor
    · intro h
      exfalso
      have : (4294967295 : ℚ) < 9007199254740992 := by norm_num
      have h' : lens.foldl (fun total len => rnd (total * (len : ℚ))) 1 < (4294967295 : ℚ) := by
        simpa using h
      linarith
    · intro h
      exfalso
      have h' : lens.foldl (fun total len => total * len) 1 < (4294967295 : Int) := by
        simpa using h
      omega

theorem grids_nonempty_of_prod_pos (grids : List (List Dbl))
    (h : 0 < (grids.map List.length).prod) : ∀ g ∈ grids, g ≠ [] := by
  intro g hg hnil
  have h0 : (0 : Nat) ∈ grids.map List.length :=
    List.mem_map.2 ⟨g, hg, by rw [hnil]; rfl⟩
  rw [List.prod_eq_zero h0] at h
  exact absurd h (lt_irrefl 0)

/-- C16. Lattice-size check in the flattened parallel search: whenever the true
product of the grid lengths is at least `UINT_MAX`, `gridSearchParallel` ends in
its failed assertion whatever the objective and the schedule (nothing is
evaluated); whenever the product is below `UINT_MAX`, the wrapping `unsigned
int` product `totalGridSize` equals the true product, and each flat index of
`[0, totalGridSize)` decodes and reads to the lattice point at that position of
the lexicographic enumeration, so every lattice point is visited exactly once. -/
theorem gridSearchParallel_size_check (grids : List (List Dbl))
    (hint : ∀ g ∈ grids, g.length < 2147483648) :
    (UINT_MAX ≤ (grids.map List.length).prod →
      ∀ (pFn : List Dbl → Dbl) (plan : Reduction (Nat × Nat)),
        gridSearchParallel grids pFn plan = .error .assertion) ∧
    ((grids.map List.length).prod < UINT_MAX →
      totalGridSize (grids.map fun g => (g.length : Int)) = (grids.map List.length).prod ∧
      (lattice grids).length = (grids.map List.length).prod ∧
      ∀ n, n < totalGridSize (grids.map fun g => (g.length : Int)) →
        ∃ idx p, Index1DToArray n (grids.map fun g => (g.length : Int)) = .ok idx ∧
          MaxIndexFnObj2.readArgs grids idx = .ok p ∧ (lattice grids)[n]? = some p) := by
  have hlen := lattice_length grids
  constructor
  · intro hbig pFn plan
    unfold gridSearchParallel
    simp only [totalGridSize2_eq, hlen]
    rw [if_pos (by exact_mod_cast not_lt.2 hbig)]
  · intro hsmall
    have hU : UINT_MAX = 4294967295 := rfl
    have htot : totalGridSize (grids.map fun g => (g.length : Int))
        = (grids.map List.length).prod := by
      rw [totalGridSize_eq, hlen]
      exact Nat.mod_eq_of_lt (by omega)
    refine ⟨htot, hlen, ?_⟩
    intro n hn
    rw [htot] at hn
    have hne := grids_nonempty_of_prod_pos grids (by omega)
    obtain ⟨ds, p, hloop, hread, hget⟩ := decode_read grids hne hint n
    rw [hlen, Nat.mod_eq_of_lt hn] at hget
    rw [hlen, Nat.div_eq_of_lt hn] at hloop
    refine ⟨ds, p, ?_, hread, hget⟩
    unfold Index1DToArray
    rw [hloop]
    simp

/-- Sixteen grids of four samples each: `4^16 = 2^32` lattice points. -/
theorem sixteen_grids_prod :
    UINT_MAX ≤ ((List.replicate 16 [Dbl.fin 0, Dbl.fin 1, Dbl.fin 2, Dbl.fin 3]).map
      List.length).prod := by
  simp [UINT_MAX]

/-- Witness for `gridSearchParallel_size_check`: sixteen grids of four samples
fail the assertion; on `{0,1,2} × {0,1,2}` the product is 9 and the nine flat
indices enumerate the lattice. -/
theorem gridSearchParallel_size_check_witness :
    (∀ (pFn : List Dbl → Dbl) (plan : Reduction (Nat × Nat)),
      gridSearchParallel (List.replicate 16 [Dbl.fin 0, Dbl.fin 1, Dbl.fin 2, Dbl.fin 3])
        pFn plan = .error .assertion) ∧
    (totalGridSize ([grid012, grid012].map fun g => (g.length : Int))
        = ([grid012, grid012].map List.length).prod ∧
      (lattice [grid012, grid012]).length = ([grid012, grid012].map List.length).prod ∧
      ∀ n, n < totalGridSize ([grid012, grid012].map fun g => (g.length : Int)) →
        ∃ idx p, Index1DToArray n ([grid012, grid012].map fun g => (g.length : Int)) = .ok idx ∧
          MaxIndexFnObj2.readArgs [grid012, grid012] idx = .ok p ∧
          (lattice [grid012, grid012])[n]? = some p) :=
  ⟨(gridSearchParallel_size_check _ (by simp)).1 sixteen_grids_prod,
    (gridSearchParallel_size_check [grid012, grid012] (by simp [grid012])).2
      (by simp [grid012, UINT_MAX])⟩

/-! ## The 2-D specialisation against the general search -/

/-- C20 (as stated, refuted). Two partial results with the same maximum `0` and
different argmax vectors `(0)` and `(1)`: `a.join(b)` keeps `a`, `b.join(a)`
keeps `b`, so the merge is not commutative. -/
theorem join_not_commutative :
    MaxIndexFnObj2.join { m_value_of_max := Dbl.fin 0, m_argmax := [Dbl.fin 0] }
        { m_value_of_max := Dbl.fin 0, m_argmax := [Dbl.fin 1] }
      ≠ MaxIndexFnObj2.join { m_value_of_max := Dbl.fin 0, m_argmax := [Dbl.fin 1] }
        { m_value_of_max := Dbl.fin 0, m_argmax := [Dbl.fin 0] } := by
  simp [MaxIndexFnObj2.join, Dbl.fin_eq_fin]

/-- C20 (amended). The merge of `MaxIndexFnObj2` is associative; it is
commutative in the maximum value it keeps, and `join(a, b) = join(b, a)`
whenever the two maxima differ (on a tie each side keeps its own argmax). -/
theorem join_assoc_and_value_comm (a b c : MaxIndexFnObj2) :
    MaxIndexFnObj2.join (MaxIndexFnObj2.join a b) c
        = MaxIndexFnObj2.join a (MaxIndexFnObj2.join b c) ∧
      (MaxIndexFnObj2.join a b).m_value_of_max = (MaxIndexFnObj2.join b a).m_value_of_max ∧
      (a.m_value_of_max ≠ b.m_value_of_max →
        MaxIndexFnObj2.join a b = MaxIndexFnObj2.join b a) := by
  obtain ⟨am, aa⟩ := a
  obtain ⟨bm, ba⟩ := b
  obtain ⟨cm, ca⟩ := c
  unfold MaxIndexFnObj2.join
  simp only
  refine ⟨?_, ?_, ?_⟩
  · by_cases h1 : bm > am <;> by_cases h2 : cm > bm <;> by_cases h3 : cm > am
    all_goals simp only [h1, h2, h3, if_true, if_false]
    all_goals first
      | rfl
      | (exfalso; exact h3 (lt_trans h1 h2))
      | (exfalso; exact h2 (lt_of_le_of_lt (not_lt.1 h1) h3))
  · by_cases h1 : bm > am
    · simp only [h1, if_true, if_neg (lt_asymm h1)]
    · by_cases h2 : am > bm
      · simp only [h1, h2, if_true, if_false]
      · simp only [h1, h2, if_false]
        exact le_antisymm (not_lt.1 h2) (not_lt.1 h1)
  · intro hne
    by_cases h1 : bm > am
    · simp only [h1, if_true, if_neg (lt_asymm h1)]
    · have h2 : am > bm := lt_of_le_of_ne (not_lt.1 h1) (Ne.symm hne)
      simp only [h1, h2, if_true, if_false]

/-- Witness for `join_assoc_and_value_comm`: partial results with maxima 0, 1
and 1. -/
theorem join_assoc_and_value_comm_witness :
    MaxIndexFnObj2.join
        (MaxIndexFnObj2.join { m_value_of_max := Dbl.fin 0, m_argmax := [Dbl.fin 0] }
          { m_value_of_max := Dbl.fin 1, m_argmax := [Dbl.fin 1] })
        { m_value_of_max := Dbl.fin 1, m_argmax := [Dbl.fin 2] }
      = MaxIndexFnObj2.join { m_value_of_max := Dbl.fin 0, m_argmax := [Dbl.fin 0] }
        (MaxIndexFnObj2.join { m_value_of_max := Dbl.fin 1, m_argmax := [Dbl.fin 1] }
          { m_value_of_max := Dbl.fin 1, m_argmax := [Dbl.fin 2] }) ∧
    MaxIndexFnObj2.join { m_value_of_max := Dbl.fin 0, m_argmax := [Dbl.fin 0] }
        { m_value_of_max := Dbl.fin 1, m_argmax := [Dbl.fin 1] }
      = MaxIndexFnObj2.join { m_value_of_max := Dbl.fin 1, m_argmax := [Dbl.fin 1] }
        { m_value_of_max := Dbl.fin 0, m_argmax := [Dbl.fin 0] } :=
  ⟨(join_assoc_and_value_comm _ _ _).1,
    (join_assoc_and_value_comm { m_value_of_max := Dbl.fin 0, m_argmax := [Dbl.fin 0] }
      { m_value_of_max := Dbl.fin 1, m_argmax := [Dbl.fin 1] }
      { m_value_of_max := Dbl.fin 1, m_argmax := [Dbl.fin 2] }).2.2
      (by simp [Dbl.fin_eq_fin])⟩

/-! ## The odometer and the flat index -/

/-- Encoding digits `ds` below their extents `ns` from a start value `r` stays
in the block `[r * product, (r + 1) * product)` without wrapping, and the
decoder loop applied to the code returns the digits and the quotient `r`. -/
theorem IndexListTo1D.loop_decode (ns ds : List Nat)
    (hd : List.Forall₂ (fun d n => d < n) ds ns) (hpos : ∀ n ∈ ns, 0 < n)
    (hint : ∀ n ∈ ns, n < 2147483648) :
    ∀ r : Nat, (r + 1) * ns.prod ≤ 4294967296 →
      r * ns.prod ≤ IndexListTo1D.loop r (ns.map Nat.cast) (ds.map Nat.cast) ∧
      IndexListTo1D.loop r (ns.map Nat.cast) (ds.map Nat.cast) < (r + 1) * ns.prod ∧
      Index1DToArray.loop (ns.map Nat.cast)
          (IndexListTo1D.loop r (ns.map Nat.cast) (ds.map Nat.cast))
        = .ok (ds.map Nat.cast, r) := by
  induction hd with
  | nil =>
    intro r _
    simp [IndexListTo1D.loop, Index1DToArray.loop]
  | @cons d n ds ns hdn hrest ih =>
    intro r hr
    have hni : n < 2147483648 := hint n (by simp)
    have hP : 0 < ns.prod := List.prod_pos fun m hm => hpos m (by simp [hm])
    rw [List.prod_cons] at hr ⊢
    have hstep : r * n + d + 1 ≤ (r + 1) * n := by
      have : (r + 1) * n = r * n + n := by ring
      omega
    have hr1 : (r * n + d + 1) * ns.prod ≤ 4294967296 :=
      le_trans (Nat.mul_le_mul_right _ hstep) (by rw [Nat.mul_assoc]; exact hr)
    have hsmall : r * n + d < 4294967296 := by
      have : r * n + d + 1 ≤ (r * n + d + 1) * ns.prod := Nat.le_mul_of_pos_right _ hP
      omega
    have hrn : r * n < 4294967296 := by omega
    have hUn : toUInt (n : Int) = n := by
      rw [toUInt_natCast]; exact Nat.mod_eq_of_lt (by omega)
    have hUd : toUInt (d : Int) = d := by
      rw [toUInt_natCast]; exact Nat.mod_eq_of_lt (by omega)
    have hacc : (r * n % 4294967296 + d) % 4294967296 = r * n + d := by
      rw [Nat.mod_eq_of_lt hrn, Nat.mod_eq_of_lt hsmall]
    obtain ⟨ih1, ih2, ih3⟩ := ih (fun m hm => hpos m (by simp [hm]))
      (fun m hm => hint m (by simp [hm])) (r * n + d) hr1
    have hmod : (r * n + d) % n = d := by
      rw [Nat.add_comm, Nat.add_mul_mod_self_right, Nat.mod_eq_of_lt hdn]
    have hdiv : (r * n + d) / n = r := by
      rw [Nat.add_comm, Nat.add_mul_div_right _ _ (by omega), Nat.div_eq_of_lt hdn, Nat.zero_add]
    have hI : toInt d = (d : Int) := by
      unfold toInt
      rw [Nat.mod_eq_of_lt (by omega), if_pos (by omega)]
    simp only [List.map_cons, IndexListTo1D.loop, hUn, hUd, hacc]
    refine ⟨?_, ?_, ?_⟩
    · calc r * (n * ns.prod) = r * n * ns.prod := by ring
        _ ≤ (r * n + d) * ns.prod := Nat.mul_le_mul_right _ (by omega)
        _ ≤ _ := ih1
    · calc _ < (r * n + d + 1) * ns.prod := ih2
        _ ≤ (r + 1) * n * ns.prod := Nat.mul_le_mul_right _ hstep
        _ = (r + 1) * (n * ns.prod) := by ring
    · simp only [Index1DToArray.loop, ih3, hUn, hmod, hdiv, hI]
      rw [if_neg (by omega)]

/-- An index tuple within `int` extents given as casts of naturals is the cast
of a tuple of naturals below those extents. -/
theorem indices_eq_natCast (ns : List Nat) (idx : List Int)
    (h : List.Forall₂ (fun (d l : Int) => 0 ≤ d ∧ d < l) idx (ns.map Nat.cast)) :
    ∃ ds : List Nat, idx = ds.map Nat.cast ∧ List.Forall₂ (fun d n => d < n) ds ns := by
  induction ns generalizing idx with
  | nil =>
    cases h
    exact ⟨[], rfl, List.Forall₂.nil⟩
  | cons n ns ih =>
    rw [List.map_cons] at h
    cases h with
    | cons hd htl =>
      rename_i d idx1
      obtain ⟨ds, rfl, hds⟩ := ih idx1 htl
      refine ⟨d.toNat :: ds, ?_, List.Forall₂.cons (by omega) hds⟩
      rw [List.map_cons, Int.toNat_of_nonneg hd.1]

/-- C21. Decode inverts encode: for every list of positive `int` extents `e`
with `product(e) < 2^32` and every index tuple `idx` of the same length with
`0 ≤ idx[i] < e[i]` for all `i`, `IndexListTo1D(e, idx)` is below `product(e)`
and `Index1DToArray` applied to it returns `idx`. -/
theorem decode_inverts_encode (e idx : List Int) (hpos : ∀ l ∈ e, 0 < l)
    (hint : ∀ l ∈ e, l < 2147483648) (hprod : e.prod < 4294967296)
    (hidx : List.Forall₂ (fun (d l : Int) => 0 ≤ d ∧ d < l) idx e) :
    ∃ x, IndexListTo1D e idx = .ok x ∧ (x : Int) < e.prod ∧ Index1DToArray x e = .ok idx := by
  obtain ⟨ns, rfl, hns, hp⟩ := extents_eq_natCast e hpos
  obtain ⟨ds, rfl, hds⟩ := indices_eq_natCast ns idx hidx
  have hint1 : ∀ n ∈ ns, n < 2147483648 := by
    intro n hn
    have := hint (n : Int) (List.mem_map.2 ⟨n, hn, rfl⟩)
    exact_mod_cast this
  rw [hp] at hprod ⊢
  have hprod1 : ns.prod < 4294967296 := by exact_mod_cast hprod
  cases hds with
  | nil =>
    exact ⟨0, by simp [IndexListTo1D], by simp, by simp [Index1DToArray, Index1DToArray.loop]⟩
  | cons hdn hrest =>
    rename_i d n ds ns
    have hn1 : n < 2147483648 := hint1 n (by simp)
    have hint2 : ∀ m ∈ ns, m < 2147483648 := fun m hm => hint1 m (by simp [hm])
    rw [List.prod_cons] at hprod1
    have hblock : (d + 1) * ns.prod ≤ 4294967296 :=
      le_trans (Nat.mul_le_mul_right _ (by omega)) hprod1.le
    obtain ⟨-, h2, h3⟩ := IndexListTo1D.loop_decode ns ds hrest
      (fun m hm => hns m (by simp [hm])) hint2 d hblock
    have hUn : toUInt (n : Int) = n := by
      rw [toUInt_natCast]; exact Nat.mod_eq_of_lt (by omega)
    have hUd : toUInt (d : Int) = d := by
      rw [toUInt_natCast]; exact Nat.mod_eq_of_lt (by omega)
    have hI : toInt d = (d : Int) := by
      unfold toInt
      rw [Nat.mod_eq_of_lt (by omega), if_pos (by omega)]
    have hlen : ((n :: ns).map (Nat.cast : Nat → Int)).length
        = ((d :: ds).map (Nat.cast : Nat → Int)).length := by
      simp [hrest.length_eq]
    refine ⟨IndexListTo1D.loop d (ns.map Nat.cast) (ds.map Nat.cast), ?_, ?_, ?_⟩
    · simp only [IndexListTo1D, List.map_cons, hUd]
      rw [if_neg (by simpa using hlen)]
    · have : IndexListTo1D.loop d (ns.map Nat.cast) (ds.map Nat.cast) < n * ns.prod :=
        lt_of_lt_of_le h2 (Nat.mul_le_mul_right _ (by omega))
      rw [List.prod_cons]
      exact_mod_cast this
    · simp only [Index1DToArray, List.map_cons, Index1DToArray.loop, h3, hUn]
      rw [if_neg (by omega), Nat.mod_eq_of_lt hdn, Nat.div_eq_of_lt hdn, hI]
      simp

/-- Witness for `decode_inverts_encode` on the extents `[2, 3, 4]` and the index
tuple `[1, 1, 1]`, whose code is `17`. -/
theorem decode_inverts_encode_witness :
    ∃ x, IndexListTo1D [2, 3, 4] [1, 1, 1] = .ok x ∧ (x : Int) < ([2, 3, 4] : List Int).prod ∧
      Index1DToArray x [2, 3, 4] = .ok [1, 1, 1] :=
  decode_inverts_encode [2, 3, 4] [1, 1, 1] (by decide) (by decide) (by decide)
    (List.Forall₂.cons ⟨by decide, by decide⟩ (List.Forall₂.cons ⟨by decide, by decide⟩
      (List.Forall₂.cons ⟨by decide, by decide⟩ List.Forall₂.nil)))

/-! ## Interpolation: every read is in bounds -/

section ReadsInBounds

variable {α : Type} [LinearOrderedField α]

/-- A read succeeds exactly when its index is within the array. -/
theorem readAt_ok_iff {β : Type} (l : List β) (i : Int) :
    (∃ v, readAt l i = .ok v) ↔ 0 ≤ i ∧ i < (l.length : Int) := by
  constructor
  · rintro ⟨v, hv⟩
    unfold readAt at hv
    by_cases hi : i < 0
    · rw [if_pos hi] at hv
      cases hv
    · rw [if_neg hi] at hv
      by_cases hlt : i.toNat < l.length
      · omega
      · rw [List.getElem?_eq_none (by omega)] at hv
        cases hv
  · rintro ⟨h0, h1⟩
    obtain ⟨k, rfl⟩ := Int.eq_ofNat_of_zero_le h0
    have hk : k < l.length := by exact_mod_cast h1
    exact ⟨_, readAt_of_lt l k hk l[k]⟩

variable [FloorRing α]

/-- C22. Interpolation reads stay in bounds: over exact arithmetic, for evenly
spaced strictly increasing grids of length at least 2, a table of matching
shape and every query, the cell indices `i`, `j` that `interp2d_grid` computes
from the clamped query satisfy `0 ≤ i ≤ len1-2` and `0 ≤ j ≤ len2-2` (never the
`-1` of `getCellIndex`), every grid read at `i`, `i+1`, `j`, `j+1` and every
table read at the four corners succeeds, and the call returns `interp2d` of the
values read; likewise the three indices of `interpTrilinear` satisfy
`0 ≤ i ≤ len1-2`, `0 ≤ j ≤ len2-2`, `0 ≤ k ≤ len3-2`, its six grid reads and
eight table reads succeed, and the call returns a value. -/
theorem interpolation_reads_in_bounds :
    (∀ (g1 g2 : List α) (F : List (List α)), EvenlySpaced g1 → EvenlySpaced g2 →
      Shape2 F g1.length g2.length → ∀ x y : α,
      ∃ (a b : α) (i j : Int), forceToGrid x g1 = .ok a ∧ forceToGrid y g2 = .ok b ∧
        getCellIndex a g1 = .ok i ∧ getCellIndex b g2 = .ok j ∧
        0 ≤ i ∧ i ≤ ARRAYLEN1D g1 - 2 ∧ 0 ≤ j ∧ j ≤ ARRAYLEN1D g2 - 2 ∧
        ∃ x1 x2 y1 y2 u1 u2 u3 u4 : α,
          ARRAYPTR1D g1 i = .ok x1 ∧ ARRAYPTR1D g1 (i + 1) = .ok x2 ∧
          ARRAYPTR1D g2 j = .ok y1 ∧ ARRAYPTR1D g2 (j + 1) = .ok y2 ∧
          ARRAYPTR2D F i j = .ok u1 ∧ ARRAYPTR2D F (i + 1) j = .ok u2 ∧
          ARRAYPTR2D F i (j + 1) = .ok u3 ∧ ARRAYPTR2D F (i + 1) (j + 1) = .ok u4 ∧
          interp2d_grid g1 g2 F x y = .ok (interp2d x y x1 y1 x2 y2 u1 u3 u2 u4)) ∧
    (∀ (g1 g2 g3 : List α) (F : List (List (List α))), EvenlySpaced g1 → EvenlySpaced g2 →
      EvenlySpaced g3 → Shape3 F g1.length g2.length g3.length → ∀ x y z : α,
      ∃ (a b c : α) (i j k : Int), forceToGrid x g1 = .ok a ∧ forceToGrid y g2 = .ok b ∧
        forceToGrid z g3 = .ok c ∧ getCellIndex a g1 = .ok i ∧ getCellIndex b g2 = .ok j ∧
        getCellIndex c g3 = .ok k ∧
        0 ≤ i ∧ i ≤ ARRAYLEN1D g1 - 2 ∧ 0 ≤ j ∧ j ≤ ARRAYLEN1D g2 - 2 ∧
        0 ≤ k ∧ k ≤ ARRAYLEN1D g3 - 2 ∧
        (∃ x1 x2 y1 y2 z1 z2 : α,
          ARRAYPTR1D g1 i = .ok x1 ∧ ARRAYPTR1D g1 (i + 1) = .ok x2 ∧
          ARRAYPTR1D g2 j = .ok y1 ∧ ARRAYPTR1D g2 (j + 1) = .ok y2 ∧
          ARRAYPTR1D g3 k = .ok z1 ∧ ARRAYPTR1D g3 (k + 1) = .ok z2) ∧
        (∃ u1 u2 u3 u4 u5 u6 u7 u8 : α,
          ARRAYPTR3D F i j k = .ok u1 ∧ ARRAYPTR3D F (i + 1) j k = .ok u2 ∧
          ARRAYPTR3D F i (j + 1) k = .ok u3 ∧ ARRAYPTR3D F (i + 1) (j + 1) k = .ok u4 ∧
          ARRAYPTR3D F i j (k + 1) = .ok u5 ∧ ARRAYPTR3D F (i + 1) j (k + 1) = .ok u6 ∧
          ARRAYPTR3D F i (j + 1) (k + 1) = .ok u7 ∧
          ARRAYPTR3D F (i + 1) (j + 1) (k + 1) = .ok u8) ∧
        ∃ v, interpTrilinear g1 g2 g3 F x y z = .ok v) := by
  constructor
  · intro g1 g2 F h1 h2 hF x y
    obtain ⟨a, i, ha, hi, hi1, -, -, -, -⟩ := locate_spec h1 x
    obtain ⟨b, j, hb, hj, hj1, -, -, -, -⟩ := locate_spec h2 y
    have ei : ((i : Int) + 1) = ((i + 1 : Nat) : Int) := by push_cast; rfl
    have ej : ((j : Int) + 1) = ((j + 1 : Nat) : Int) := by push_cast; rfl
    refine ⟨a, b, i, j, ha, hb, hi, hj, by omega, by unfold ARRAYLEN1D; omega, by omega,
      by unfold ARRAYLEN1D; omega, _, _, _, _, _, _, _, _,
      readAt_of_lt g1 i (by omega) 0, readAt_succ_of_lt g1 i hi1 0,
      readAt_of_lt g2 j (by omega) 0, readAt_succ_of_lt g2 j hj1 0,
      ARRAYPTR2D_of_lt F hF i j (by omega) (by omega), ?_, ?_, ?_,
      interp2d_grid_eq x y a b i j ha hb hi hj hi1 hj1 hF⟩
    · rw [ei]; exact ARRAYPTR2D_of_lt F hF (i + 1) j hi1 (by omega)
    · rw [ej]; exact ARRAYPTR2D_of_lt F hF i (j + 1) (by omega) hj1
    · rw [ei, ej]; exact ARRAYPTR2D_of_lt F hF (i + 1) (j + 1) hi1 hj1
  · intro g1 g2 g3 F h1 h2 h3 hF x y z
    obtain ⟨a, i, ha, hi, hi1, -, -, -, -⟩ := locate_spec h1 x
    obtain ⟨b, j, hb, hj, hj1, -, -, -, -⟩ := locate_spec h2 y
    obtain ⟨c, k, hc, hk, hk1, -, -, -, -⟩ := locate_spec h3 z
    have ei : ((i : Int) + 1) = ((i + 1 : Nat) : Int) := by push_cast; rfl
    have ej : ((j : Int) + 1) = ((j + 1 : Nat) : Int) := by push_cast; rfl
    have ek : ((k : Int) + 1) = ((k + 1 : Nat) : Int) := by push_cast; rfl
    refine ⟨a, b, c, i, j, k, ha, hb, hc, hi, hj, hk, by omega, by unfold ARRAYLEN1D; omega,
      by omega, by unfold ARRAYLEN1D; omega, by omega, by unfold ARRAYLEN1D; omega,
      ⟨_, _, _, _, _, _, readAt_of_lt g1 i (by omega) 0, readAt_succ_of_lt g1 i hi1 0,
        readAt_of_lt g2 j (by omega) 0, readAt_succ_of_lt g2 j hj1 0,
        readAt_of_lt g3 k (by omega) 0, readAt_succ_of_lt g3 k hk1 0⟩,
      ⟨((F.getD i []).getD j []).getD k 0, ((F.getD (i + 1) []).getD j []).getD k 0,
        ((F.getD i []).getD (j + 1) []).getD k 0, ((F.getD (i + 1) []).getD (j + 1) []).getD k 0,
        ((F.getD i []).getD j []).getD (k + 1) 0, ((F.getD (i + 1) []).getD j []).getD (k + 1) 0,
        ((F.getD i []).getD (j + 1) []).getD (k + 1) 0,
        ((F.getD (i + 1) []).getD (j + 1) []).getD (k + 1) 0,
        ARRAYPTR3D_of_lt F hF i j k (by omega) (by omega) (by omega), ?_, ?_, ?_, ?_, ?_, ?_, ?_⟩,
      _, interpTrilinear_eq x y z a b c i j k ha hb hc hi hj hk hi1 hj1 hk1 hF⟩
    · rw [ei]; exact ARRAYPTR3D_of_lt F hF (i + 1) j k hi1 (by omega) (by omega)
    · rw [ej]; exact ARRAYPTR3D_of_lt F hF i (j + 1) k (by omega) hj1 (by omega)
    · rw [ei, ej]; exact ARRAYPTR3D_of_lt F hF (i + 1) (j + 1) k hi1 hj1 (by omega)
    · rw [ek]; exact ARRAYPTR3D_of_lt F hF i j (k + 1) (by omega) (by omega) hk1
    · rw [ei, ek]; exact ARRAYPTR3D_of_lt F hF (i + 1) j (k + 1) hi1 (by omega) hk1
    · rw [ej, ek]; exact ARRAYPTR3D_of_lt F hF i (j + 1) (k + 1) (by omega) hj1 hk1
    · rw [ei, ej, ek]; exact ARRAYPTR3D_of_lt F hF (i + 1) (j + 1) (k + 1) hi1 hj1 hk1

/-- Witness for `interpolation_reads_in_bounds`: the 2×3 example table at the
query `(-1, 5)`, outside the grid on both axes, and a 2×2×2 table at the query
`(1/2, 3, 1/4)`. -/
theorem interpolation_reads_in_bounds_witness :
    (∃ (a b : ℚ) (i j : Int), forceToGrid (-1 : ℚ) [0, 1] = .ok a ∧
        forceToGrid (5 : ℚ) [0, 1, 2] = .ok b ∧
        getCellIndex a [0, 1] = .ok i ∧ getCellIndex b [0, 1, 2] = .ok j ∧
        0 ≤ i ∧ i ≤ ARRAYLEN1D ([0, 1] : List ℚ) - 2 ∧
        0 ≤ j ∧ j ≤ ARRAYLEN1D ([0, 1, 2] : List ℚ) - 2 ∧
        ∃ x1 x2 y1 y2 u1 u2 u3 u4 : ℚ,
          ARRAYPTR1D [0, 1] i = .ok x1 ∧ ARRAYPTR1D [0, 1] (i + 1) = .ok x2 ∧
          ARRAYPTR1D [0, 1, 2] j = .ok y1 ∧ ARRAYPTR1D [0, 1, 2] (j + 1) = .ok y2 ∧
          ARRAYPTR2D [[0, 2, 4], [1, 3, 5]] i j = .ok u1 ∧
          ARRAYPTR2D [[0, 2, 4], [1, 3, 5]] (i + 1) j = .ok u2 ∧
          ARRAYPTR2D [[0, 2, 4], [1, 3, 5]] i (j + 1) = .ok u3 ∧
          ARRAYPTR2D [[0, 2, 4], [1, 3, 5]] (i + 1) (j + 1) = .ok u4 ∧
          interp2d_grid ([0, 1] : List ℚ) [0, 1, 2] [[0, 2, 4], [1, 3, 5]] (-1) 5
            = .ok (interp2d (-1) 5 x1 y1 x2 y2 u1 u3 u2 u4)) ∧
    (∃ (a b c : ℚ) (i j k : Int), forceToGrid (1 / 2 : ℚ) [0, 1] = .ok a ∧
        forceToGrid (3 : ℚ) [0, 1] = .ok b ∧ forceToGrid (1 / 4 : ℚ) [0, 1] = .ok c ∧
        getCellIndex a [0, 1] = .ok i ∧ getCellIndex b [0, 1] = .ok j ∧
        getCellIndex c [0, 1] = .ok k ∧
        0 ≤ i ∧ i ≤ ARRAYLEN1D ([0, 1] : List ℚ) - 2 ∧
        0 ≤ j ∧ j ≤ ARRAYLEN1D ([0, 1] : List ℚ) - 2 ∧
        0 ≤ k ∧ k ≤ ARRAYLEN1D ([0, 1] : List ℚ) - 2 ∧
        (∃ x1 x2 y1 y2 z1 z2 : ℚ,
          ARRAYPTR1D [0, 1] i = .ok x1 ∧ ARRAYPTR1D [0, 1] (i + 1) = .ok x2 ∧
          ARRAYPTR1D [0, 1] j = .ok y1 ∧ ARRAYPTR1D [0, 1] (j + 1) = .ok y2 ∧
          ARRAYPTR1D [0, 1] k = .ok z1 ∧ ARRAYPTR1D [0, 1] (k + 1) = .ok z2) ∧
        (∃ u1 u2 u3 u4 u5 u6 u7 u8 : ℚ,
          ARRAYPTR3D [[[0, 1], [2, 3]], [[4, 5], [6, 7]]] i j k = .ok u1 ∧
          ARRAYPTR3D [[[0, 1], [2, 3]], [[4, 5], [6, 7]]] (i + 1) j k = .ok u2 ∧
          ARRAYPTR3D [[[0, 1], [2, 3]], [[4, 5], [6, 7]]] i (j + 1) k = .ok u3 ∧
          ARRAYPTR3D [[[0, 1], [2, 3]], [[4, 5], [6, 7]]] (i + 1) (j + 1) k = .ok u4 ∧
          ARRAYPTR3D [[[0, 1], [2, 3]], [[4, 5], [6, 7]]] i j (k + 1) = .ok u5 ∧
          ARRAYPTR3D [[[0, 1], [2, 3]], [[4, 5], [6, 7]]] (i + 1) j (k + 1) = .ok u6 ∧
          ARRAYPTR3D [[[0, 1], [2, 3]], [[4, 5], [6, 7]]] i (j + 1) (k + 1) = .ok u7 ∧
          ARRAYPTR3D [[[0, 1], [2, 3]], [[4, 5], [6, 7]]] (i + 1) (j + 1) (k + 1) = .ok u8) ∧
        ∃ v, interpTrilinear ([0, 1] : List ℚ) [0, 1] [0, 1]
          [[[0, 1], [2, 3]], [[4, 5], [6, 7]]] (1 / 2) 3 (1 / 4) = .ok v) :=
  ⟨interpolation_reads_in_bounds.1 [0, 1] [0, 1, 2] [[0, 2, 4], [1, 3, 5]]
      evenlySpaced_01 evenlySpaced_012 shape_example23 (-1) 5,
    interpolation_reads_in_bounds.2 [0, 1] [0, 1] [0, 1] [[[0, 1], [2, 3]], [[4, 5], [6, 7]]]
      evenlySpaced_01 evenlySpaced_01 evenlySpaced_01 shape_example222 (1 / 2) 3 (1 / 4)⟩

end ReadsInBounds

/-! ## The serial search on machine values: supporting lemmas -/

theorem Double.gt_num (a b : Dbl) : (Double.num a).gt (.num b) = true ↔ b < a := by
  simp [Double.gt]

theorem Double.eq_num (a b : Dbl) : (Double.num a).eq (.num b) = true ↔ a = b := by
  simp [Double.eq]

theorem Double.nan_gt (b : Double) : Double.nan.gt b = false := rfl

theorem Double.nan_eq (b : Double) : Double.nan.eq b = false := rfl

theorem intIncrement_ok (n : Int) (h : n ≠ INT_MAX) : intIncrement n = .ok (n + 1) := by
  unfold intIncrement
  rw [if_neg h]

theorem countP_eq_zero_of_below (pFn : List Dbl → Double) (pts : List (List Dbl)) (v : Dbl)
    (h : ∀ p ∈ pts, pFn p = .nan ∨ ∃ w, pFn p = .num w ∧ w < v) :
    pts.countP (fun p => (pFn p).eq (.num v)) = 0 := by
  rw [List.countP_eq_zero]
  intro p hp
  rcases h p hp with hn | ⟨w, hw, hlt⟩
  · rw [hn]
    simp [Double.eq]
  · rw [hw]
    simpa [Double.eq] using ne_of_lt hlt

/-- One comparison keeps the invariant: with room left in the `int` counters
and a non-NaN value at the very first point, `update` succeeds, leaves the
indices alone and establishes the invariant for the extended list. -/
theorem Machine.serialInv_update (pFn : List Dbl → Double) (pts : List (List Dbl))
    (st : Machine.SearchState) (p : List Dbl) (h : Machine.SerialInv pFn pts st)
    (hsize : pts.length + 1 < 2147483648) (hfirst : pts = [] → pFn p ≠ .nan) :
    ∃ st1, Machine.gridSearch.update (pFn p) p st = .ok st1 ∧
      st1.dataIndexArray = st.dataIndexArray ∧ Machine.SerialInv pFn (pts ++ [p]) st1 := by
  obtain ⟨hn, hrest⟩ := h
  have hnmax : st.nIter ≠ INT_MAX := by
    rw [hn]
    unfold INT_MAX
    omega
  by_cases hpts : pts = []
  · subst hpts
    have h0 : st.nIter = 0 := by simpa using hn
    obtain ⟨v, hv⟩ : ∃ v, pFn p = .num v := by
      cases hp : pFn p with
      | nan => exact absurd hp (hfirst rfl)
      | num v => exact ⟨v, rfl⟩
    refine ⟨{ st with max := pFn p, argMaxArray := p, nMaxMultiplicity := 1, nIter := st.nIter + 1 },
      ?_, rfl, ?_⟩
    · unfold Machine.gridSearch.update
      simp only [h0, if_true]
      rw [intIncrement_ok 0 (by unfold INT_MAX; omega)]
    · refine ⟨by simp [h0], fun _ => ⟨v, hv, ?_, hv, ⟨[], [], by simp, by simp⟩, ?_⟩⟩
      · intro q hq w hw
        simp only [List.nil_append, List.mem_singleton] at hq
        rw [hq, hv] at hw
        cases hw
        exact le_rfl
      · simp [hv, Double.eq]
  · obtain ⟨m, hmax, hle, harg, ⟨pre, post, hsplit, hpre⟩, hcount⟩ := hrest hpts
    have hn0 : st.nIter ≠ 0 := by
      rw [hn]
      have : pts.length ≠ 0 := fun h => hpts (List.length_eq_zero.1 h)
      omega
    have hcle : pts.countP (fun q => (pFn q).eq (.num m)) ≤ pts.length := List.countP_le_length _
    have hmmax : st.nMaxMultiplicity ≠ INT_MAX := by
      rw [hcount]
      unfold INT_MAX
      omega
    unfold Machine.gridSearch.update
    simp only [if_neg hn0, hmax]
    cases hp : pFn p with
    | nan =>
      simp only [Double.nan_gt, Double.nan_eq, Bool.false_eq_true, if_false]
      rw [intIncrement_ok _ hnmax]
      refine ⟨_, rfl, rfl, by simp [hn], fun _ => ⟨m, hmax, ?_, harg, ⟨pre, post ++ [p], ?_, hpre⟩, ?_⟩⟩
      · intro q hq w hw
        rcases List.mem_append.1 hq with hq | hq
        · exact hle q hq w hw
        · rw [List.mem_singleton.1 hq, hp] at hw
          cases hw
      · rw [hsplit]
        simp
      · rw [List.countP_append, hcount]
        simp [hp, Double.eq]
    | num v =>
      by_cases hgt : m < v
      · simp only [(Double.gt_num v m).2 hgt, if_true]
        rw [intIncrement_ok _ hnmax]
        have hbelow : ∀ q ∈ pts, pFn q = .nan ∨ ∃ w, pFn q = .num w ∧ w < v := by
          intro q hq
          cases hq' : pFn q with
          | nan => exact Or.inl rfl
          | num w => exact Or.inr ⟨w, rfl, lt_of_le_of_lt (hle q hq w hq') hgt⟩
        refine ⟨_, rfl, rfl, by simp [hn], fun _ => ⟨v, rfl, ?_, hp, ⟨pts, [], rfl, hbelow⟩, ?_⟩⟩
        · intro q hq w hw
          rcases List.mem_append.1 hq with hq | hq
          · exact le_of_lt (lt_of_le_of_lt (hle q hq w hw) hgt)
          · rw [List.mem_singleton.1 hq, hp] at hw
            cases hw
            exact le_rfl
        · rw [List.countP_append, countP_eq_zero_of_below pFn pts v hbelow]
          simp [hp, Double.eq]
      · have hgt' : (Double.num v).gt (.num m) = false := by
          rw [Bool.eq_false_iff]
          exact fun h => hgt ((Double.gt_num v m).1 h)
        simp only [hgt', Bool.false_eq_true, if_false]
        by_cases heq : v = m
        · simp only [(Double.eq_num v m).2 heq, if_true]
          rw [intIncrement_ok _ hmmax]
          simp only
          rw [intIncrement_ok _ hnmax]
          refine ⟨_, rfl, rfl, by simp [hn],
            fun _ => ⟨m, rfl, ?_, harg, ⟨pre, post ++ [p], ?_, hpre⟩, ?_⟩⟩
          · intro q hq w hw
            rcases List.mem_append.1 hq with hq | hq
            · exact hle q hq w hw
            · rw [List.mem_singleton.1 hq, hp] at hw
              cases hw
              exact le_of_eq heq
          · rw [hsplit]
            simp
          · rw [List.countP_append, hcount]
            simp [hp, Double.eq, heq]
        · have heq' : (Double.num v).eq (.num m) = false := by
            rw [Bool.eq_false_iff]
            exact fun h => heq ((Double.eq_num v m).1 h)
          simp only [heq', Bool.false_eq_true, if_false]
          rw [intIncrement_ok _ hnmax]
          refine ⟨_, rfl, rfl, by simp [hn],
            fun _ => ⟨m, hmax, ?_, harg, ⟨pre, post ++ [p], ?_, hpre⟩, ?_⟩⟩
          · intro q hq w hw
            rcases List.mem_append.1 hq with hq | hq
            · exact hle q hq w hw
            · rw [List.mem_singleton.1 hq, hp] at hw
              cases hw
              exact le_of_not_lt hgt
          · rw [hsplit]
            simp
          · rw [List.countP_append, hcount]
            simp [hp, Double.eq, heq]

/-- The `while` loop entered at a valid index tuple after the points `done`,
with enough fuel, room in the `int` counters for every point and a non-NaN
value at the very first point: it returns, and the state it returns satisfies
the invariant for all points. -/
theorem Machine.gridSearch.loop_inv (grids : List (List Dbl)) (hne : ∀ g ∈ grids, g ≠ [])
    (pFn : List Dbl → Double) (fuel : Nat) (st : Machine.SearchState)
    (done : List (List Dbl)) (hv : ValidIndex st.dataIndexArray grids)
    (hfuel : (latticeFrom grids st.dataIndexArray).length ≤ fuel)
    (hsize : done.length + (latticeFrom grids st.dataIndexArray).length < 2147483648)
    (hfirst : ∀ p rest, done ++ latticeFrom grids st.dataIndexArray = p :: rest → pFn p ≠ .nan)
    (hinv : Machine.SerialInv pFn done st) :
    ∃ st1, Machine.gridSearch.loop grids pFn fuel st = .ok st1 ∧
      Machine.SerialInv pFn (done ++ latticeFrom grids st.dataIndexArray) st1 := by
  induction fuel generalizing st done with
  | zero =>
    obtain ⟨p, rest, -, hfrom, -⟩ := odometer_step grids hne st.dataIndexArray hv
    rw [hfrom] at hfuel
    simp at hfuel
  | succ fuel ih =>
    obtain ⟨p, rest, hread, hfrom, hstep⟩ := odometer_step grids hne st.dataIndexArray hv
    rw [hfrom] at hfuel hsize hfirst ⊢
    have hsize1 : done.length + 1 < 2147483648 := by
      simp only [List.length_cons] at hsize
      omega
    have hfirst1 : done = [] → pFn p ≠ .nan := by
      intro hd
      subst hd
      exact hfirst p rest rfl
    obtain ⟨st1, hupd, hidx, hinv1⟩ := Machine.serialInv_update pFn done st p hinv hsize1 hfirst1
    have happ : done ++ p :: rest = (done ++ [p]) ++ rest := by simp
    simp only [Machine.gridSearch.loop, Machine.gridSearch.body, hread, hupd, hidx]
    rcases hstep with ⟨h2, hval, hrest⟩ | ⟨h2, hrest, hzero⟩
    · generalize hinc : Ponzi.gridSearch.increment (grids.map List.length) st.dataIndexArray = nx
        at h2 hval hrest
      obtain ⟨idx1, b⟩ := nx
      simp only at h2 hval hrest
      subst h2
      simp only
      have hinv2 : Machine.SerialInv pFn (done ++ [p]) { st1 with dataIndexArray := idx1 } :=
        hinv1
      obtain ⟨st2, hrun, hinv3⟩ := ih { st1 with dataIndexArray := idx1 } (done ++ [p]) hval
        (by rw [← hrest]; simpa using hfuel)
        (by
          rw [← hrest]
          simp only [List.length_append, List.length_cons, List.length_nil] at hsize ⊢
          omega)
        (by
          intro q rest1 hq
          have hq1 : (done ++ [p]) ++ latticeFrom grids idx1 = done ++ p :: rest := by
            rw [← hrest]
            simp
          exact hfirst q rest1 (hq1 ▸ hq))
        hinv2
      refine ⟨st2, hrun, ?_⟩
      rw [happ, hrest]
      exact hinv3
    · generalize hinc : Ponzi.gridSearch.increment (grids.map List.length) st.dataIndexArray = nx
        at h2 hzero
      obtain ⟨idx1, b⟩ := nx
      simp only at h2 hzero
      subst h2 hrest
      exact ⟨_, rfl, hinv1⟩

/-- With all grids non-empty, fewer than `2^31` lattice points, a non-NaN value
at the first lattice point and fuel for every lattice point, `gridSearch`
returns the counter, maximum and argmax of a state that satisfies the
invariant for the whole lattice. -/
theorem Machine.gridSearch_inv (grids : List (List Dbl)) (hne : ∀ g ∈ grids, g ≠ [])
    (pFn : List Dbl → Double) (argMax0 : List Dbl) (fuel : Nat)
    (hsize : (lattice grids).length < 2147483648)
    (hfirst : ∀ p, (lattice grids).head? = some p → pFn p ≠ .nan)
    (hfuel : (lattice grids).length ≤ fuel) :
    ∃ st, Machine.gridSearch grids pFn argMax0 fuel
        = .ok (st.nMaxMultiplicity, st.max, st.argMaxArray) ∧
      Machine.SerialInv pFn (lattice grids) st := by
  have hany : (grids.map List.length).any (fun len => len == 0) = false := by
    rw [Bool.eq_false_iff]
    intro h
    simp only [List.any_eq_true, List.mem_map, beq_iff_eq] at h
    obtain ⟨len, ⟨g, hg, rfl⟩, h0⟩ := h
    exact hne g hg (List.length_eq_zero.1 h0)
  have hzero : ((grids.map List.length).map fun _ => 0) = grids.map fun _ => 0 := by
    rw [List.map_map]
    rfl
  have hv : ValidIndex (Machine.gridSearch.init grids argMax0).dataIndexArray grids := by
    simp only [Machine.gridSearch.init, hzero]
    exact validIndex_zero grids hne
  have hfrom : latticeFrom grids (Machine.gridSearch.init grids argMax0).dataIndexArray
      = lattice grids := by
    simp only [Machine.gridSearch.init, hzero]
    exact latticeFrom_zero grids hne
  have h0 : Machine.SerialInv pFn [] (Machine.gridSearch.init grids argMax0) :=
    ⟨rfl, fun h => absurd rfl h⟩
  obtain ⟨st1, hrun, hinv⟩ := Machine.gridSearch.loop_inv grids hne pFn fuel
    (Machine.gridSearch.init grids argMax0) [] hv (by rw [hfrom]; exact hfuel)
    (by rw [hfrom]; simpa using hsize)
    (by
      intro p rest hp
      rw [hfrom, List.nil_append] at hp
      exact hfirst p (by rw [hp]; rfl))
    h0
  rw [hfrom, List.nil_append] at hinv
  refine ⟨st1, ?_, hinv⟩
  unfold Machine.gridSearch Machine.gridSearch.run
  simp only [hany, Bool.false_eq_true, if_false, hrun]

/-- A successful `update` has incremented an `nIter` below `INT_MAX` and left
the indices alone. -/
theorem Machine.gridSearch.update_counter (r : Double) (p : List Dbl)
    (st st1 : Machine.SearchState) (h : Machine.gridSearch.update r p st = .ok st1) :
    st.nIter ≠ INT_MAX ∧ st1.nIter = st.nIter + 1 ∧ st1.dataIndexArray = st.dataIndexArray := by
  unfold Machine.gridSearch.update intIncrement at h
  simp only at h
  by_cases hmax : st.nIter = INT_MAX
  · exfalso
    split_ifs at h <;> simp only [if_pos hmax, reduceCtorEq] at h
  · refine ⟨hmax, ?_⟩
    split_ifs at h <;> simp only [if_neg hmax, Except.ok.injEq, reduceCtorEq] at h <;>
      subst h <;> exact ⟨rfl, rfl⟩

/-- The `while` loop on a lattice with `2^31` points or more never returns:
at the latest the increment of `nIter` at `INT_MAX` is undefined behaviour
(`n` is the number of points already visited). -/
theorem Machine.gridSearch.loop_overflow (grids : List (List Dbl)) (hne : ∀ g ∈ grids, g ≠ [])
    (pFn : List Dbl → Double) (fuel : Nat) (st : Machine.SearchState) (n : Nat)
    (hv : ValidIndex st.dataIndexArray grids) (hn : st.nIter = (n : Int))
    (hle : n ≤ 2147483647)
    (hbig : 2147483648 ≤ n + (latticeFrom grids st.dataIndexArray).length) :
    ∃ e, Machine.gridSearch.loop grids pFn fuel st = .error e := by
  induction fuel generalizing st n with
  | zero => exact ⟨.outOfFuel, rfl⟩
  | succ fuel ih =>
    obtain ⟨p, rest, hread, hfrom, hstep⟩ := odometer_step grids hne st.dataIndexArray hv
    rw [hfrom] at hbig
    simp only [Machine.gridSearch.loop, Machine.gridSearch.body, hread]
    cases hupd : Machine.gridSearch.update (pFn p) p st with
    | error e => exact ⟨e, rfl⟩
    | ok st1 =>
      obtain ⟨hmax, hnext, hidx⟩ := Machine.gridSearch.update_counter _ _ _ _ hupd
      have hn1 : n ≠ 2147483647 := by
        intro h
        apply hmax
        rw [hn, h]
        rfl
      simp only [hidx]
      rcases hstep with ⟨h2, hval, hrest⟩ | ⟨h2, hrest, hzero⟩
      · generalize hinc : Ponzi.gridSearch.increment (grids.map List.length) st.dataIndexArray
          = nx at h2 hval hrest
        obtain ⟨idx1, b⟩ := nx
        simp only at h2 hval hrest
        subst h2
        simp only
        exact ih { st1 with dataIndexArray := idx1 } (n + 1) hval
          (by simp only [hnext, hn]; push_cast; rfl) (by omega)
          (by
            rw [← hrest]
            simp only [List.length_cons] at hbig
            omega)
      · subst hrest
        simp only [List.length_cons, List.length_nil] at hbig
        omega

/-- On a lattice with `2^31` points or more `gridSearch` does not return a
result, whatever the objective and the fuel: the `int` counter `nIter`
overflows. -/
theorem serial_search_counter_overflow (grids : List (List Dbl)) (hne : ∀ g ∈ grids, g ≠ [])
    (pFn : List Dbl → Double) (argMax0 : List Dbl) (fuel : Nat)
    (hbig : 2147483648 ≤ (lattice grids).length) :
    ∃ e, Machine.gridSearch grids pFn argMax0 fuel = .error e := by
  have hany : (grids.map List.length).any (fun len => len == 0) = false := by
    rw [Bool.eq_false_iff]
    intro h
    simp only [List.any_eq_true, List.mem_map, beq_iff_eq] at h
    obtain ⟨len, ⟨g, hg, rfl⟩, h0⟩ := h
    exact hne g hg (List.length_eq_zero.1 h0)
  have hzero : ((grids.map List.length).map fun _ => 0) = grids.map fun _ => 0 := by
    rw [List.map_map]
    rfl
  have hv : ValidIndex (Machine.gridSearch.init grids argMax0).dataIndexArray grids := by
    simp only [Machine.gridSearch.init, hzero]
    exact validIndex_zero grids hne
  have hfrom : latticeFrom grids (Machine.gridSearch.init grids argMax0).dataIndexArray
      = lattice grids := by
    simp only [Machine.gridSearch.init, hzero]
    exact latticeFrom_zero grids hne
  obtain ⟨e, he⟩ := Machine.gridSearch.loop_overflow grids hne pFn fuel
    (Machine.gridSearch.init grids argMax0) 0 hv rfl (by omega)
    (by rw [hfrom]; omega)
  refine ⟨e, ?_⟩
  unfold Machine.gridSearch Machine.gridSearch.run
  simp only [hany, Bool.false_eq_true, if_false, he]

/-! ## The serial search on machine values: claims -/

/-- Evaluation of `gridSearch` on `{0,1,2} × {0,1,2}` with the paraboloid
objective: multiplicity 1, maximum 0, argmax `(1, 1)`. -/
theorem Machine.gridSearch_paraboloid :
    Machine.gridSearch [grid012, grid012] Machine.paraboloid [] 9
      = .ok (1, .num (Dbl.fin 0), [Dbl.fin 1, Dbl.fin 1]) := by
  norm_num [Machine.gridSearch, Machine.gridSearch.run, Machine.gridSearch.init,
    Machine.gridSearch.loop, Machine.gridSearch.body, Ponzi.gridSearch.readArgs,
    Ponzi.gridSearch.increment, Machine.gridSearch.update, intIncrement, INT_MAX, grid012,
    Machine.paraboloid, paraboloid_fin, Double.gt, Double.eq, Dbl.fin_lt_fin, Dbl.fin_eq_fin]

theorem grid33_size : (lattice [grid012, grid012]).length < 2147483648 := by
  rw [lattice_grid33]
  simp

theorem grid33_first_not_nan :
    ∀ p, (lattice [grid012, grid012]).head? = some p → Machine.paraboloid p ≠ .nan := by
  intro p _
  simp [Machine.paraboloid]

/-- C2 (as stated, refuted). On the single grid `{0, 1}` with an objective that
is NaN at the first lattice point `(0)` and `1` at `(1)`, `gridSearch` returns
`maxval` NaN with argmax `(0)`: the first result is stored without a
comparison and no later value compares greater than NaN. The returned `maxval`
is not the maximum (the lattice point `(1)` has the value `1`), and
`f(argmax) == maxval` is false. -/
theorem serial_search_nan_first :
    Machine.gridSearch [[Dbl.fin 0, Dbl.fin 1]] nanThenOne [] 2
        = .ok (1, .nan, [Dbl.fin 0]) ∧
    [Dbl.fin 1] ∈ lattice [[Dbl.fin 0, Dbl.fin 1]] ∧
    nanThenOne [Dbl.fin 1] = .num (Dbl.fin 1) ∧
    (nanThenOne [Dbl.fin 0]).eq .nan = false := by
  have h10 : ¬ (Dbl.fin 1 = Dbl.fin 0) := by
    rw [Dbl.fin_eq_fin]
    norm_num
  refine ⟨?_, ?_, ?_, ?_⟩
  · simp [Machine.gridSearch, Machine.gridSearch.run, Machine.gridSearch.init,
      Machine.gridSearch.loop, Machine.gridSearch.body, Ponzi.gridSearch.readArgs,
      Ponzi.gridSearch.increment, Machine.gridSearch.update, intIncrement, INT_MAX,
      nanThenOne, Double.gt, Double.eq, h10]
  · simp [lattice]
  · simp [nanThenOne, h10]
  · simp [nanThenOne, Double.eq]

/-- C2 (amended). Serial N-D search result: for every grid set whose grids are
all non-empty and whose lattice has fewer than `2^31` points, and every
objective `pFn` whose value at the first lattice point is not NaN, `gridSearch`
(given fuel for every lattice point) returns a non-NaN `maxval` that bounds
every non-NaN value of `pFn` on the lattice and is the value of `pFn` at the
returned argmax, which is the first lattice point in lexicographic order with
`pFn == maxval`: every earlier point has a NaN or a strictly smaller value. -/
theorem serial_search_maximum (grids : List (List Dbl)) (pFn : List Dbl → Double)
    (argMax0 : List Dbl) (fuel : Nat) (hne : ∀ g ∈ grids, g ≠ [])
    (hsize : (lattice grids).length < 2147483648)
    (hfirst : ∀ p, (lattice grids).head? = some p → pFn p ≠ .nan)
    (hfuel : (lattice grids).length ≤ fuel) :
    ∃ count m argmax,
      Machine.gridSearch grids pFn argMax0 fuel = .ok (count, .num m, argmax) ∧
      (∀ p ∈ lattice grids, ∀ v, pFn p = .num v → v ≤ m) ∧
      pFn argmax = .num m ∧ (pFn argmax).eq (.num m) = true ∧
      ∃ pre post, lattice grids = pre ++ argmax :: post ∧
        (∀ q ∈ pre, pFn q = .nan ∨ ∃ v, pFn q = .num v ∧ v < m) ∧
        ∀ q ∈ pre, (pFn q).eq (.num m) = false := by
  obtain ⟨st, hrun, -, h⟩ := Machine.gridSearch_inv grids hne pFn argMax0 fuel hsize hfirst hfuel
  obtain ⟨m, hmax, hle, harg, ⟨pre, post, hsplit, hpre⟩, -⟩ := h (lattice_ne_nil grids hne)
  rw [hmax] at hrun
  refine ⟨_, m, _, hrun, hle, harg, ?_, pre, post, hsplit, hpre, ?_⟩
  · rw [harg]
    simp [Double.eq]
  · intro q hq
    rcases hpre q hq with hn | ⟨v, hv, hlt⟩
    · rw [hn]
      rfl
    · rw [hv, Bool.eq_false_iff]
      exact fun h => ne_of_lt hlt ((Double.eq_num v m).1 h)

/-- Witness for `serial_search_maximum`: on `{0,1,2} × {0,1,2}` with
`f(x,y) = -(x-1)^2 - (y-1)^2` the search returns maximum 0 at `(1,1)`, and
`serial_search_maximum` applies to this input. -/
theorem serial_search_maximum_witness :
    Machine.gridSearch [grid012, grid012] Machine.paraboloid [] 9
        = .ok (1, .num (Dbl.fin 0), [Dbl.fin 1, Dbl.fin 1]) ∧
    ∃ count m argmax,
      Machine.gridSearch [grid012, grid012] Machine.paraboloid [] 9
        = .ok (count, .num m, argmax) ∧
      (∀ p ∈ lattice [grid012, grid012], ∀ v, Machine.paraboloid p = .num v → v ≤ m) ∧
      Machine.paraboloid argmax = .num m ∧ (Machine.paraboloid argmax).eq (.num m) = true ∧
      ∃ pre post, lattice [grid012, grid012] = pre ++ argmax :: post ∧
        (∀ q ∈ pre, Machine.paraboloid q = .nan ∨
          ∃ v, Machine.paraboloid q = .num v ∧ v < m) ∧
        ∀ q ∈ pre, (Machine.paraboloid q).eq (.num m) = false :=
  ⟨Machine.gridSearch_paraboloid,
    serial_search_maximum [grid012, grid012] Machine.paraboloid [] 9 grid33_nonempty
      grid33_size grid33_first_not_nan grid33_fuel⟩

/-- C3 (as stated, refuted). On the single grid `{0, 1, 2}` with an objective
that is NaN at the first lattice point `(0)` and `5` at the two others,
`gridSearch` returns the integer 1 and `maxval` NaN, while no lattice point has
a value `==` to the returned `maxval`: the count of such points is 0. -/
theorem serial_multiplicity_nan_first :
    Machine.gridSearch [grid012] nanThenFive [] 3 = .ok (1, .nan, [Dbl.fin 0]) ∧
    (lattice [grid012]).countP (fun p => (nanThenFive p).eq .nan) = 0 := by
  have h10 : ¬ (Dbl.fin 1 = Dbl.fin 0) := by
    rw [Dbl.fin_eq_fin]
    norm_num
  have h20 : ¬ (Dbl.fin 2 = Dbl.fin 0) := by
    rw [Dbl.fin_eq_fin]
    norm_num
  refine ⟨?_, ?_⟩
  · simp [Machine.gridSearch, Machine.gridSearch.run, Machine.gridSearch.init,
      Machine.gridSearch.loop, Machine.gridSearch.body, Ponzi.gridSearch.readArgs,
      Ponzi.gridSearch.increment, Machine.gridSearch.update, intIncrement, INT_MAX,
      nanThenFive, grid012, Double.gt, Double.eq, h10, h20]
  · rw [List.countP_eq_zero]
    intro p _
    cases nanThenFive p <;> simp [Double.eq]

/-- C3 (amended). Serial multiplicity: for every grid set whose grids are all
non-empty and whose lattice has fewer than `2^31` points, and every objective
`pFn` whose value at the first lattice point is not NaN, the integer returned
by `gridSearch` is the number of lattice points (index tuples) `p` with
`pFn(p) == maxval` for the returned, non-NaN `maxval`, and it is at least 1. -/
theorem serial_search_multiplicity (grids : List (List Dbl)) (pFn : List Dbl → Double)
    (argMax0 : List Dbl) (fuel : Nat) (hne : ∀ g ∈ grids, g ≠ [])
    (hsize : (lattice grids).length < 2147483648)
    (hfirst : ∀ p, (lattice grids).head? = some p → pFn p ≠ .nan)
    (hfuel : (lattice grids).length ≤ fuel) :
    ∃ count m argmax,
      Machine.gridSearch grids pFn argMax0 fuel = .ok (count, .num m, argmax) ∧
      count = (((lattice grids).countP fun p => (pFn p).eq (.num m) : Nat) : Int) ∧
      1 ≤ count := by
  obtain ⟨st, hrun, -, h⟩ := Machine.gridSearch_inv grids hne pFn argMax0 fuel hsize hfirst hfuel
  obtain ⟨m, hmax, -, harg, ⟨pre, post, hsplit, -⟩, hcount⟩ := h (lattice_ne_nil grids hne)
  rw [hmax] at hrun
  refine ⟨_, m, _, hrun, hcount, ?_⟩
  rw [hcount]
  have hpos : 0 < (lattice grids).countP (fun p => (pFn p).eq (.num m)) := by
    apply List.countP_pos_iff.2
    refine ⟨st.argMaxArray, ?_, ?_⟩
    · rw [hsplit]
      simp
    · rw [harg]
      simp [Double.eq]
  omega

/-- Witness for `serial_search_multiplicity` on `{0,1,2} × {0,1,2}` with the
paraboloid objective. -/
theorem serial_search_multiplicity_witness :
    ∃ count m argmax,
      Machine.gridSearch [grid012, grid012] Machine.paraboloid [] 9
        = .ok (count, .num m, argmax) ∧
      count = (((lattice [grid012, grid012]).countP
        fun p => (Machine.paraboloid p).eq (.num m) : Nat) : Int) ∧
      1 ≤ count :=
  serial_search_multiplicity [grid012, grid012] Machine.paraboloid [] 9 grid33_nonempty
    grid33_size grid33_first_not_nan grid33_fuel

/-! ## The search on ordered values as an abstraction of the machine search -/

/-- One comparison on a non-NaN value, with room left in the counters, is the
same on machine values and on ordered values. -/
theorem Machine.gridSearch.update_abstracts (v : Dbl) (p : List Dbl)
    (stM : Machine.SearchState) (st : Ponzi.SearchState) (h : Machine.Abstracts stM st)
    (hroom : st.nIter < 2147483647) (hmult : st.nMaxMultiplicity ≤ st.nIter) :
    ∃ stM1, Machine.gridSearch.update (.num v) p stM = .ok stM1 ∧
      Machine.Abstracts stM1 (Ponzi.gridSearch.update v p st) ∧
      (Ponzi.gridSearch.update v p st).nIter = st.nIter + 1 ∧
      (Ponzi.gridSearch.update v p st).nMaxMultiplicity
        ≤ (Ponzi.gridSearch.update v p st).nIter := by
  obtain ⟨h1, h2, h3, h4, h5⟩ := h
  have hnmax : stM.nIter ≠ INT_MAX := by
    rw [h2]
    unfold INT_MAX
    omega
  have hmmax : stM.nMaxMultiplicity ≠ INT_MAX := by
    rw [h3]
    unfold INT_MAX
    omega
  have hS1 : (Ponzi.gridSearch.update v p st).nIter = st.nIter + 1 := by
    unfold Ponzi.gridSearch.update
    simp only
    split_ifs <;> rfl
  have hS2 : (Ponzi.gridSearch.update v p st).nMaxMultiplicity
      ≤ (Ponzi.gridSearch.update v p st).nIter := by
    unfold Ponzi.gridSearch.update
    simp only
    split_ifs <;> first | omega | (simp only; omega)
  suffices hmain : ∃ stM1, Machine.gridSearch.update (.num v) p stM = .ok stM1 ∧
      Machine.Abstracts stM1 (Ponzi.gridSearch.update v p st) by
    obtain ⟨stM1, ha, hb⟩ := hmain
    exact ⟨stM1, ha, hb, hS1, hS2⟩
  unfold Machine.gridSearch.update Ponzi.gridSearch.update Machine.Abstracts
  by_cases h0 : st.nIter = 0
  · have h0M : stM.nIter = 0 := by rw [h2, h0]; rfl
    simp only [h0, h0M, if_true]
    rw [intIncrement_ok 0 (by unfold INT_MAX; omega)]
    exact ⟨_, rfl, h1, rfl, rfl, rfl, rfl⟩
  · have h0M : stM.nIter ≠ 0 := by
      rw [h2]
      omega
    have hcast : stM.nIter + 1 = ((st.nIter + 1 : Nat) : Int) := by
      rw [h2]
      push_cast
      rfl
    have hcastm : stM.nMaxMultiplicity + 1 = ((st.nMaxMultiplicity + 1 : Nat) : Int) := by
      rw [h3]
      push_cast
      rfl
    simp only [if_neg h0, if_neg h0M, h4]
    by_cases hgt : st.max < v
    · simp only [(Double.gt_num v st.max).2 hgt, if_pos (show v > st.max from hgt), if_true]
      rw [intIncrement_ok _ hnmax]
      exact ⟨_, rfl, h1, hcast, rfl, rfl, rfl⟩
    · have hgt' : (Double.num v).gt (.num st.max) = false := by
        rw [Bool.eq_false_iff]
        exact fun h => hgt ((Double.gt_num v st.max).1 h)
      simp only [hgt', Bool.false_eq_true, if_false, if_neg (show ¬ v > st.max from hgt)]
      by_cases heq : v = st.max
      · simp only [(Double.eq_num v st.max).2 heq, if_pos heq, if_true]
        rw [intIncrement_ok _ hmmax]
        simp only
        rw [intIncrement_ok _ hnmax]
        exact ⟨_, rfl, h1, hcast, hcastm, rfl, h5⟩
      · have heq' : (Double.num v).eq (.num st.max) = false := by
          rw [Bool.eq_false_iff]
          exact fun h => heq ((Double.eq_num v st.max).1 h)
        simp only [heq', Bool.false_eq_true, if_false, if_neg heq]
        rw [intIncrement_ok _ hnmax]
        exact ⟨_, rfl, h1, hcast, h3, h4, h5⟩

/-- The two `while` loops run in step on an objective without NaN while the
counters have room for every point still to visit. -/
theorem Machine.gridSearch.loop_abstracts (grids : List (List Dbl))
    (hne : ∀ g ∈ grids, g ≠ []) (pFn : List Dbl → Dbl) (fuel : Nat)
    (stM : Machine.SearchState) (st : Ponzi.SearchState) (h : Machine.Abstracts stM st)
    (hv : ValidIndex st.dataIndexArray grids)
    (hfuel : (latticeFrom grids st.dataIndexArray).length ≤ fuel)
    (hroom : st.nIter + (latticeFrom grids st.dataIndexArray).length < 2147483648)
    (hmult : st.nMaxMultiplicity ≤ st.nIter) :
    ∃ stM1 st1, Machine.gridSearch.loop grids (fun p => .num (pFn p)) fuel stM = .ok stM1 ∧
      Ponzi.gridSearch.loop grids pFn fuel st = .ok st1 ∧ Machine.Abstracts stM1 st1 := by
  induction fuel generalizing stM st with
  | zero =>
    obtain ⟨p, rest, -, hfrom, -⟩ := odometer_step grids hne st.dataIndexArray hv
    rw [hfrom] at hfuel
    simp at hfuel
  | succ fuel ih =>
    obtain ⟨p, rest, hread, hfrom, hstep⟩ := odometer_step grids hne st.dataIndexArray hv
    rw [hfrom] at hfuel hroom
    simp only [List.length_cons] at hfuel hroom
    obtain ⟨stM1, hupd, habs, hiter, hmult1⟩ :=
      Machine.gridSearch.update_abstracts (pFn p) p stM st h (by omega) hmult
    have hidxM : stM1.dataIndexArray = st.dataIndexArray := by
      rw [habs.1, gridSearch.update_index]
    simp only [Machine.gridSearch.loop, Machine.gridSearch.body, Ponzi.gridSearch.loop,
      Ponzi.gridSearch.body, h.1, hread, hupd, hidxM, gridSearch.update_index]
    rcases hstep with ⟨h2, hval, hrest⟩ | ⟨h2, hrest, hzero⟩
    · generalize hinc : Ponzi.gridSearch.increment (grids.map List.length) st.dataIndexArray = nx
        at h2 hval hrest
      obtain ⟨idx1, b⟩ := nx
      simp only at h2 hval hrest
      subst h2
      simp only
      obtain ⟨_, h2', h3', h4', h5'⟩ := habs
      exact ih { stM1 with dataIndexArray := idx1 }
        { Ponzi.gridSearch.update (pFn p) p st with dataIndexArray := idx1 }
        ⟨rfl, h2', h3', h4', h5'⟩ hval (by rw [← hrest]; omega)
        (by
          rw [← hrest]
          simp only
          omega)
        hmult1
    · generalize hinc : Ponzi.gridSearch.increment (grids.map List.length) st.dataIndexArray = nx
        at h2 hzero
      obtain ⟨idx1, b⟩ := nx
      simp only at h2 hzero
      subst h2
      obtain ⟨_, h2', h3', h4', h5'⟩ := habs
      exact ⟨_, _, rfl, rfl, rfl, h2', h3', h4', h5'⟩

/-- The search on ordered values abstracts the machine search: on non-empty
grids with fewer than `2^31` lattice points, an objective without NaN and fuel
for every lattice point, both return the same multiplicity, maximum and
argmax. -/
theorem Machine.gridSearch_abstracts (grids : List (List Dbl)) (pFn : List Dbl → Dbl)
    (argMax0 : List Dbl) (fuel : Nat) (hne : ∀ g ∈ grids, g ≠ [])
    (hsize : (lattice grids).length < 2147483648) (hfuel : (lattice grids).length ≤ fuel) :
    ∃ count maxval argmax, Ponzi.gridSearch grids pFn argMax0 fuel = .ok (count, maxval, argmax) ∧
      Machine.gridSearch grids (fun p => .num (pFn p)) argMax0 fuel
        = .ok ((count : Int), .num maxval, argmax) := by
  have hany : (grids.map List.length).any (fun len => len == 0) = false := by
    rw [Bool.eq_false_iff]
    intro h
    simp only [List.any_eq_true, List.mem_map, beq_iff_eq] at h
    obtain ⟨len, ⟨g, hg, rfl⟩, h0⟩ := h
    exact hne g hg (List.length_eq_zero.1 h0)
  have hzero : ((grids.map List.length).map fun _ => 0) = grids.map fun _ => 0 := by
    rw [List.map_map]
    rfl
  have hv : ValidIndex (Ponzi.gridSearch.init grids argMax0).dataIndexArray grids := by
    simp only [Ponzi.gridSearch.init, hzero]
    exact validIndex_zero grids hne
  have hfrom : latticeFrom grids (Ponzi.gridSearch.init grids argMax0).dataIndexArray
      = lattice grids := by
    simp only [Ponzi.gridSearch.init, hzero]
    exact latticeFrom_zero grids hne
  obtain ⟨stM1, st1, hrunM, hrun, h1, h2, h3, h4, h5⟩ :=
    Machine.gridSearch.loop_abstracts grids hne pFn fuel
      (Machine.gridSearch.init grids argMax0) (Ponzi.gridSearch.init grids argMax0)
      ⟨rfl, rfl, rfl, rfl, rfl⟩ hv (by rw [hfrom]; exact hfuel)
      (by rw [hfrom]; simpa [Ponzi.gridSearch.init] using hsize) (le_refl _)
  refine ⟨st1.nMaxMultiplicity, st1.max, st1.argMaxArray, ?_, ?_⟩
  · have : Ponzi.gridSearch.run grids pFn argMax0 fuel = .ok st1 := by
      unfold Ponzi.gridSearch.run
      simp only [hany, Bool.false_eq_true, if_false]
      exact hrun
    unfold Ponzi.gridSearch
    rw [this]
  · unfold Machine.gridSearch Machine.gridSearch.run
    simp only [hany, Bool.false_eq_true, if_false, hrunM, h3, h4, h5]

end Ponzi
